import Mathlib

/-!
# RayTracer: the tracing kernel of `src/main.cpp`

A shallow embedding of the ray/sphere intersector (`traceRay`, `closestHit`,
`miss`), the per-pixel shading loop (`perPixel`), the colour packing
(`convertToRGBA`) and the camera ray generation of `main`.

C++ `float` is modelled by an arbitrary linearly ordered field `F` (exact
arithmetic); `glm::sqrt` is a parameter `sqrt : F → F` of every function that
calls it, so the definitions run on `ℚ` and are reasoned about on `ℝ` with
`Real.sqrt`.  `rand()` is an explicit stream `Nat → Nat` together with the
number of draws made so far, and `RAND_MAX` is a parameter.  The `int` sphere
index is an unbounded `Int` (scenes are assumed to hold fewer than `2^31`
spheres, beyond which the loop counter of the source overflows).
-/

namespace RayTracer

/-! ## Vector math (the parts of glm the kernel uses) -/

/-- The type `glm::vec3`. -/
structure Vec3 (F : Type) where
  x : F
  y : F
  z : F
deriving DecidableEq, Repr

/-- The type `glm::vec4`, with the colour accessors `r g b a`. -/
structure Vec4 (F : Type) where
  r : F
  g : F
  b : F
  a : F
deriving DecidableEq, Repr

section VectorMath

variable {F : Type} [LinearOrderedField F]

/-- The constructor `glm::vec3(s)`: all three components equal to `s`. -/
def Vec3.splat (s : F) : Vec3 F := ⟨s, s, s⟩

/-- Componentwise `operator+`. -/
def Vec3.add (u v : Vec3 F) : Vec3 F := ⟨u.x + v.x, u.y + v.y, u.z + v.z⟩

/-- Componentwise `operator-`. -/
def Vec3.sub (u v : Vec3 F) : Vec3 F := ⟨u.x - v.x, u.y - v.y, u.z - v.z⟩

/-- Unary `operator-`. -/
def Vec3.neg (v : Vec3 F) : Vec3 F := ⟨-v.x, -v.y, -v.z⟩

/-- The product `v * s` of a vector and a scalar. -/
def Vec3.scale (v : Vec3 F) (s : F) : Vec3 F := ⟨v.x * s, v.y * s, v.z * s⟩

/-- The function `glm::dot`. -/
def dot (u v : Vec3 F) : F := u.x * v.x + u.y * v.y + u.z * v.z

/-- The function `glm::inversesqrt`: `1 / sqrt(x)`. -/
def inversesqrt (sqrt : F → F) (x : F) : F := 1 / sqrt x

/-- The function `glm::normalize`: `v * inversesqrt(dot(v, v))`. -/
def normalize (sqrt : F → F) (v : Vec3 F) : Vec3 F :=
  v.scale (inversesqrt sqrt (dot v v))

/-- The function `glm::length`: `sqrt(dot(v, v))`. -/
def length (sqrt : F → F) (v : Vec3 F) : F := sqrt (dot v v)

/-- The function `glm::reflect`: `I - N * dot(N, I) * 2`. -/
def reflect (I N : Vec3 F) : Vec3 F := I.sub ((N.scale (dot N I)).scale 2)

/-- The scalar `glm::max`: `(a < b) ? b : a`. -/
def fmax (a b : F) : F := if a < b then b else a

/-- The scalar `glm::min`: `(b < a) ? b : a`. -/
def fmin (a b : F) : F := if b < a then b else a

/-- The scalar `glm::clamp`: `min(max(x, minVal), maxVal)`. -/
def clampS (x minVal maxVal : F) : F := fmin (fmax x minVal) maxVal

/-- The vector `glm::clamp` with scalar bounds, componentwise. -/
def clamp (v : Vec3 F) (minVal maxVal : F) : Vec3 F :=
  ⟨clampS v.x minVal maxVal, clampS v.y minVal maxVal, clampS v.z minVal maxVal⟩

end VectorMath

/-! ## Data model -/

/-- The class `Ray`: `origin` and `target` (the direction), read back by
`getOrigin` and `getTarget`. -/
structure Ray (F : Type) where
  origin : Vec3 F
  target : Vec3 F
deriving DecidableEq, Repr

/-- The struct `Material`. -/
structure Material (F : Type) where
  albedo : Vec3 F
  roughness : F
deriving DecidableEq, Repr

/-- The struct `Sphere`. -/
structure Sphere (F : Type) where
  position : Vec3 F
  radius : F
  material : Material F
deriving DecidableEq, Repr

/-- The struct `Scene`. -/
structure Scene (F : Type) where
  spheres : List (Sphere F)
deriving DecidableEq, Repr

/-- The struct `Hit`.  `color` is a `uint32_t`, `sphereID` an `int`. -/
structure Hit (F : Type) where
  position : Vec3 F
  normal : Vec3 F
  color : Nat
  distance : F
  sphereID : Int
deriving DecidableEq, Repr

section Kernel

variable {F : Type} [LinearOrderedField F]

/-- The constant `FLT_MAX` of `<cfloat>`: `(2 - 2^(-23)) * 2^127`. -/
def FLT_MAX : F := 340282346638528859811704183484516925440

/-- The member initialisers of `Material`: albedo `(1, 0, 1)`, roughness `0.1`. -/
def Material.default : Material F := ⟨⟨1, 0, 1⟩, 1 / 10⟩

/-- The member initialisers of `Sphere`: centre `(0, 0, 0)`, radius `0.5`. -/
def Sphere.default : Sphere F := ⟨⟨0, 0, 0⟩, 1 / 2, Material.default⟩

/-- A default-constructed `Hit`: `color = 0x000000FF`, `distance = -1`,
`sphereID = -1`.  `position` and `normal` have no initialiser in the source
(their value is indeterminate); they are modelled as the zero vector. -/
def Hit.default : Hit F := ⟨⟨0, 0, 0⟩, ⟨0, 0, 0⟩, 0x000000FF, -1, -1⟩

/-- The function `Ray::at`: `origin + target * t`. -/
def Ray.at (ray : Ray F) (t : F) : Vec3 F := ray.origin.add (ray.target.scale t)

/-- The function `miss`: a default `Hit` whose distance is set to `-1`. -/
def miss (_ray : Ray F) : Hit F := { (Hit.default : Hit F) with distance := -1 }

/-- The element `scene.spheres[id]` for an `int` index (reading outside the
vector is undefined in the source; the model yields a default sphere). -/
def Scene.sphereAt (scene : Scene F) (id : Int) : Sphere F :=
  scene.spheres.getD id.toNat Sphere.default

/-- The function `closestHit`: the normal is taken from the centre-relative
point, and only then is the centre added back to the position. -/
def closestHit (sqrt : F → F) (ray : Ray F) (hitDistance : F) (scene : Scene F)
    (id : Int) : Hit F :=
  let origin := ray.origin.sub (scene.sphereAt id).position
  let position := origin.add (ray.target.scale hitDistance)
  let normal := normalize sqrt position
  { (Hit.default : Hit F) with
    distance := hitDistance
    sphereID := id
    position := position.add (scene.sphereAt id).position
    normal := normal }

/-- The local `discriminant` of the loop body of `traceRay` for one sphere:
`b * b - 4 * a * c`. -/
def discriminant (ray : Ray F) (s : Sphere F) : F :=
  let oc := ray.origin.sub s.position
  let a := dot ray.target ray.target
  let b := 2 * dot oc ray.target
  let c := dot oc oc - s.radius * s.radius
  b * b - 4 * a * c

/-- The local `t` of the loop body of `traceRay` for one sphere: the near root
`(-b - sqrt(discriminant)) / (2 * a)`. -/
def nearRoot (sqrt : F → F) (ray : Ray F) (s : Sphere F) : F :=
  let oc := ray.origin.sub s.position
  let a := dot ray.target ray.target
  let b := 2 * dot oc ray.target
  (-b - sqrt (discriminant ray s)) / (2 * a)

/-- The `for` loop of `traceRay`, run over the spheres from index `i` on, with
the loop-carried pair `(closestSphere, hitDistance)`. -/
def traceLoop (sqrt : F → F) (ray : Ray F) :
    List (Sphere F) → Nat → Int × F → Int × F
  | [], _, best => best
  | s :: rest, i, (closestSphere, hitDistance) =>
    if discriminant ray s < 0 then
      traceLoop sqrt ray rest (i + 1) (closestSphere, hitDistance)
    else
      let t := nearRoot sqrt ray s
      if t > 0 ∧ t < hitDistance then
        traceLoop sqrt ray rest (i + 1) ((i : Int), t)
      else
        traceLoop sqrt ray rest (i + 1) (closestSphere, hitDistance)

/-- The function `traceRay`. -/
def traceRay (sqrt : F → F) (scene : Scene F) (ray : Ray F) : Hit F :=
  let best := traceLoop sqrt ray scene.spheres 0 (-1, FLT_MAX)
  if best.1 = -1 then miss ray
  else closestHit sqrt ray best.2 scene best.1

/-- Acceptance of a sphere by a fresh scan of `traceRay`, in the words of the
specification: the discriminant is non-negative and the near root lies
strictly between `0` and `FLT_MAX`. -/
def accepted (sqrt : F → F) (ray : Ray F) (s : Sphere F) : Prop :=
  0 ≤ discriminant ray s ∧ 0 < nearRoot sqrt ray s ∧ nearRoot sqrt ray s < FLT_MAX

instance (sqrt : F → F) (ray : Ray F) (s : Sphere F) : Decidable (accepted sqrt ray s) := by
  unfold accepted
  infer_instance

end Kernel

/-! ## Colour packing -/

section Packing

variable {F : Type} [LinearOrderedField F] [FloorRing F]

/-- The conversion `(uint8_t)x` of a `float`: the fractional part is discarded
(truncation toward zero) and the low eight bits are kept.  The source leaves
the conversion undefined when the truncated value is not in `0..255`; the
model reduces it modulo `2^8`. -/
def toUInt8 (x : F) : Nat := ((if 0 ≤ x then ⌊x⌋ else ⌈x⌉) % 256).toNat

/-- The function `convertToRGBA`: the four bytes are or-ed together at bit
offsets 24, 16, 8 and 0 of a `uint32_t`. -/
def convertToRGBA (color : Vec4 F) : Nat :=
  let r := toUInt8 (color.r * 255)
  let g := toUInt8 (color.g * 255)
  let b := toUInt8 (color.b * 255)
  let a := toUInt8 (color.a * 255)
  ((r <<< 24) ||| (g <<< 16) ||| (b <<< 8) ||| a) % 2 ^ 32

end Packing

/-! ## The shading loop -/

/-- The variables that the `for` loop of `perPixel` carries: the accumulator
`color`, `multiplier`, the current `ray`, the last `rayHit`, the loop counter
`i`, and `draws`, the number of `rand()` calls made so far (the position in
the random stream). -/
structure PixelState (F : Type) where
  color : Vec3 F
  multiplier : F
  ray : Ray F
  rayHit : Hit F
  i : Nat
  draws : Nat
deriving DecidableEq, Repr

section Shading

variable {F : Type} [LinearOrderedField F]

/-- One component of `randomVec`:
`-0.5 + (float)rand() / (float)(RAND_MAX / (0.5 - (-0.5)))`, for the value `r`
that `rand()` returned. -/
def randomComponent (RAND_MAX : Nat) (r : Nat) : F :=
  -(1 / 2) + (r : F) / ((RAND_MAX : F) / (1 / 2 - -(1 / 2)))

/-- The vector `randomVec` after `glm::normalize`, built from three
consecutive draws starting at position `n` of the stream (the braced
initialiser evaluates its three `rand()` calls left to right). -/
def randomVec (sqrt : F → F) (RAND_MAX : Nat) (rand : Nat → Nat) (n : Nat) : Vec3 F :=
  normalize sqrt
    ⟨randomComponent RAND_MAX (rand n),
     randomComponent RAND_MAX (rand (n + 1)),
     randomComponent RAND_MAX (rand (n + 2))⟩

/-- The local `lightDirection`: `normalize(vec3(-1, -1, -1))`. -/
def lightDirection (sqrt : F → F) : Vec3 F := normalize sqrt ⟨-1, -1, -1⟩

/-- The local `sphereColor` of a hit bounce:
`clamp(albedo * d + ambient, 0, 1)` with `d = max(dot(normal, -lightDirection), 0)`
and `ambient = vec3(1) * 0.1`. -/
def sphereColor (sqrt : F → F) (scene : Scene F) (rayHit : Hit F) : Vec3 F :=
  let d := fmax (dot rayHit.normal (lightDirection sqrt).neg) 0
  let sphere := scene.sphereAt rayHit.sphereID
  let ambient := (Vec3.splat (1 : F)).scale (1 / 10)
  clamp ((sphere.material.albedo.scale d).add ambient) 0 1

/-- The local `bgColor`: `(0.5, 0.7, 1.0)`. -/
def bgColor : Vec3 F := ⟨1 / 2, 7 / 10, 1⟩

/-- The ray for the next bounce: origin `position + normal * 0.0001`, target
`reflect(target, normal + roughness * randomVec)`. -/
def nextRay (sqrt : F → F) (RAND_MAX : Nat) (scene : Scene F) (rand : Nat → Nat)
    (ray : Ray F) (rayHit : Hit F) (n : Nat) : Ray F :=
  let sphere := scene.sphereAt rayHit.sphereID
  let newRayOrigin := rayHit.position.add (rayHit.normal.scale (1 / 10000))
  let newTarget := reflect ray.target
    (rayHit.normal.add ((randomVec sqrt RAND_MAX rand n).scale sphere.material.roughness))
  ⟨newRayOrigin, newTarget⟩

/-- The branch `rayHit.distance >= 0` of the loop body of `perPixel`: the shaded
colour times the multiplier is added to the accumulator, the multiplier decays
by `0.7`, three random numbers are drawn and the ray is replaced. -/
def hitStep (sqrt : F → F) (RAND_MAX : Nat) (scene : Scene F) (rand : Nat → Nat)
    (st : PixelState F) (rayHit : Hit F) : PixelState F :=
  { color := st.color.add ((sphereColor sqrt scene rayHit).scale st.multiplier)
    multiplier := st.multiplier * (7 / 10)
    ray := nextRay sqrt RAND_MAX scene rand st.ray rayHit st.draws
    rayHit := rayHit
    i := st.i + 1
    draws := st.draws + 3 }

/-- The `else` branch of the loop body of `perPixel`: the background times the
multiplier is added and the accumulator clamped to `[0, 1]`; the loop is then
left by `break`, so the counter `i` keeps its value. -/
def missStep (st : PixelState F) (rayHit : Hit F) : PixelState F :=
  { st with
    color := clamp (st.color.add (bgColor.scale st.multiplier)) 0 1
    rayHit := rayHit }

/-- The `for` loop of `perPixel` with `n` iterations left: each iteration
intersects the current ray with the scene and takes `hitStep` and continues,
or takes `missStep` and stops. -/
def perPixelLoop (sqrt : F → F) (RAND_MAX : Nat) (scene : Scene F) (rand : Nat → Nat) :
    Nat → PixelState F → PixelState F
  | 0, st => st
  | n + 1, st =>
    let rayHit := traceRay sqrt scene st.ray
    if rayHit.distance ≥ 0 then
      perPixelLoop sqrt RAND_MAX scene rand n (hitStep sqrt RAND_MAX scene rand st rayHit)
    else
      missStep st rayHit

/-- The constant `bounces` of `perPixel`. -/
def bounces : Nat := 10

/-- The state of `perPixel` when its loop is entered: `color = vec3(0)`,
`multiplier = 1`, `ray = pRay`, a default `rayHit`, no draw made. -/
def PixelState.init (pRay : Ray F) : PixelState F :=
  { color := Vec3.splat 0, multiplier := 1, ray := pRay, rayHit := Hit.default,
    i := 0, draws := 0 }

/-- The state of `perPixel` when its loop is left. -/
def perPixelRun (sqrt : F → F) (RAND_MAX : Nat) (scene : Scene F) (rand : Nat → Nat)
    (pRay : Ray F) : PixelState F :=
  perPixelLoop sqrt RAND_MAX scene rand bounces (PixelState.init pRay)

/-- The function `perPixel`: the last `rayHit`, with its `color` set to the
packing of the accumulated colour and alpha `1.0`. -/
def perPixel [FloorRing F] (sqrt : F → F) (RAND_MAX : Nat) (scene : Scene F)
    (rand : Nat → Nat) (pRay : Ray F) : Hit F :=
  let st := perPixelRun sqrt RAND_MAX scene rand pRay
  { st.rayHit with color := convertToRGBA ⟨st.color.x, st.color.y, st.color.z, 1⟩ }

/-- The loop state of `perPixel` after `k` iterations that all took the hit
branch. -/
def afterHits (sqrt : F → F) (RAND_MAX : Nat) (scene : Scene F) (rand : Nat → Nat)
    (pRay : Ray F) : Nat → PixelState F
  | 0 => PixelState.init pRay
  | k + 1 =>
    hitStep sqrt RAND_MAX scene rand (afterHits sqrt RAND_MAX scene rand pRay k)
      (traceRay sqrt scene (afterHits sqrt RAND_MAX scene rand pRay k).ray)

/-- The intersection that bounce `k` computes when bounces `0 .. k-1` all hit. -/
def bounceHit (sqrt : F → F) (RAND_MAX : Nat) (scene : Scene F) (rand : Nat → Nat)
    (pRay : Ray F) (k : Nat) : Hit F :=
  traceRay sqrt scene (afterHits sqrt RAND_MAX scene rand pRay k).ray

/-- The shaded colour `c_k` of bounce `k`. -/
def bounceColor (sqrt : F → F) (RAND_MAX : Nat) (scene : Scene F) (rand : Nat → Nat)
    (pRay : Ray F) (k : Nat) : Vec3 F :=
  sphereColor sqrt scene (bounceHit sqrt RAND_MAX scene rand pRay k)

/-- The colour that the specification gives for a first miss at bounce `k`
after the shaded colours `c 0 .. c (k-1)`: per channel,
`clamp(sum_{i<k} 0.7^i * c_i + 0.7^k * background, 0, 1)`. -/
def firstMissColor (c : Nat → Vec3 F) (k : Nat) : Vec3 F :=
  clamp
    ⟨(∑ i in Finset.range k, (7 / 10) ^ i * (c i).x) + (7 / 10) ^ k * (1 / 2),
     (∑ i in Finset.range k, (7 / 10) ^ i * (c i).y) + (7 / 10) ^ k * (7 / 10),
     (∑ i in Finset.range k, (7 / 10) ^ i * (c i).z) + (7 / 10) ^ k * 1⟩ 0 1

end Shading

/-! ## Camera ray generation (from `main`) -/

/-- The camera locals of `main`: `focalLength`, `viewportHeight`,
`viewportWidth` and `cameraCenter`. -/
structure Camera (F : Type) where
  focalLength : F
  viewportHeight : F
  viewportWidth : F
  cameraCenter : Vec3 F
deriving DecidableEq, Repr

section CameraRays

variable {F : Type} [LinearOrderedField F]

/-- The camera that `main` sets up for a `width` x `height` image:
`focalLength = 1`, `viewportHeight = 1`,
`viewportWidth = viewportHeight * (width / height)`, centre at the origin. -/
def mainCamera (width height : Nat) : Camera F :=
  { focalLength := 1
    viewportHeight := 1
    viewportWidth := 1 * ((width : F) / (height : F))
    cameraCenter := Vec3.splat 0 }

/-- The local `viewportU`. -/
def viewportU (cam : Camera F) : Vec3 F := ⟨cam.viewportWidth, 0, 0⟩

/-- The local `viewportV`. -/
def viewportV (cam : Camera F) : Vec3 F := ⟨0, cam.viewportHeight, 0⟩

/-- The local `pixelDeltaU`: `viewportU / width`, componentwise. -/
def pixelDeltaU (cam : Camera F) (width : Nat) : Vec3 F :=
  ⟨(viewportU cam).x / width, (viewportU cam).y / width, (viewportU cam).z / width⟩

/-- The local `pixelDeltaV`: `viewportV / height`, componentwise. -/
def pixelDeltaV (cam : Camera F) (height : Nat) : Vec3 F :=
  ⟨(viewportV cam).x / height, (viewportV cam).y / height, (viewportV cam).z / height⟩

/-- The local `viewportUpperLeft`:
`cameraCenter - vec3(0, 0, focalLength) - viewportU * 0.5 - viewportV * 0.5`. -/
def viewportUpperLeft (cam : Camera F) : Vec3 F :=
  ((cam.cameraCenter.sub ⟨0, 0, cam.focalLength⟩).sub ((viewportU cam).scale (1 / 2))).sub
    ((viewportV cam).scale (1 / 2))

/-- The local `pixel00Loc`:
`viewportUpperLeft + 0.5 * (pixelDeltaU + pixelDeltaV)`. -/
def pixel00Loc (cam : Camera F) (width height : Nat) : Vec3 F :=
  (viewportUpperLeft cam).add
    (((pixelDeltaU cam width).add (pixelDeltaV cam height)).scale (1 / 2))

/-- The local `pixelCenter` for pixel `(i, j)`:
`pixel00Loc + i * pixelDeltaU + j * pixelDeltaV`. -/
def pixelCenter (cam : Camera F) (width height i j : Nat) : Vec3 F :=
  ((pixel00Loc cam width height).add ((pixelDeltaU cam width).scale (i : F))).add
    ((pixelDeltaV cam height).scale (j : F))

/-- The local `rayDirection` for pixel `(i, j)`: `pixelCenter - cameraCenter`. -/
def rayDirection (cam : Camera F) (width height i j : Nat) : Vec3 F :=
  (pixelCenter cam width height i j).sub cam.cameraCenter

end CameraRays

/-! ## Example data -/

/-- Two unit spheres on the negative z axis, the farther one first. -/
def twoSpheres : Scene ℚ :=
  ⟨[⟨⟨0, 0, -5⟩, 1, Material.default⟩, ⟨⟨0, 0, -3⟩, 1, Material.default⟩]⟩

/-- The ray from the origin along the negative z axis. -/
def rayDownZ : Ray ℚ := ⟨⟨0, 0, 0⟩, ⟨0, 0, -1⟩⟩

/-- The ray from the origin along the positive z axis. -/
def rayUpZ : Ray ℚ := ⟨⟨0, 0, 0⟩, ⟨0, 0, 1⟩⟩

/-- A mirror sphere of radius `1` at the origin (roughness `0`). -/
def unitScene : Scene ℚ := ⟨[⟨⟨0, 0, 0⟩, 1, ⟨⟨1, 0, 1⟩, 0⟩⟩]⟩

/-- The random stream whose draws are all `0`. -/
def zeroStream : Nat → Nat := fun _ => 0

section ExampleData

variable {F : Type} [LinearOrderedField F]

/-- The sphere of the end-to-end scenario: centre at the origin, radius `0.5`,
albedo `(1, 0, 1)`, roughness `0`. -/
def centredSphere : Sphere F := ⟨⟨0, 0, 0⟩, 1 / 2, ⟨⟨1, 0, 1⟩, 0⟩⟩

/-- The scene holding only `centredSphere`. -/
def centredScene : Scene F := ⟨[centredSphere]⟩

/-- The ray that starts at the origin, inside `centredSphere`, along `-z`. -/
def rayFromCentre : Ray F := ⟨⟨0, 0, 0⟩, ⟨0, 0, -1⟩⟩

/-- The ray that starts at `3 * (0, 0, 1)` and is aimed at the origin. -/
def rayFromAbove : Ray F := ⟨(⟨0, 0, 1⟩ : Vec3 F).scale 3, (⟨0, 0, 1⟩ : Vec3 F).neg⟩

/-- The background colour `(0.5, 0.7, 1.0)` with alpha `1.0`. -/
def backgroundRGBA : Vec4 F := ⟨1 / 2, 7 / 10, 1, 1⟩

end ExampleData

section MoreExampleData

variable {F : Type} [LinearOrderedField F]

/-- The ray that starts at `(0, 0, 1)`, in front of `centredSphere`, along `-z`. -/
def rayFromFront : Ray F := ⟨⟨0, 0, 1⟩, ⟨0, 0, -1⟩⟩

end MoreExampleData

/-- Three unit spheres on the negative z axis: the first two coincide (and
differ only in roughness), the third lies behind them. -/
def tiedSpheres : Scene ℚ :=
  ⟨[⟨⟨0, 0, -3⟩, 1, ⟨⟨1, 0, 1⟩, 0⟩⟩, ⟨⟨0, 0, -3⟩, 1, ⟨⟨1, 0, 1⟩, 1⟩⟩,
    ⟨⟨0, 0, -5⟩, 1, ⟨⟨1, 0, 1⟩, 0⟩⟩]⟩

/-! ## Unpacking (specification side) -/

section Unpacking

variable {F : Type} [LinearOrderedField F]

/-- Modelled from the spec: the `unpack` of the round-trip property
`unpack(pack(r, g, b, a))`, which the repository does not implement.  It reads
the four bytes of a packed pixel, R, G, B, A from the most significant byte to
the least significant one, and divides each by 255. -/
def unpackRGBA (w : Nat) : Vec4 F :=
  ⟨(((w >>> 24) % 256 : Nat) : F) / 255, (((w >>> 16) % 256 : Nat) : F) / 255,
   (((w >>> 8) % 256 : Nat) : F) / 255, ((w % 256 : Nat) : F) / 255⟩

end Unpacking

section Rescaling

variable {F : Type} [LinearOrderedField F]

/-- The ray with the same origin and the direction scaled by `s`. -/
def Ray.rescale (ray : Ray F) (s : F) : Ray F := ⟨ray.origin, ray.target.scale s⟩

end Rescaling

section MirrorPairData

variable {F : Type} [LinearOrderedField F]

/-- Two mirror spheres of radius `1` facing each other on the z axis, centred
at the origin and at `(0, 0, 4)`: albedo `(1, 0, 1)`, roughness `0`. -/
def mirrorPair : Scene F :=
  ⟨[⟨⟨0, 0, 0⟩, 1, ⟨⟨1, 0, 1⟩, 0⟩⟩, ⟨⟨0, 0, 4⟩, 1, ⟨⟨1, 0, 1⟩, 0⟩⟩]⟩

/-- The primary ray that starts midway between the two spheres of `mirrorPair`
and is aimed at the first one. -/
def rayBetween : Ray F := ⟨⟨0, 0, 2⟩, ⟨0, 0, -1⟩⟩

/-- The ray that leaves the first sphere of `mirrorPair` towards the second. -/
def rayUp : Ray F := ⟨⟨0, 0, 10001 / 10000⟩, ⟨0, 0, 1⟩⟩

/-- The ray that leaves the second sphere of `mirrorPair` towards the first. -/
def rayDown : Ray F := ⟨⟨0, 0, 29999 / 10000⟩, ⟨0, 0, -1⟩⟩

end MirrorPairData

/-- A random stream that agrees with `zeroStream` on its first three draws
only. -/
def lateStream : Nat → Nat := fun n => if n < 3 then 0 else 7

/-! ## The kernel in binary32 arithmetic

The definitions above compute in an exact field.  The source computes in C++
`float`, the IEEE 754 binary32 format, where every operation rounds its exact
result to the nearest representable value, ties to even.  The definitions below
repeat `traceRay` and `perPixel` with that rounding made explicit after every
operation, in the order in which the source evaluates them.  A finite binary32
value is a rational number.  Infinities and NaN are not represented: where the
source would overflow or divide by zero the value of the model carries no
meaning, and the theorems about the model evaluate it only on quantities whose
computation stays finite. -/

section Binary32

/-- The number of binary digits of `n`, found by at most `fuel` halvings. -/
def bitLength : Nat → Nat → Nat
  | 0, _ => 0
  | fuel + 1, n => if n = 0 then 0 else bitLength fuel (n / 2) + 1

/-- The power `2 ^ e` for an integer exponent `e`. -/
def pow2 (e : ℤ) : ℚ :=
  if 0 ≤ e then ((2 ^ e.toNat : ℕ) : ℚ) else 1 / ((2 ^ (-e).toNat : ℕ) : ℚ)

/-- The binary exponent `floor(log2 |q|)` of a non-zero rational whose
numerator and denominator are below `2 ^ 4096`: the difference of the two bit
lengths, or one less. -/
def floorLog2 (q : ℚ) : ℤ :=
  let e : ℤ := (bitLength 4096 q.num.natAbs : ℤ) - (bitLength 4096 q.den : ℤ)
  if pow2 e ≤ |q| then e else e - 1

/-- Rounding to the nearest integer, a tie going to the even neighbour. -/
def roundHalfEven (q : ℚ) : ℤ :=
  let f := ⌊q⌋
  if q - f < 1 / 2 then f
  else if 1 / 2 < q - f then f + 1
  else if f % 2 = 0 then f else f + 1

/-- Rounding to the nearest floating-point number with `p` significant bits and
least normal exponent `emin` (round to nearest, ties to even; below
`2 ^ emin` the spacing stays that of the subnormal numbers).  The exponent is
not bounded above. -/
def roundTo (p : ℕ) (emin : ℤ) (q : ℚ) : ℚ :=
  if q = 0 then 0
  else
    let s := pow2 (max (floorLog2 q) emin - ((p : ℤ) - 1))
    (roundHalfEven (q / s) : ℚ) * s

/-- Rounding to `float` (binary32: 24 significant bits, least normal exponent
`-126`). -/
def round32 (q : ℚ) : ℚ := roundTo 24 (-126) q

/-- Rounding to `double` (binary64: 53 significant bits, least normal exponent
`-1022`). -/
def round64 (q : ℚ) : ℚ := roundTo 53 (-1022) q

/-- The loop of the integer square root: the bits of the root are decided from
bit `b - 1` down to bit `0`. -/
def isqrtLoop (n : Nat) : Nat → Nat → Nat
  | 0, r => r
  | b + 1, r =>
    if (r + 2 ^ b) * (r + 2 ^ b) ≤ n then isqrtLoop n b (r + 2 ^ b) else isqrtLoop n b r

/-- The integer square root `floor(sqrt n)`. -/
def isqrt (n : Nat) : Nat := isqrtLoop n (bitLength 4096 n / 2 + 1) 0

/-- The function `glm::sqrt` on `float`: the binary32 value nearest to the exact
square root.  The argument is scaled by `4 ^ k` so that the integer square root
`r` has more than 24 bits; the exact root then lies in `[r, r + 1)`, and unless
it equals `r` it rounds as `r + 1/2` does. -/
def sqrt32 (q : ℚ) : ℚ :=
  if q ≤ 0 then 0
  else
    let k : ℕ := (31 - floorLog2 q / 2).toNat
    let m : ℚ := q * ((4 ^ k : ℕ) : ℚ)
    let r : ℕ := isqrt ⌊m⌋₊
    let v : ℚ := if ((r * r : ℕ) : ℚ) = m then (r : ℚ) else (r : ℚ) + 1 / 2
    round32 (v / ((2 ^ k : ℕ) : ℚ))

/-- The `float` sum `x + y`. -/
def fadd (x y : ℚ) : ℚ := round32 (x + y)

/-- The `float` difference `x - y`. -/
def fsub (x y : ℚ) : ℚ := round32 (x - y)

/-- The `float` product `x * y`. -/
def fmul (x y : ℚ) : ℚ := round32 (x * y)

/-- The `float` quotient `x / y`. -/
def fdiv (x y : ℚ) : ℚ := round32 (x / y)

/-- Componentwise `operator+` on `glm::vec3`. -/
def add32 (u v : Vec3 ℚ) : Vec3 ℚ := ⟨fadd u.x v.x, fadd u.y v.y, fadd u.z v.z⟩

/-- Componentwise `operator-` on `glm::vec3`. -/
def sub32 (u v : Vec3 ℚ) : Vec3 ℚ := ⟨fsub u.x v.x, fsub u.y v.y, fsub u.z v.z⟩

/-- The product of a `glm::vec3` and a scalar. -/
def scale32 (v : Vec3 ℚ) (s : ℚ) : Vec3 ℚ := ⟨fmul v.x s, fmul v.y s, fmul v.z s⟩

/-- The function `glm::dot` on `vec3`: the three products are summed from left
to right, `(x + y) + z`. -/
def dot32 (u v : Vec3 ℚ) : ℚ := fadd (fadd (fmul u.x v.x) (fmul u.y v.y)) (fmul u.z v.z)

/-- The function `glm::inversesqrt`: `1 / sqrt(x)`. -/
def inversesqrt32 (x : ℚ) : ℚ := fdiv 1 (sqrt32 x)

/-- The function `glm::normalize`: `v * inversesqrt(dot(v, v))`. -/
def normalize32 (v : Vec3 ℚ) : Vec3 ℚ := scale32 v (inversesqrt32 (dot32 v v))

/-- The function `glm::reflect`: `I - N * dot(N, I) * 2`. -/
def reflect32 (I N : Vec3 ℚ) : Vec3 ℚ := sub32 I (scale32 (scale32 N (dot32 N I)) 2)

/-- The function `closestHit` in binary32. -/
def closestHit32 (ray : Ray ℚ) (hitDistance : ℚ) (scene : Scene ℚ) (id : Int) : Hit ℚ :=
  let origin := sub32 ray.origin (scene.sphereAt id).position
  let position := add32 origin (scale32 ray.target hitDistance)
  let normal := normalize32 position
  { (Hit.default : Hit ℚ) with
    distance := hitDistance
    sphereID := id
    position := add32 position (scene.sphereAt id).position
    normal := normal }

/-- The local `discriminant` of `traceRay` in binary32: `b * b - 4 * a * c`,
with `4 * a * c` evaluated as `(4 * a) * c`. -/
def discriminant32 (ray : Ray ℚ) (s : Sphere ℚ) : ℚ :=
  let oc := sub32 ray.origin s.position
  let a := dot32 ray.target ray.target
  let b := fmul 2 (dot32 oc ray.target)
  let c := fsub (dot32 oc oc) (fmul s.radius s.radius)
  fsub (fmul b b) (fmul (fmul 4 a) c)

/-- The local `t` of `traceRay` in binary32:
`(-b - sqrt(discriminant)) / (2 * a)`. -/
def nearRoot32 (ray : Ray ℚ) (s : Sphere ℚ) : ℚ :=
  let oc := sub32 ray.origin s.position
  let a := dot32 ray.target ray.target
  let b := fmul 2 (dot32 oc ray.target)
  fdiv (fsub (-b) (sqrt32 (discriminant32 ray s))) (fmul 2 a)

/-- The `for` loop of `traceRay` in binary32. -/
def traceLoop32 (ray : Ray ℚ) : List (Sphere ℚ) → Nat → Int × ℚ → Int × ℚ
  | [], _, best => best
  | s :: rest, i, (closestSphere, hitDistance) =>
    if discriminant32 ray s < 0 then
      traceLoop32 ray rest (i + 1) (closestSphere, hitDistance)
    else
      let t := nearRoot32 ray s
      if t > 0 ∧ t < hitDistance then
        traceLoop32 ray rest (i + 1) ((i : Int), t)
      else
        traceLoop32 ray rest (i + 1) (closestSphere, hitDistance)

/-- The function `traceRay` in binary32. -/
def traceRay32 (scene : Scene ℚ) (ray : Ray ℚ) : Hit ℚ :=
  let best := traceLoop32 ray scene.spheres 0 (-1, FLT_MAX)
  if best.1 = -1 then miss ray
  else closestHit32 ray best.2 scene best.1

/-- The function `convertToRGBA` in binary32: each channel is multiplied by
`255.0f`, the product is rounded to `float` and then truncated to a byte. -/
def convertToRGBA32 (color : Vec4 ℚ) : Nat :=
  let r := toUInt8 (fmul color.r 255)
  let g := toUInt8 (fmul color.g 255)
  let b := toUInt8 (fmul color.b 255)
  let a := toUInt8 (fmul color.a 255)
  ((r <<< 24) ||| (g <<< 16) ||| (b <<< 8) ||| a) % 2 ^ 32

/-- One component of `randomVec` in the arithmetic of the source:
`RAND_MAX / (0.5 - (-0.5))` is a `double` converted to `float`, `(float)rand()`
is divided by it in `float`, the sum with `-0.5` is a `double`, and the
initialiser of the `glm::vec3` converts it to `float`. -/
def randomComponent32 (RAND_MAX : Nat) (r : Nat) : ℚ :=
  round32 (round64 (-(1 / 2) +
    fdiv (round32 (r : ℚ))
      (round32 (round64 ((RAND_MAX : ℚ) / round64 (1 / 2 - -(1 / 2)))))))

/-- The vector `randomVec` after `glm::normalize`, in binary32. -/
def randomVec32 (RAND_MAX : Nat) (rand : Nat → Nat) (n : Nat) : Vec3 ℚ :=
  normalize32
    ⟨randomComponent32 RAND_MAX (rand n),
     randomComponent32 RAND_MAX (rand (n + 1)),
     randomComponent32 RAND_MAX (rand (n + 2))⟩

/-- The local `lightDirection` in binary32. -/
def lightDirection32 : Vec3 ℚ := normalize32 ⟨-1, -1, -1⟩

/-- The local `sphereColor` in binary32, with `0.1f` the `float` nearest to
`0.1`. -/
def sphereColor32 (scene : Scene ℚ) (rayHit : Hit ℚ) : Vec3 ℚ :=
  let d := fmax (dot32 rayHit.normal lightDirection32.neg) 0
  let sphere := scene.sphereAt rayHit.sphereID
  let ambient := scale32 (Vec3.splat (1 : ℚ)) (round32 (1 / 10))
  clamp (add32 (scale32 sphere.material.albedo d) ambient) 0 1

/-- The local `bgColor` in binary32: `(0.5f, 0.7f, 1.0f)`. -/
def bgColor32 : Vec3 ℚ := ⟨round32 (1 / 2), round32 (7 / 10), round32 1⟩

/-- The ray for the next bounce in binary32, with `0.0001f` the `float` nearest
to `0.0001`. -/
def nextRay32 (RAND_MAX : Nat) (scene : Scene ℚ) (rand : Nat → Nat)
    (ray : Ray ℚ) (rayHit : Hit ℚ) (n : Nat) : Ray ℚ :=
  let sphere := scene.sphereAt rayHit.sphereID
  let newRayOrigin := add32 rayHit.position (scale32 rayHit.normal (round32 (1 / 10000)))
  let newTarget := reflect32 ray.target
    (add32 rayHit.normal (scale32 (randomVec32 RAND_MAX rand n) sphere.material.roughness))
  ⟨newRayOrigin, newTarget⟩

/-- The hit branch of the loop body of `perPixel` in binary32, with `0.7f` the
`float` nearest to `0.7`. -/
def hitStep32 (RAND_MAX : Nat) (scene : Scene ℚ) (rand : Nat → Nat)
    (st : PixelState ℚ) (rayHit : Hit ℚ) : PixelState ℚ :=
  { color := add32 st.color (scale32 (sphereColor32 scene rayHit) st.multiplier)
    multiplier := fmul st.multiplier (round32 (7 / 10))
    ray := nextRay32 RAND_MAX scene rand st.ray rayHit st.draws
    rayHit := rayHit
    i := st.i + 1
    draws := st.draws + 3 }

/-- The miss branch of the loop body of `perPixel` in binary32. -/
def missStep32 (st : PixelState ℚ) (rayHit : Hit ℚ) : PixelState ℚ :=
  { st with
    color := clamp (add32 st.color (scale32 bgColor32 st.multiplier)) 0 1
    rayHit := rayHit }

/-- The `for` loop of `perPixel` in binary32, with `n` iterations left. -/
def perPixelLoop32 (RAND_MAX : Nat) (scene : Scene ℚ) (rand : Nat → Nat) :
    Nat → PixelState ℚ → PixelState ℚ
  | 0, st => st
  | n + 1, st =>
    let rayHit := traceRay32 scene st.ray
    if rayHit.distance ≥ 0 then
      perPixelLoop32 RAND_MAX scene rand n (hitStep32 RAND_MAX scene rand st rayHit)
    else
      missStep32 st rayHit

/-- The state of `perPixel` in binary32 when its loop is left. -/
def perPixelRun32 (RAND_MAX : Nat) (scene : Scene ℚ) (rand : Nat → Nat) (pRay : Ray ℚ) :
    PixelState ℚ :=
  perPixelLoop32 RAND_MAX scene rand bounces (PixelState.init pRay)

/-- The function `perPixel` in binary32. -/
def perPixel32 (RAND_MAX : Nat) (scene : Scene ℚ) (rand : Nat → Nat) (pRay : Ray ℚ) : Hit ℚ :=
  let st := perPixelRun32 RAND_MAX scene rand pRay
  { st.rayHit with color := convertToRGBA32 ⟨st.color.x, st.color.y, st.color.z, round32 1⟩ }

/-- The loop state of `perPixel` in binary32 after `k` iterations that all took
the hit branch. -/
def afterHits32 (RAND_MAX : Nat) (scene : Scene ℚ) (rand : Nat → Nat) (pRay : Ray ℚ) :
    Nat → PixelState ℚ
  | 0 => PixelState.init pRay
  | k + 1 =>
    hitStep32 RAND_MAX scene rand (afterHits32 RAND_MAX scene rand pRay k)
      (traceRay32 scene (afterHits32 RAND_MAX scene rand pRay k).ray)

/-- The intersection that bounce `k` computes in binary32 when bounces
`0 .. k-1` all hit. -/
def bounceHit32 (RAND_MAX : Nat) (scene : Scene ℚ) (rand : Nat → Nat) (pRay : Ray ℚ)
    (k : Nat) : Hit ℚ :=
  traceRay32 scene (afterHits32 RAND_MAX scene rand pRay k).ray

end Binary32

/-! ## The shading formula of the specification and inputs for binary32 -/

section ShadeFormula

variable {F : Type} [LinearOrderedField F]

/-- The shaded colour of a hit in the words of the specification:
`clamp(albedo * max(dot(normal, -lightDir), 0) + 0.1, 0, 1)` with
`lightDir = normalize(-1, -1, -1)`. -/
def shadeFormula (sqrt : F → F) (albedo normal : Vec3 F) : Vec3 F :=
  clamp ((albedo.scale (fmax (dot normal (normalize sqrt ⟨-1, -1, -1⟩).neg) 0)).add
    ⟨1 / 10, 1 / 10, 1 / 10⟩) 0 1

/-- The normal of bounce `i` on two facing spheres on the z axis: `(0, 0, 1)`
for even `i`, `(0, 0, -1)` for odd `i`. -/
def alternatingNormal (i : Nat) : Vec3 F := if i % 2 = 0 then ⟨0, 0, 1⟩ else ⟨0, 0, -1⟩

/-- An albedo of three binary32 values: `0.2f`, `91299 / 2^17`, `0.2f`. -/
def dimAlbedo : Vec3 F := ⟨13421773 / 67108864, 91299 / 131072, 13421773 / 67108864⟩

/-- An albedo of three binary32 values: `0.2f`, `0.026383216f`, `0.2f`. -/
def faintAlbedo : Vec3 F := ⟨13421773 / 67108864, 14164381 / 536870912, 13421773 / 67108864⟩

end ShadeFormula

/-- A sphere of radius `1e-30f` at the origin. -/
def tinyScene : Scene ℚ := ⟨[⟨⟨0, 0, 0⟩, round32 (1 / 10 ^ 30), ⟨⟨1, 0, 1⟩, 0⟩⟩]⟩

/-- A ray whose origin `(2u, -2u, -2u)`, `u = 2^-149` the least positive
`float`, lies just outside `tinyScene`, with direction `(0.7f, 0.3f, 0.35f)`. -/
def tinyRay : Ray ℚ :=
  ⟨⟨2 * pow2 (-149), -2 * pow2 (-149), -2 * pow2 (-149)⟩,
   ⟨round32 (7 / 10), round32 (3 / 10), round32 (35 / 100)⟩⟩

/-- A mirror sphere of radius `1` at the origin with albedo `dimAlbedo`. -/
def dimSphere : Scene ℚ := ⟨[⟨⟨0, 0, 0⟩, 1, ⟨dimAlbedo, 0⟩⟩]⟩

/-- The two facing mirror spheres of `mirrorPair` with albedo `faintAlbedo`. -/
def faintPair : Scene ℚ :=
  ⟨[⟨⟨0, 0, 0⟩, 1, ⟨faintAlbedo, 0⟩⟩, ⟨⟨0, 0, 4⟩, 1, ⟨faintAlbedo, 0⟩⟩]⟩

/-- The value of `RAND_MAX` in glibc: `2^31 - 1`. -/
def glibcRandMax : Nat := 2147483647

/-! ## The intersector -/

section TraceLemmas

variable {F : Type} [LinearOrderedField F]

theorem traceLoop_spec (sqrt : F → F) (ray : Ray F) (l : List (Sphere F)) :
    ∀ (i : Nat) (cs : Int) (hd : F),
      (traceLoop sqrt ray l i (cs, hd) = (cs, hd) ∧
        ∀ s ∈ l, ¬ (0 ≤ discriminant ray s ∧ 0 < nearRoot sqrt ray s ∧
          nearRoot sqrt ray s < hd)) ∨
      (∃ k s, l[k]? = some s ∧
        traceLoop sqrt ray l i (cs, hd) = (((i + k : Nat) : Int), nearRoot sqrt ray s) ∧
        0 ≤ discriminant ray s ∧ 0 < nearRoot sqrt ray s ∧ nearRoot sqrt ray s < hd ∧
        (∀ s' ∈ l, 0 ≤ discriminant ray s' → 0 < nearRoot sqrt ray s' →
          nearRoot sqrt ray s ≤ nearRoot sqrt ray s') ∧
        (∀ j s', j < k → l[j]? = some s' → 0 ≤ discriminant ray s' →
          0 < nearRoot sqrt ray s' → nearRoot sqrt ray s < nearRoot sqrt ray s')) := by
  induction l with
  | nil =>
    intro i cs hd
    left
    exact ⟨rfl, by simp⟩
  | cons s rest ih =>
    intro i cs hd
    by_cases hacc : 0 ≤ discriminant ray s ∧ 0 < nearRoot sqrt ray s ∧ nearRoot sqrt ray s < hd
    · obtain ⟨hd0, ht0, hthd⟩ := hacc
      have hstep : traceLoop sqrt ray (s :: rest) i (cs, hd)
          = traceLoop sqrt ray rest (i + 1) ((i : Int), nearRoot sqrt ray s) := by
        simp [traceLoop, not_lt.mpr hd0, ht0, hthd]
      right
      rcases ih (i + 1) (i : Int) (nearRoot sqrt ray s) with ⟨heq, hnone⟩ | ⟨k, s', hk, heq, hd', ht', hlt, hmin, htie⟩
      · refine ⟨0, s, by simp, ?_, hd0, ht0, hthd, ?_, ?_⟩
        · rw [hstep, heq]; simp
        · intro s' hs' hds' hts'
          rcases List.mem_cons.mp hs' with rfl | hmem
          · exact le_refl _
          · by_contra hcon
            exact hnone s' hmem ⟨hds', hts', not_le.mp hcon⟩
        · intro j s' hj
          exact absurd hj (Nat.not_lt_zero j)
      · refine ⟨k + 1, s', by simpa using hk, ?_, hd', ht', lt_trans hlt hthd, ?_, ?_⟩
        · rw [hstep, heq]
          simp [Nat.add_assoc, Nat.add_comm 1 k]
        · intro s'' hs'' hds'' hts''
          rcases List.mem_cons.mp hs'' with rfl | hmem
          · exact le_of_lt hlt
          · exact hmin s'' hmem hds'' hts''
        · intro j s'' hj hjs hds'' hts''
          cases j with
          | zero =>
            simp at hjs
            subst hjs
            exact hlt
          | succ j =>
            simp at hjs
            exact htie j s'' (Nat.lt_of_succ_lt_succ hj) hjs hds'' hts''
    · have hstep : traceLoop sqrt ray (s :: rest) i (cs, hd)
          = traceLoop sqrt ray rest (i + 1) (cs, hd) := by
        by_cases hd0 : discriminant ray s < 0
        · simp [traceLoop, hd0]
        · have : ¬ (nearRoot sqrt ray s > 0 ∧ nearRoot sqrt ray s < hd) := by
            intro h
            exact hacc ⟨not_lt.mp hd0, h.1, h.2⟩
          simp only [traceLoop, hd0, if_false, this]
      rcases ih (i + 1) cs hd with ⟨heq, hnone⟩ | ⟨k, s', hk, heq, hd', ht', hlt, hmin, htie⟩
      · left
        refine ⟨by rw [hstep, heq], ?_⟩
        intro s' hs'
        rcases List.mem_cons.mp hs' with rfl | hmem
        · exact hacc
        · exact hnone s' hmem
      · right
        have hs_le : 0 ≤ discriminant ray s → 0 < nearRoot sqrt ray s →
            hd ≤ nearRoot sqrt ray s := by
          intro h1 h2
          by_contra hcon
          exact hacc ⟨h1, h2, not_le.mp hcon⟩
        refine ⟨k + 1, s', by simpa using hk, ?_, hd', ht', hlt, ?_, ?_⟩
        · rw [hstep, heq]
          simp [Nat.add_assoc, Nat.add_comm 1 k]
        · intro s'' hs'' hds'' hts''
          rcases List.mem_cons.mp hs'' with rfl | hmem
          · exact le_of_lt (lt_of_lt_of_le hlt (hs_le hds'' hts''))
          · exact hmin s'' hmem hds'' hts''
        · intro j s'' hj hjs hds'' hts''
          cases j with
          | zero =>
            simp at hjs
            subst hjs
            exact lt_of_lt_of_le hlt (hs_le hds'' hts'')
          | succ j =>
            simp at hjs
            exact htie j s'' (Nat.lt_of_succ_lt_succ hj) hjs hds'' hts''

/-- The outcome of `traceRay`: a miss when no sphere is accepted, otherwise the
hit built by `closestHit` for the first sphere attaining the least accepted
near root. -/
theorem traceRay_cases (sqrt : F → F) (scene : Scene F) (ray : Ray F) :
    (traceRay sqrt scene ray = miss ray ∧ ∀ s ∈ scene.spheres, ¬ accepted sqrt ray s) ∨
    (∃ (k : Nat) (s : Sphere F), scene.spheres[k]? = some s ∧ accepted sqrt ray s ∧
      traceRay sqrt scene ray = closestHit sqrt ray (nearRoot sqrt ray s) scene (k : Int) ∧
      (∀ s' ∈ scene.spheres, accepted sqrt ray s' →
        nearRoot sqrt ray s ≤ nearRoot sqrt ray s') ∧
      (∀ j s', j < k → scene.spheres[j]? = some s' → accepted sqrt ray s' →
        nearRoot sqrt ray s < nearRoot sqrt ray s')) := by
  rcases traceLoop_spec sqrt ray scene.spheres 0 (-1) FLT_MAX with
    ⟨heq, hnone⟩ | ⟨k, s, hk, heq, hd, ht, hlt, hmin, htie⟩
  · left
    exact ⟨by simp [traceRay, heq], hnone⟩
  · right
    refine ⟨k, s, hk, ⟨hd, ht, hlt⟩, ?_, ?_, ?_⟩
    · have hne : ((k : Nat) : Int) ≠ -1 := by omega
      simp [traceRay, heq, hne]
    · intro s' hs' hacc
      exact hmin s' hs' hacc.1 hacc.2.1
    · intro j s' hj hjs hacc
      exact htie j s' hj hjs hacc.1 hacc.2.1

theorem closestHit_distance (sqrt : F → F) (ray : Ray F) (t : F) (scene : Scene F)
    (id : Int) : (closestHit sqrt ray t scene id).distance = t := rfl

theorem closestHit_sphereID (sqrt : F → F) (ray : Ray F) (t : F) (scene : Scene F)
    (id : Int) : (closestHit sqrt ray t scene id).sphereID = id := rfl

theorem miss_distance (ray : Ray F) : (miss ray).distance = -1 := rfl

theorem miss_sphereID (ray : Ray F) : (miss ray).sphereID = -1 := rfl

/-- With an accepted sphere in the scene, the distance that `traceRay` returns
is the least near root among the accepted spheres. -/
theorem traceRay_distance_least (sqrt : F → F) (scene : Scene F) (ray : Ray F)
    (h : ∃ s ∈ scene.spheres, accepted sqrt ray s) :
    (∃ s ∈ scene.spheres, accepted sqrt ray s ∧
      (traceRay sqrt scene ray).distance = nearRoot sqrt ray s) ∧
    (∀ s ∈ scene.spheres, accepted sqrt ray s →
      (traceRay sqrt scene ray).distance ≤ nearRoot sqrt ray s) := by
  rcases traceRay_cases sqrt scene ray with ⟨_, hnone⟩ | ⟨k, s, hk, hacc, heq, hmin, _⟩
  · obtain ⟨s, hs, hacc⟩ := h
    exact absurd hacc (hnone s hs)
  · have hmem : s ∈ scene.spheres := List.getElem?_mem hk
    rw [heq, closestHit_distance]
    exact ⟨⟨s, hmem, hacc, rfl⟩, hmin⟩

/-- C1: when at least one sphere is accepted, `traceRay` returns the least
accepted near root as distance and the index of a sphere attaining it as
sphereID, and the distance is the same for every permutation of the spheres.
It holds for any square-root function and any direction. -/
theorem traceRay_nearest (sqrt : F → F) (scene : Scene F) (ray : Ray F)
    (h : ∃ s ∈ scene.spheres, accepted sqrt ray s) :
    (∃ (k : Nat) (s : Sphere F), scene.spheres[k]? = some s ∧ accepted sqrt ray s ∧
      (traceRay sqrt scene ray).sphereID = (k : Int) ∧
      (traceRay sqrt scene ray).distance = nearRoot sqrt ray s) ∧
    (∀ s ∈ scene.spheres, accepted sqrt ray s →
      (traceRay sqrt scene ray).distance ≤ nearRoot sqrt ray s) ∧
    (∀ scene' : Scene F, scene'.spheres.Perm scene.spheres →
      (traceRay sqrt scene' ray).distance = (traceRay sqrt scene ray).distance) := by
  refine ⟨?_, (traceRay_distance_least sqrt scene ray h).2, ?_⟩
  · rcases traceRay_cases sqrt scene ray with ⟨_, hnone⟩ | ⟨k, s, hk, hacc, heq, _, _⟩
    · obtain ⟨s, hs, hacc⟩ := h
      exact absurd hacc (hnone s hs)
    · exact ⟨k, s, hk, hacc, by rw [heq, closestHit_sphereID],
        by rw [heq, closestHit_distance]⟩
  · intro scene' hperm
    have h' : ∃ s ∈ scene'.spheres, accepted sqrt ray s := by
      obtain ⟨s, hs, hacc⟩ := h
      exact ⟨s, hperm.symm.subset hs, hacc⟩
    obtain ⟨⟨s, hs, hacc, hst⟩, hmin⟩ := traceRay_distance_least sqrt scene ray h
    obtain ⟨⟨s', hs', hacc', hst'⟩, hmin'⟩ := traceRay_distance_least sqrt scene' ray h'
    apply le_antisymm
    · have := hmin' s (hperm.symm.subset hs) hacc
      rw [hst]
      exact this
    · have := hmin s' (hperm.subset hs') hacc'
      rw [hst']
      exact this

/-- Witness for C1: the two-sphere scene on the ray down the z axis, where the
second sphere is the nearer one. -/
theorem traceRay_nearest_witness :
    (∃ s ∈ twoSpheres.spheres, accepted Rat.sqrt rayDownZ s) ∧
    (traceRay Rat.sqrt twoSpheres rayDownZ).sphereID = 1 ∧
    (traceRay Rat.sqrt twoSpheres rayDownZ).distance = 2 ∧
    ∀ scene' : Scene ℚ, scene'.spheres.Perm twoSpheres.spheres →
      (traceRay Rat.sqrt scene' rayDownZ).distance
        = (traceRay Rat.sqrt twoSpheres rayDownZ).distance := by
  have hacc : ∃ s ∈ twoSpheres.spheres, accepted Rat.sqrt rayDownZ s := by
    refine ⟨⟨⟨0, 0, -3⟩, 1, Material.default⟩, by simp [twoSpheres], ?_⟩
    simp [accepted, discriminant, nearRoot, rayDownZ, dot, Vec3.sub, FLT_MAX]
    norm_num [Rat.sqrt]
  refine ⟨hacc, ?_, ?_, (traceRay_nearest Rat.sqrt twoSpheres rayDownZ hacc).2.2⟩
  · simp [traceRay, traceLoop, twoSpheres, rayDownZ, discriminant, nearRoot, dot, Vec3.sub,
      FLT_MAX, closestHit, miss]
    norm_num [Rat.sqrt]
  · simp [traceRay, traceLoop, twoSpheres, rayDownZ, discriminant, nearRoot, dot, Vec3.sub,
      FLT_MAX, closestHit, miss]
    norm_num [Rat.sqrt]

/-- C3: the Hit that `traceRay` returns has distance >= 0 exactly when its
sphereID is >= 0; it is either the miss record (distance -1, sphereID -1) or
a hit with distance > 0 and a sphereID that indexes a sphere of the scene. -/
theorem traceRay_hit_invariant (sqrt : F → F) (scene : Scene F) (ray : Ray F) :
    ((traceRay sqrt scene ray).distance ≥ 0 ↔ (traceRay sqrt scene ray).sphereID ≥ 0) ∧
    (((traceRay sqrt scene ray).distance = -1 ∧ (traceRay sqrt scene ray).sphereID = -1) ∨
     ((traceRay sqrt scene ray).distance > 0 ∧ 0 ≤ (traceRay sqrt scene ray).sphereID ∧
       (traceRay sqrt scene ray).sphereID < (scene.spheres.length : Int))) := by
  rcases traceRay_cases sqrt scene ray with ⟨heq, _⟩ | ⟨k, s, hk, hacc, heq, _, _⟩
  · rw [heq, miss_distance, miss_sphereID]
    refine ⟨?_, Or.inl ⟨rfl, rfl⟩⟩
    constructor
    · intro h
      have : ¬ ((-1 : F) ≥ 0) := by norm_num
      exact absurd h this
    · intro h
      exact absurd h (by decide)
  · rw [heq, closestHit_distance, closestHit_sphereID]
    have hklt : k < scene.spheres.length := by
      by_contra hcon
      rw [List.getElem?_eq_none (not_lt.mp hcon)] at hk
      exact Option.noConfusion hk
    have hk0 : (0 : Int) ≤ (k : Int) := Int.ofNat_nonneg k
    refine ⟨⟨fun _ => hk0, fun _ => le_of_lt hacc.2.1⟩, Or.inr ⟨hacc.2.1, hk0, ?_⟩⟩
    exact_mod_cast hklt

theorem dot_self_nonneg (v : Vec3 F) : 0 ≤ dot v v := by
  unfold dot
  nlinarith [mul_self_nonneg v.x, mul_self_nonneg v.y, mul_self_nonneg v.z]

theorem dot_sub_swap (p o d : Vec3 F) : dot (o.sub p) d = -dot (p.sub o) d := by
  simp only [dot, Vec3.sub]
  ring

/-- A sphere whose centre is not ahead of the ray has a near root that is not
positive, for every square-root function with non-negative values. -/
theorem nearRoot_nonpos_of_away (sqrt : F → F) (hs : ∀ x, 0 ≤ sqrt x) (ray : Ray F)
    (s : Sphere F) (h : dot (s.position.sub ray.origin) ray.target ≤ 0) :
    nearRoot sqrt ray s ≤ 0 := by
  unfold nearRoot
  apply div_nonpos_of_nonpos_of_nonneg
  · have hb := dot_sub_swap s.position ray.origin ray.target
    have := hs (discriminant ray s)
    linarith
  · have := dot_self_nonneg ray.target
    linarith

/-- C2 (amended): in exact arithmetic, `traceRay` returns the miss record
(distance -1, sphereID -1) when the scene is empty, and when no sphere centre
lies ahead of the ray, that is `dot(center - origin, direction) <= 0` for every
sphere.  The scalars are those of any ordered field, every operation exact; the
square root is any function with non-negative values. -/
theorem traceRay_miss (sqrt : F → F) (hs : ∀ x, 0 ≤ sqrt x) (scene : Scene F) (ray : Ray F)
    (h : scene.spheres = [] ∨
      ∀ s ∈ scene.spheres, dot (s.position.sub ray.origin) ray.target ≤ 0) :
    traceRay sqrt scene ray = miss ray ∧
    (traceRay sqrt scene ray).distance = -1 ∧ (traceRay sqrt scene ray).sphereID = -1 := by
  have haway : ∀ s ∈ scene.spheres, dot (s.position.sub ray.origin) ray.target ≤ 0 := by
    rcases h with hnil | h
    · intro s hs'
      rw [hnil] at hs'
      exact absurd hs' (List.not_mem_nil s)
    · exact h
  have hmiss : traceRay sqrt scene ray = miss ray := by
    rcases traceRay_cases sqrt scene ray with ⟨heq, _⟩ | ⟨k, s, hk, hacc, _, _, _⟩
    · exact heq
    · have hle := nearRoot_nonpos_of_away sqrt hs ray s (haway s (List.getElem?_mem hk))
      exact absurd hacc.2.1 (not_lt.mpr hle)
  rw [hmiss]
  exact ⟨rfl, rfl, rfl⟩

/-- Witness for C2: both spheres of the example scene lie behind the ray up
the z axis. -/
theorem traceRay_miss_witness :
    (twoSpheres.spheres = [] ∨
      ∀ s ∈ twoSpheres.spheres, dot (s.position.sub rayUpZ.origin) rayUpZ.target ≤ 0) ∧
    (traceRay Rat.sqrt twoSpheres rayUpZ).distance = -1 ∧
    (traceRay Rat.sqrt twoSpheres rayUpZ).sphereID = -1 := by
  have h : twoSpheres.spheres = [] ∨
      ∀ s ∈ twoSpheres.spheres, dot (s.position.sub rayUpZ.origin) rayUpZ.target ≤ 0 := by
    right
    intro s hs
    simp only [twoSpheres, List.mem_cons, List.mem_singleton, List.not_mem_nil, or_false] at hs
    rcases hs with rfl | rfl <;> norm_num [dot, Vec3.sub, rayUpZ]
  exact ⟨h, (traceRay_miss Rat.sqrt Rat.sqrt_nonneg twoSpheres rayUpZ h).2⟩

/-- The miss record of an empty scene, with no assumption on the square root. -/
theorem traceRay_nil (sqrt : F → F) (ray : Ray F) : traceRay sqrt ⟨[]⟩ ray = miss ray := by
  simp [traceRay, traceLoop]

end TraceLemmas

/-! ## The intersector in exact arithmetic (`ℝ` with `Real.sqrt`) -/

section ExactArithmetic

/-- The discriminant of the head-on configuration: a sphere of radius `R` at
the origin seen from `D * n` along `-n`, with `n` a unit vector. -/
theorem headOn_discriminant (R D : ℝ) (n : Vec3 ℝ) (mat : Material ℝ) (hn : dot n n = 1) :
    discriminant ⟨n.scale D, n.neg⟩ ⟨⟨0, 0, 0⟩, R, mat⟩ = (2 * R) ^ 2 := by
  simp only [dot, discriminant, Vec3.scale, Vec3.neg, Vec3.sub] at hn ⊢
  linear_combination (4 * R ^ 2) * hn

/-- The near root of the head-on configuration is `D - R`. -/
theorem headOn_nearRoot (R D : ℝ) (n : Vec3 ℝ) (mat : Material ℝ) (hR : 0 ≤ R)
    (hn : dot n n = 1) :
    nearRoot Real.sqrt ⟨n.scale D, n.neg⟩ ⟨⟨0, 0, 0⟩, R, mat⟩ = D - R := by
  have hdisc := headOn_discriminant R D n mat hn
  have hsq : Real.sqrt ((2 * R) ^ 2) = 2 * R := Real.sqrt_sq (by linarith)
  unfold nearRoot
  simp only [hdisc, hsq]
  simp only [dot, Vec3.scale, Vec3.neg, Vec3.sub] at hn ⊢
  have ha : -n.x * -n.x + -n.y * -n.y + -n.z * -n.z = 1 := by linear_combination hn
  have hb : (n.x * D - 0) * -n.x + (n.y * D - 0) * -n.y + (n.z * D - 0) * -n.z = -D := by
    linear_combination (-D) * hn
  rw [ha, hb]
  ring

/-- The head-on configuration: `traceRay` returns the hit at `D - R` on sphere
`0` when `0 < D - R < FLT_MAX`, and the miss record when `D - R >= FLT_MAX`. -/
theorem headOn_traceRay (R D : ℝ) (n : Vec3 ℝ) (mat : Material ℝ) (hR : 0 < R) (hD : R < D)
    (hn : dot n n = 1) :
    (D - R < FLT_MAX →
      traceRay Real.sqrt ⟨[⟨⟨0, 0, 0⟩, R, mat⟩]⟩ ⟨n.scale D, n.neg⟩
        = closestHit Real.sqrt ⟨n.scale D, n.neg⟩ (D - R) ⟨[⟨⟨0, 0, 0⟩, R, mat⟩]⟩ 0) ∧
    (FLT_MAX ≤ D - R →
      traceRay Real.sqrt ⟨[⟨⟨0, 0, 0⟩, R, mat⟩]⟩ ⟨n.scale D, n.neg⟩
        = miss ⟨n.scale D, n.neg⟩) := by
  have hdisc := headOn_discriminant R D n mat hn
  have hroot := headOn_nearRoot R D n mat (le_of_lt hR) hn
  have hd0 : ¬ (discriminant ⟨n.scale D, n.neg⟩ ⟨⟨0, 0, 0⟩, R, mat⟩ < 0) := by
    rw [hdisc]
    exact not_lt.mpr (sq_nonneg _)
  have hpos : 0 < D - R := by linarith
  constructor
  · intro hcap
    simp [traceRay, traceLoop, hd0, hroot, hpos, hcap]
  · intro hcap
    simp [traceRay, traceLoop, hd0, hroot, hpos, not_lt.mpr hcap]

/-- C4: for a sphere of radius `R > 0` at the origin and the ray from `D * n`
along `-n`, with `n` a unit vector and `R < D`, `traceRay` returns distance
`D - R` and sphereID `0`.  The distance `D` of the origin is one that a `float`
holds, `D <= FLT_MAX`. -/
theorem traceRay_head_on (R D : ℝ) (n : Vec3 ℝ) (mat : Material ℝ) (hR : 0 < R) (hD : R < D)
    (hn : dot n n = 1) (hfin : D ≤ FLT_MAX) :
    (traceRay Real.sqrt ⟨[⟨⟨0, 0, 0⟩, R, mat⟩]⟩ ⟨n.scale D, n.neg⟩).distance = D - R ∧
    (traceRay Real.sqrt ⟨[⟨⟨0, 0, 0⟩, R, mat⟩]⟩ ⟨n.scale D, n.neg⟩).sphereID = 0 := by
  rw [(headOn_traceRay R D n mat hR hD hn).1 (by linarith)]
  exact ⟨rfl, rfl⟩

/-- Witness for C4: radius `1/2`, distance `3`, normal `(0, 0, 1)`. -/
theorem traceRay_head_on_witness :
    (0 : ℝ) < 1 / 2 ∧ (1 / 2 : ℝ) < 3 ∧ dot (⟨0, 0, 1⟩ : Vec3 ℝ) ⟨0, 0, 1⟩ = 1 ∧
    (3 : ℝ) ≤ FLT_MAX ∧
    (traceRay Real.sqrt ⟨[⟨⟨0, 0, 0⟩, 1 / 2, Material.default⟩]⟩
      ⟨(⟨0, 0, 1⟩ : Vec3 ℝ).scale 3, (⟨0, 0, 1⟩ : Vec3 ℝ).neg⟩).distance = 3 - 1 / 2 ∧
    (traceRay Real.sqrt ⟨[⟨⟨0, 0, 0⟩, 1 / 2, Material.default⟩]⟩
      ⟨(⟨0, 0, 1⟩ : Vec3 ℝ).scale 3, (⟨0, 0, 1⟩ : Vec3 ℝ).neg⟩).sphereID = 0 :=
  ⟨by norm_num, by norm_num, by norm_num [dot], by norm_num [FLT_MAX],
    traceRay_head_on (1 / 2) 3 ⟨0, 0, 1⟩ Material.default (by norm_num) (by norm_num)
      (by norm_num [dot]) (by norm_num [FLT_MAX])⟩

/-- The near root solves the ray/sphere quadratic: the point at parameter
`nearRoot` has squared distance `radius^2` from the centre, when the direction
is non-zero and the discriminant is non-negative. -/
theorem nearRoot_on_sphere (ray : Ray ℝ) (s : Sphere ℝ) (hdir : ray.target ≠ ⟨0, 0, 0⟩)
    (hdisc : 0 ≤ discriminant ray s) :
    dot ((ray.origin.sub s.position).add (ray.target.scale (nearRoot Real.sqrt ray s)))
        ((ray.origin.sub s.position).add (ray.target.scale (nearRoot Real.sqrt ray s)))
      = s.radius * s.radius := by
  have ha0 : 0 ≤ dot ray.target ray.target := dot_self_nonneg ray.target
  have hane : dot ray.target ray.target ≠ 0 := by
    intro h0
    apply hdir
    have hx := mul_self_nonneg ray.target.x
    have hy := mul_self_nonneg ray.target.y
    have hz := mul_self_nonneg ray.target.z
    simp only [dot] at h0
    have hx0 : ray.target.x = 0 := mul_self_eq_zero.mp (by linarith)
    have hy0 : ray.target.y = 0 := mul_self_eq_zero.mp (by linarith)
    have hz0 : ray.target.z = 0 := mul_self_eq_zero.mp (by linarith)
    cases hrt : ray.target with
    | mk x y z =>
      rw [hrt] at hx0 hy0 hz0
      simp only at hx0 hy0 hz0
      rw [hx0, hy0, hz0]
  have hsq := Real.mul_self_sqrt hdisc
  set t := nearRoot Real.sqrt ray s with ht
  have hlin : 2 * dot ray.target ray.target * t
      = -(2 * dot (ray.origin.sub s.position) ray.target) - Real.sqrt (discriminant ray s) := by
    rw [ht]
    unfold nearRoot
    field_simp
  have hroot : Real.sqrt (discriminant ray s)
      = -(2 * dot (ray.origin.sub s.position) ray.target)
        - 2 * dot ray.target ray.target * t := by linarith
  rw [hroot] at hsq
  have hquad : dot ray.target ray.target *
      (dot ray.target ray.target * t * t
        + 2 * dot (ray.origin.sub s.position) ray.target * t
        + (dot (ray.origin.sub s.position) (ray.origin.sub s.position)
            - s.radius * s.radius)) = 0 := by
    have hd : discriminant ray s
        = 2 * dot (ray.origin.sub s.position) ray.target
            * (2 * dot (ray.origin.sub s.position) ray.target)
          - 4 * dot ray.target ray.target
            * (dot (ray.origin.sub s.position) (ray.origin.sub s.position)
                - s.radius * s.radius) := rfl
    rw [hd] at hsq
    linear_combination (1 / 4 : ℝ) * hsq
  have hq := (mul_eq_zero.mp hquad).resolve_left hane
  simp only [dot, Vec3.add, Vec3.scale, Vec3.sub] at hq ⊢
  linear_combination hq

/-- C5: on a scene of positive radii and a ray of non-zero direction, a hit on
sphere `k` has position `origin + t * direction`, at distance `radius` from the
centre of sphere `k`, and normal `(position - center) / radius`, which has
unit length. -/
theorem traceRay_hit_geometry (scene : Scene ℝ) (ray : Ray ℝ)
    (hrad : ∀ s ∈ scene.spheres, 0 < s.radius) (hdir : ray.target ≠ ⟨0, 0, 0⟩)
    (k : Nat) (s : Sphere ℝ) (hk : scene.spheres[k]? = some s)
    (hhit : (traceRay Real.sqrt scene ray).sphereID = (k : Int)) :
    (traceRay Real.sqrt scene ray).position
      = ray.at (traceRay Real.sqrt scene ray).distance ∧
    length Real.sqrt ((traceRay Real.sqrt scene ray).position.sub s.position) = s.radius ∧
    (traceRay Real.sqrt scene ray).normal
      = ((traceRay Real.sqrt scene ray).position.sub s.position).scale (1 / s.radius) ∧
    length Real.sqrt (traceRay Real.sqrt scene ray).normal = 1 := by
  rcases traceRay_cases Real.sqrt scene ray with ⟨heq, _⟩ | ⟨k', s', hk', hacc, heq, _, _⟩
  · rw [heq, miss_sphereID] at hhit
    omega
  · rw [heq, closestHit_sphereID] at hhit
    have hkk : k' = k := by exact_mod_cast hhit
    subst hkk
    rw [hk] at hk'
    have hss : s = s' := Option.some.inj hk'
    subst hss
    have hr : 0 < s.radius := hrad s (List.getElem?_mem hk)
    have hat : scene.sphereAt (k' : Int) = s := by
      simp [Scene.sphereAt, List.getD, hk]
    have hon := nearRoot_on_sphere ray s hdir hacc.1
    have hsqrt : Real.sqrt (s.radius * s.radius) = s.radius := Real.sqrt_mul_self (le_of_lt hr)
    rw [heq]
    simp only [closestHit, hat]
    set p := (ray.origin.sub s.position).add (ray.target.scale (nearRoot Real.sqrt ray s))
      with hp
    have hback : (p.add s.position).sub s.position = p := by
      simp [Vec3.add, Vec3.sub]
    have hnorm : normalize Real.sqrt p = p.scale (1 / s.radius) := by
      simp only [normalize, inversesqrt, hon, hsqrt]
    refine ⟨?_, ?_, ?_, ?_⟩
    · simp only [hp, Ray.at, Vec3.add, Vec3.sub, Vec3.scale]
      congr 1 <;> ring
    · rw [hback]
      simp only [length, hon, hsqrt]
    · rw [hback, hnorm]
    · rw [hnorm]
      have hdot : dot (p.scale (1 / s.radius)) (p.scale (1 / s.radius)) = 1 := by
        have : dot (p.scale (1 / s.radius)) (p.scale (1 / s.radius))
            = dot p p * (1 / s.radius) * (1 / s.radius) := by
          simp only [dot, Vec3.scale]
          ring
        rw [this, hon]
        field_simp
      simp only [length, hdot, Real.sqrt_one]

/-- C6: a sphere that strictly contains the ray origin is never the sphere of
the Hit that `traceRay` returns: its near root is not positive. -/
theorem traceRay_origin_inside (scene : Scene ℝ) (ray : Ray ℝ) (k : Nat) (s : Sphere ℝ)
    (hk : scene.spheres[k]? = some s)
    (hin : length Real.sqrt (ray.origin.sub s.position) < s.radius) :
    (traceRay Real.sqrt scene ray).sphereID ≠ (k : Int) := by
  have hroot : nearRoot Real.sqrt ray s ≤ 0 := by
    have hoc0 := dot_self_nonneg (ray.origin.sub s.position)
    have hl0 := Real.sqrt_nonneg (dot (ray.origin.sub s.position) (ray.origin.sub s.position))
    have hl2 := Real.mul_self_sqrt hoc0
    unfold length at hin
    have hc : dot (ray.origin.sub s.position) (ray.origin.sub s.position)
        - s.radius * s.radius < 0 := by nlinarith
    have ha0 := dot_self_nonneg ray.target
    have hdisc : (2 * dot (ray.origin.sub s.position) ray.target) ^ 2 ≤ discriminant ray s := by
      have hd : discriminant ray s
          = 2 * dot (ray.origin.sub s.position) ray.target
              * (2 * dot (ray.origin.sub s.position) ray.target)
            - 4 * dot ray.target ray.target
              * (dot (ray.origin.sub s.position) (ray.origin.sub s.position)
                  - s.radius * s.radius) := rfl
      rw [hd]
      nlinarith [mul_nonneg ha0 (le_of_lt (neg_pos.mpr hc))]
    have habs := Real.abs_le_sqrt hdisc
    have hneg := neg_abs_le (2 * dot (ray.origin.sub s.position) ray.target)
    unfold nearRoot
    apply div_nonpos_of_nonpos_of_nonneg
    · linarith
    · linarith
  intro hhit
  rcases traceRay_cases Real.sqrt scene ray with ⟨heq, _⟩ | ⟨k', s', hk', hacc, heq, _, _⟩
  · rw [heq, miss_sphereID] at hhit
    omega
  · rw [heq, closestHit_sphereID] at hhit
    have hkk : k' = k := by exact_mod_cast hhit
    subst hkk
    rw [hk] at hk'
    have hss : s = s' := Option.some.inj hk'
    subst hss
    exact absurd hacc.2.1 (not_lt.mpr hroot)

/-- Witness for C5: the centred sphere seen from `(0, 0, 3)`. -/
theorem traceRay_hit_geometry_witness :
    (∀ s ∈ (centredScene : Scene ℝ).spheres, 0 < s.radius) ∧
    (rayFromAbove : Ray ℝ).target ≠ ⟨0, 0, 0⟩ ∧
    (centredScene : Scene ℝ).spheres[0]? = some centredSphere ∧
    (traceRay Real.sqrt centredScene (rayFromAbove : Ray ℝ)).sphereID = ((0 : Nat) : Int) ∧
    (traceRay Real.sqrt centredScene (rayFromAbove : Ray ℝ)).position
      = (rayFromAbove : Ray ℝ).at (traceRay Real.sqrt centredScene rayFromAbove).distance ∧
    length Real.sqrt ((traceRay Real.sqrt centredScene (rayFromAbove : Ray ℝ)).position.sub
      (centredSphere : Sphere ℝ).position) = (centredSphere : Sphere ℝ).radius ∧
    (traceRay Real.sqrt centredScene (rayFromAbove : Ray ℝ)).normal
      = ((traceRay Real.sqrt centredScene (rayFromAbove : Ray ℝ)).position.sub
          (centredSphere : Sphere ℝ).position).scale (1 / (centredSphere : Sphere ℝ).radius) ∧
    length Real.sqrt (traceRay Real.sqrt centredScene (rayFromAbove : Ray ℝ)).normal = 1 := by
  have hrad : ∀ s ∈ (centredScene : Scene ℝ).spheres, 0 < s.radius := by
    intro s hs
    simp only [centredScene, List.mem_singleton] at hs
    rw [hs]
    norm_num [centredSphere]
  have hdir : (rayFromAbove : Ray ℝ).target ≠ ⟨0, 0, 0⟩ := by
    simp [rayFromAbove, Vec3.neg]
  have hk : (centredScene : Scene ℝ).spheres[0]? = some centredSphere := rfl
  have hhit : (traceRay Real.sqrt centredScene (rayFromAbove : Ray ℝ)).sphereID
      = ((0 : Nat) : Int) := by
    have h := (headOn_traceRay (1 / 2) 3 ⟨0, 0, 1⟩ ⟨⟨1, 0, 1⟩, 0⟩ (by norm_num) (by norm_num)
      (by norm_num [dot])).1 (by norm_num [FLT_MAX])
    show (traceRay Real.sqrt ⟨[⟨⟨0, 0, 0⟩, 1 / 2, ⟨⟨1, 0, 1⟩, 0⟩⟩]⟩
      ⟨(⟨0, 0, 1⟩ : Vec3 ℝ).scale 3, (⟨0, 0, 1⟩ : Vec3 ℝ).neg⟩).sphereID = ((0 : Nat) : Int)
    rw [h]
    rfl
  exact ⟨hrad, hdir, hk, hhit,
    traceRay_hit_geometry centredScene rayFromAbove hrad hdir 0 centredSphere hk hhit⟩

/-- Witness for C6: the origin lies inside the centred sphere, and the ray from
the origin does not hit it. -/
theorem traceRay_origin_inside_witness :
    (centredScene : Scene ℝ).spheres[0]? = some centredSphere ∧
    length Real.sqrt ((rayFromCentre : Ray ℝ).origin.sub (centredSphere : Sphere ℝ).position)
      < (centredSphere : Sphere ℝ).radius ∧
    (traceRay Real.sqrt centredScene (rayFromCentre : Ray ℝ)).sphereID ≠ ((0 : Nat) : Int) := by
  have hk : (centredScene : Scene ℝ).spheres[0]? = some centredSphere := rfl
  have hin : length Real.sqrt
      ((rayFromCentre : Ray ℝ).origin.sub (centredSphere : Sphere ℝ).position)
        < (centredSphere : Sphere ℝ).radius := by
    simp [length, dot, Vec3.sub, rayFromCentre, centredSphere]
  exact ⟨hk, hin, traceRay_origin_inside centredScene rayFromCentre 0 centredSphere hk hin⟩

end ExactArithmetic

/-! ## Colour packing -/

section PackingLemmas

variable {F : Type} [LinearOrderedField F] [FloorRing F]

/-- Four bytes or-ed together at offsets 24, 16, 8 and 0 add up without carry. -/
theorem pack_bytes (r g b a : Nat) (hr : r < 256) (hg : g < 256) (hb : b < 256)
    (ha : a < 256) :
    ((r <<< 24) ||| (g <<< 16) ||| (b <<< 8) ||| a) % 2 ^ 32
      = r * 2 ^ 24 + g * 2 ^ 16 + b * 2 ^ 8 + a := by
  have h1 : (r <<< 24) ||| (g <<< 16) = 2 ^ 16 * (r * 2 ^ 8 + g) := by
    have hlt : g * 2 ^ 16 < 2 ^ 24 := by omega
    have := Nat.mul_add_lt_is_or hlt r
    rw [Nat.shiftLeft_eq, Nat.shiftLeft_eq, Nat.mul_comm r (2 ^ 24), ← this]
    omega
  have h2 : 2 ^ 16 * (r * 2 ^ 8 + g) ||| (b <<< 8) = 2 ^ 8 * (r * 2 ^ 16 + g * 2 ^ 8 + b) := by
    have hlt : b * 2 ^ 8 < 2 ^ 16 := by omega
    have := Nat.mul_add_lt_is_or hlt (r * 2 ^ 8 + g)
    rw [Nat.shiftLeft_eq, ← this]
    omega
  have h3 : 2 ^ 8 * (r * 2 ^ 16 + g * 2 ^ 8 + b) ||| a
      = r * 2 ^ 24 + g * 2 ^ 16 + b * 2 ^ 8 + a := by
    have hlt : a < 2 ^ 8 := by omega
    have := Nat.mul_add_lt_is_or hlt (r * 2 ^ 16 + g * 2 ^ 8 + b)
    rw [← this]
    omega
  rw [h1, h2, h3]
  apply Nat.mod_eq_of_lt
  omega

/-- The byte conversion of a value in `[0, 256)` is its floor. -/
theorem toUInt8_eq_floor (x : F) (h0 : 0 ≤ x) (h1 : x < 256) : toUInt8 x = ⌊x⌋₊ := by
  have hf0 : 0 ≤ ⌊x⌋ := Int.floor_nonneg.mpr h0
  have hf1 : ⌊x⌋ < 256 := by
    apply Int.floor_lt.mpr
    exact_mod_cast h1
  unfold toUInt8
  rw [if_pos h0, Int.emod_eq_of_lt hf0 hf1, Int.floor_toNat]

theorem toUInt8_lt (x : F) : toUInt8 x < 256 := by
  unfold toUInt8
  have h1 : (if 0 ≤ x then ⌊x⌋ else ⌈x⌉) % 256 < 256 := Int.emod_lt_of_pos _ (by norm_num)
  have h0 : 0 ≤ (if 0 ≤ x then ⌊x⌋ else ⌈x⌉) % 256 := Int.emod_nonneg _ (by norm_num)
  omega

/-- The byte conversion of a value between the natural number `n < 256` and
`n + 1` is `n`. -/
theorem toUInt8_eq_of_between (x : F) (n : Nat) (hn : n < 256) (h0 : (n : F) ≤ x)
    (h1 : x < (n : F) + 1) : toUInt8 x = n := by
  have hx0 : 0 ≤ x := le_trans (Nat.cast_nonneg n) h0
  have hx1 : x < 256 := by
    have : (n : F) + 1 ≤ 256 := by exact_mod_cast hn
    linarith
  rw [toUInt8_eq_floor x hx0 hx1]
  exact (Nat.floor_eq_iff hx0).mpr ⟨h0, h1⟩

/-- C9: for channels in `[0, 1]`, `convertToRGBA` returns
`floor(255 r) * 2^24 + floor(255 g) * 2^16 + floor(255 b) * 2^8 + floor(255 a)`:
each channel is truncated after scaling by 255 and the bytes lie in the order
R, G, B, A from the most significant one. -/
theorem convertToRGBA_layout (color : Vec4 F)
    (hr : 0 ≤ color.r ∧ color.r ≤ 1) (hg : 0 ≤ color.g ∧ color.g ≤ 1)
    (hb : 0 ≤ color.b ∧ color.b ≤ 1) (ha : 0 ≤ color.a ∧ color.a ≤ 1) :
    convertToRGBA color
      = ⌊255 * color.r⌋₊ * 2 ^ 24 + ⌊255 * color.g⌋₊ * 2 ^ 16 + ⌊255 * color.b⌋₊ * 2 ^ 8
        + ⌊255 * color.a⌋₊ := by
  have key : ∀ x : F, 0 ≤ x ∧ x ≤ 1 → toUInt8 (x * 255) = ⌊255 * x⌋₊ := by
    intro x hx
    rw [toUInt8_eq_floor (x * 255) (by nlinarith [hx.1]) (by nlinarith [hx.2]), mul_comm]
  unfold convertToRGBA
  simp only []
  rw [pack_bytes _ _ _ _ (toUInt8_lt _) (toUInt8_lt _) (toUInt8_lt _) (toUInt8_lt _),
    key _ hr, key _ hg, key _ hb, key _ ha]

/-- Witness for C9: the background colour with alpha one packs to the bytes
127, 178, 255, 255. -/
theorem convertToRGBA_layout_witness :
    (0 ≤ (backgroundRGBA : Vec4 ℚ).r ∧ (backgroundRGBA : Vec4 ℚ).r ≤ 1) ∧
    (0 ≤ (backgroundRGBA : Vec4 ℚ).g ∧ (backgroundRGBA : Vec4 ℚ).g ≤ 1) ∧
    (0 ≤ (backgroundRGBA : Vec4 ℚ).b ∧ (backgroundRGBA : Vec4 ℚ).b ≤ 1) ∧
    (0 ≤ (backgroundRGBA : Vec4 ℚ).a ∧ (backgroundRGBA : Vec4 ℚ).a ≤ 1) ∧
    convertToRGBA (backgroundRGBA : Vec4 ℚ) = 127 * 2 ^ 24 + 178 * 2 ^ 16 + 255 * 2 ^ 8 + 255 := by
  have hr : 0 ≤ (backgroundRGBA : Vec4 ℚ).r ∧ (backgroundRGBA : Vec4 ℚ).r ≤ 1 := by
    norm_num [backgroundRGBA]
  have hg : 0 ≤ (backgroundRGBA : Vec4 ℚ).g ∧ (backgroundRGBA : Vec4 ℚ).g ≤ 1 := by
    norm_num [backgroundRGBA]
  have hb : 0 ≤ (backgroundRGBA : Vec4 ℚ).b ∧ (backgroundRGBA : Vec4 ℚ).b ≤ 1 := by
    norm_num [backgroundRGBA]
  have ha : 0 ≤ (backgroundRGBA : Vec4 ℚ).a ∧ (backgroundRGBA : Vec4 ℚ).a ≤ 1 := by
    norm_num [backgroundRGBA]
  refine ⟨hr, hg, hb, ha, ?_⟩
  rw [convertToRGBA_layout backgroundRGBA hr hg hb ha]
  have h1 : ⌊255 * (backgroundRGBA : Vec4 ℚ).r⌋₊ = 127 := by
    rw [Nat.floor_eq_iff (by norm_num [backgroundRGBA])]
    norm_num [backgroundRGBA]
  have h2 : ⌊255 * (backgroundRGBA : Vec4 ℚ).g⌋₊ = 178 := by
    rw [Nat.floor_eq_iff (by norm_num [backgroundRGBA])]
    norm_num [backgroundRGBA]
  have h3 : ⌊255 * (backgroundRGBA : Vec4 ℚ).b⌋₊ = 255 := by
    rw [Nat.floor_eq_iff (by norm_num [backgroundRGBA])]
    norm_num [backgroundRGBA]
  have h4 : ⌊255 * (backgroundRGBA : Vec4 ℚ).a⌋₊ = 255 := by
    rw [Nat.floor_eq_iff (by norm_num [backgroundRGBA])]
    norm_num [backgroundRGBA]
  rw [h1, h2, h3, h4]

/-- The packing of the background colour `(0.5, 0.7, 1.0)` with alpha `1.0`. -/
theorem convertToRGBA_background :
    convertToRGBA (⟨1 / 2, 7 / 10, 1, 1⟩ : Vec4 F) = 0x7FB2FFFF := by
  have hr : toUInt8 ((1 / 2 : F) * 255) = 127 :=
    toUInt8_eq_of_between _ 127 (by norm_num) (by norm_num) (by norm_num)
  have hg : toUInt8 ((7 / 10 : F) * 255) = 178 :=
    toUInt8_eq_of_between _ 178 (by norm_num) (by norm_num) (by norm_num)
  have hb : toUInt8 ((1 : F) * 255) = 255 :=
    toUInt8_eq_of_between _ 255 (by norm_num) (by norm_num) (by norm_num)
  unfold convertToRGBA
  simp only [hr, hg, hb]
  rfl

end PackingLemmas

/-! ## The shading loop -/

section ShadingLemmas

variable {F : Type} [LinearOrderedField F]

theorem clampS_of_mem (x : F) (h0 : 0 ≤ x) (h1 : x ≤ 1) : clampS x 0 1 = x := by
  unfold clampS fmin fmax
  rw [if_neg (not_lt.mpr h0), if_neg (not_lt.mpr h1)]

/-- On the empty scene the loop of `perPixel` takes the miss branch at once. -/
theorem perPixelRun_nil (sqrt : F → F) (RAND_MAX : Nat) (rand : Nat → Nat) (pRay : Ray F) :
    perPixelRun sqrt RAND_MAX ⟨[]⟩ rand pRay = missStep (PixelState.init pRay) (miss pRay) := by
  have hneg : ¬ ((miss pRay).distance ≥ 0) := by
    rw [miss_distance]
    norm_num
  show perPixelLoop sqrt RAND_MAX ⟨[]⟩ rand (9 + 1) (PixelState.init pRay) = _
  simp only [perPixelLoop, PixelState.init, traceRay_nil, hneg, if_false]

/-- C7: on a scene with no sphere, `perPixel` returns the packing of the
background `(0.5, 0.7, 1.0)` with alpha `1.0`, that is `0x7FB2FFFF` (bytes 127,
178, 255, 255), for every primary ray and every random stream, and draws no
random number. -/
theorem perPixel_empty_scene [FloorRing F] (sqrt : F → F) (RAND_MAX : Nat)
    (rand : Nat → Nat) (pRay : Ray F) :
    (perPixel sqrt RAND_MAX ⟨[]⟩ rand pRay).color = 0x7FB2FFFF ∧
    (perPixel sqrt RAND_MAX ⟨[]⟩ rand pRay).color
      = 127 * 2 ^ 24 + 178 * 2 ^ 16 + 255 * 2 ^ 8 + 255 ∧
    (perPixelRun sqrt RAND_MAX ⟨[]⟩ rand pRay).color = bgColor ∧
    (perPixelRun sqrt RAND_MAX ⟨[]⟩ rand pRay).draws = 0 := by
  have hcol : (perPixelRun sqrt RAND_MAX ⟨[]⟩ rand pRay).color = bgColor := by
    rw [perPixelRun_nil]
    simp only [missStep, PixelState.init, bgColor, clamp, Vec3.add, Vec3.scale, Vec3.splat,
      mul_one, zero_add]
    rw [clampS_of_mem _ (by norm_num) (by norm_num),
      clampS_of_mem _ (by norm_num) (by norm_num),
      clampS_of_mem _ (by norm_num) (by norm_num)]
  have hpack : (perPixel sqrt RAND_MAX ⟨[]⟩ rand pRay).color = 0x7FB2FFFF := by
    simp only [perPixel, hcol, bgColor]
    exact convertToRGBA_background
  refine ⟨hpack, ?_, hcol, ?_⟩
  · rw [hpack]
    norm_num
  · rw [perPixelRun_nil]
    rfl

theorem afterHits_multiplier (sqrt : F → F) (RAND_MAX : Nat) (scene : Scene F)
    (rand : Nat → Nat) (pRay : Ray F) (k : Nat) :
    (afterHits sqrt RAND_MAX scene rand pRay k).multiplier = (7 / 10) ^ k := by
  induction k with
  | zero => simp [afterHits, PixelState.init]
  | succ k ih => simp only [afterHits, hitStep, ih, pow_succ]

theorem afterHits_i (sqrt : F → F) (RAND_MAX : Nat) (scene : Scene F)
    (rand : Nat → Nat) (pRay : Ray F) (k : Nat) :
    (afterHits sqrt RAND_MAX scene rand pRay k).i = k := by
  induction k with
  | zero => simp [afterHits, PixelState.init]
  | succ k ih => simp only [afterHits, hitStep, ih]

theorem afterHits_draws (sqrt : F → F) (RAND_MAX : Nat) (scene : Scene F)
    (rand : Nat → Nat) (pRay : Ray F) (k : Nat) :
    (afterHits sqrt RAND_MAX scene rand pRay k).draws = 3 * k := by
  induction k with
  | zero => simp [afterHits, PixelState.init]
  | succ k ih =>
    simp only [afterHits, hitStep, ih]
    ring

/-- The accumulator after `k` hit bounces is the weighted sum of the shaded
colours. -/
theorem afterHits_color (sqrt : F → F) (RAND_MAX : Nat) (scene : Scene F)
    (rand : Nat → Nat) (pRay : Ray F) (k : Nat) :
    (afterHits sqrt RAND_MAX scene rand pRay k).color
      = ⟨∑ i in Finset.range k, (7 / 10) ^ i * (bounceColor sqrt RAND_MAX scene rand pRay i).x,
         ∑ i in Finset.range k, (7 / 10) ^ i * (bounceColor sqrt RAND_MAX scene rand pRay i).y,
         ∑ i in Finset.range k, (7 / 10) ^ i * (bounceColor sqrt RAND_MAX scene rand pRay i).z⟩ := by
  induction k with
  | zero => simp [afterHits, PixelState.init, Vec3.splat]
  | succ k ih =>
    have hm := afterHits_multiplier sqrt RAND_MAX scene rand pRay k
    simp only [afterHits, hitStep, ih, hm, Vec3.add, Vec3.scale, Finset.sum_range_succ,
      bounceColor, bounceHit, mul_comm]

/-- While the bounces hit, the loop of `perPixel` follows `afterHits`. -/
theorem perPixelLoop_afterHits (sqrt : F → F) (RAND_MAX : Nat) (scene : Scene F)
    (rand : Nat → Nat) (pRay : Ray F) (k : Nat)
    (hhit : ∀ i < k, (bounceHit sqrt RAND_MAX scene rand pRay i).distance ≥ 0) (n : Nat) :
    perPixelLoop sqrt RAND_MAX scene rand (k + n) (PixelState.init pRay)
      = perPixelLoop sqrt RAND_MAX scene rand n (afterHits sqrt RAND_MAX scene rand pRay k) := by
  induction k generalizing n with
  | zero => simp [afterHits]
  | succ k ih =>
    have hk : (bounceHit sqrt RAND_MAX scene rand pRay k).distance ≥ 0 :=
      hhit k (Nat.lt_succ_self k)
    have hstep := ih (fun i hi => hhit i (Nat.lt_succ_of_lt hi)) (n + 1)
    have hassoc : k + 1 + n = k + (n + 1) := by omega
    rw [hassoc, hstep]
    unfold bounceHit at hk
    simp only [perPixelLoop, hk, if_true, afterHits]

/-- The state in which `perPixel` leaves its loop when bounce `k` is the first
miss: the miss branch applied to the state after `k` hits. -/
theorem perPixelRun_first_miss (sqrt : F → F) (RAND_MAX : Nat) (scene : Scene F)
    (rand : Nat → Nat) (pRay : Ray F) (k : Nat) (hk : k < bounces)
    (hhit : ∀ i < k, (bounceHit sqrt RAND_MAX scene rand pRay i).distance ≥ 0)
    (hmiss : (bounceHit sqrt RAND_MAX scene rand pRay k).distance < 0) :
    perPixelRun sqrt RAND_MAX scene rand pRay
      = missStep (afterHits sqrt RAND_MAX scene rand pRay k)
          (bounceHit sqrt RAND_MAX scene rand pRay k) := by
  have hsplit : bounces = k + ((bounces - k - 1) + 1) := by omega
  unfold perPixelRun
  rw [hsplit, perPixelLoop_afterHits sqrt RAND_MAX scene rand pRay k hhit]
  unfold bounceHit at hmiss ⊢
  simp only [perPixelLoop, not_le.mpr hmiss, if_false]

/-- C8 (amended): in exact arithmetic (the scalars of any ordered field, every
operation exact), when bounce `k < 10` is the first miss, after `k` hits with
shaded colours `c_0 .. c_(k-1)`, the colour that `perPixel` packs is, per channel,
`clamp(sum_{i<k} 0.7^i * c_i + 0.7^k * (0.5, 0.7, 1.0), 0, 1)`; the loop is left
at counter `k` with `3 * k` random draws made, and the last intersection is
that miss.  Each `c_i` is
`clamp(albedo_i * max(dot(normal_i, -lightDir), 0) + 0.1, 0, 1)` with
`lightDir = normalize(-1, -1, -1)`. -/
theorem perPixel_first_miss [FloorRing F] (sqrt : F → F) (RAND_MAX : Nat) (scene : Scene F)
    (rand : Nat → Nat) (pRay : Ray F) (k : Nat) (hk : k < bounces)
    (hhit : ∀ i < k, (bounceHit sqrt RAND_MAX scene rand pRay i).distance ≥ 0)
    (hmiss : (bounceHit sqrt RAND_MAX scene rand pRay k).distance < 0) :
    (perPixelRun sqrt RAND_MAX scene rand pRay).color
      = firstMissColor (bounceColor sqrt RAND_MAX scene rand pRay) k ∧
    (perPixel sqrt RAND_MAX scene rand pRay).color
      = convertToRGBA
          ⟨(firstMissColor (bounceColor sqrt RAND_MAX scene rand pRay) k).x,
           (firstMissColor (bounceColor sqrt RAND_MAX scene rand pRay) k).y,
           (firstMissColor (bounceColor sqrt RAND_MAX scene rand pRay) k).z, 1⟩ ∧
    (∀ i, bounceColor sqrt RAND_MAX scene rand pRay i
      = clamp (((scene.sphereAt (bounceHit sqrt RAND_MAX scene rand pRay i).sphereID).material.albedo.scale
          (fmax (dot (bounceHit sqrt RAND_MAX scene rand pRay i).normal
            (normalize sqrt ⟨-1, -1, -1⟩).neg) 0)).add ⟨1 / 10, 1 / 10, 1 / 10⟩) 0 1) ∧
    (perPixelRun sqrt RAND_MAX scene rand pRay).i = k ∧
    (perPixelRun sqrt RAND_MAX scene rand pRay).draws = 3 * k ∧
    (perPixelRun sqrt RAND_MAX scene rand pRay).rayHit
      = bounceHit sqrt RAND_MAX scene rand pRay k := by
  have hrun := perPixelRun_first_miss sqrt RAND_MAX scene rand pRay k hk hhit hmiss
  have hcol : (perPixelRun sqrt RAND_MAX scene rand pRay).color
      = firstMissColor (bounceColor sqrt RAND_MAX scene rand pRay) k := by
    rw [hrun]
    simp only [missStep, afterHits_color, afterHits_multiplier, firstMissColor, bgColor,
      Vec3.add, Vec3.scale, mul_comm]
  refine ⟨hcol, ?_, ?_, ?_, ?_, ?_⟩
  · simp only [perPixel, hcol]
  · intro i
    simp only [bounceColor, sphereColor, lightDirection, Vec3.splat, Vec3.scale, one_mul]
  · rw [hrun]
    exact afterHits_i sqrt RAND_MAX scene rand pRay k
  · rw [hrun]
    exact afterHits_draws sqrt RAND_MAX scene rand pRay k
  · rw [hrun]
    rfl

/-- The first bounce of the example: the ray from `(0, 0, 3)` hits the unit
sphere at parameter `2`. -/
theorem unitScene_bounce0 :
    traceRay Rat.sqrt unitScene rayFromAbove
      = closestHit Rat.sqrt rayFromAbove 2 unitScene 0 := by
  simp [traceRay, traceLoop, unitScene, rayFromAbove, discriminant, nearRoot, dot, Vec3.sub,
    Vec3.scale, Vec3.neg, FLT_MAX]
  norm_num [Rat.sqrt]

/-- The second ray of the example leaves the sphere along its normal. -/
theorem unitScene_ray1 :
    (afterHits Rat.sqrt 32767 unitScene zeroStream rayFromAbove 1).ray
      = ⟨⟨0, 0, 10001 / 10000⟩, ⟨0, 0, 1⟩⟩ := by
  simp only [afterHits, hitStep, PixelState.init, unitScene_bounce0]
  simp [nextRay, closestHit, unitScene, Scene.sphereAt, rayFromAbove, reflect, normalize,
    inversesqrt, dot, Vec3.sub, Vec3.add, Vec3.scale, Vec3.neg]
  norm_num [Rat.sqrt]

/-- Witness for C8: the ray from `(0, 0, 3)` hits the unit mirror sphere once
and then misses, so the first miss is at bounce `1`, after three draws. -/
theorem perPixel_first_miss_witness :
    1 < bounces ∧
    (∀ i < 1, (bounceHit Rat.sqrt 32767 unitScene zeroStream rayFromAbove i).distance ≥ 0) ∧
    (bounceHit Rat.sqrt 32767 unitScene zeroStream rayFromAbove 1).distance < 0 ∧
    (perPixelRun Rat.sqrt 32767 unitScene zeroStream rayFromAbove).color
      = firstMissColor (bounceColor Rat.sqrt 32767 unitScene zeroStream rayFromAbove) 1 ∧
    (perPixelRun Rat.sqrt 32767 unitScene zeroStream rayFromAbove).i = 1 ∧
    (perPixelRun Rat.sqrt 32767 unitScene zeroStream rayFromAbove).draws = 3 * 1 := by
  have hk : 1 < bounces := by decide
  have hhit : ∀ i < 1,
      (bounceHit Rat.sqrt 32767 unitScene zeroStream rayFromAbove i).distance ≥ 0 := by
    intro i hi
    have hi0 : i = 0 := by omega
    subst hi0
    simp only [bounceHit, afterHits, PixelState.init, unitScene_bounce0, closestHit_distance]
    norm_num
  have hmiss : (bounceHit Rat.sqrt 32767 unitScene zeroStream rayFromAbove 1).distance < 0 := by
    simp only [bounceHit, unitScene_ray1]
    simp [traceRay, traceLoop, unitScene, discriminant, nearRoot, dot, Vec3.sub, FLT_MAX, miss]
    norm_num [Rat.sqrt]
  have h := perPixel_first_miss Rat.sqrt 32767 unitScene zeroStream rayFromAbove 1 hk hhit hmiss
  exact ⟨hk, hhit, hmiss, h.1, h.2.2.2.1, h.2.2.2.2.1⟩

end ShadingLemmas

/-! ## Camera ray generation -/

section CameraLemmas

variable {F : Type} [LinearOrderedField F]

/-- C10: for a camera at the origin and a `w` x `h` image, the ray direction of
pixel `(w-1-i, h-1-j)` is the mirror image about the viewport centre of the
one of pixel `(i, j)`: if the latter is `(x, y, -f)` the former is `(-x, -y, -f)`.
It covers the pair `(0, 0)`, `(w-1, h-1)`, and the camera of `main`. -/
theorem rayDirection_mirror (cam : Camera F) (hc : cam.cameraCenter = ⟨0, 0, 0⟩)
    (w h i j : Nat) (hi : i < w) (hj : j < h) :
    (rayDirection cam w h i j).z = -cam.focalLength ∧
    rayDirection cam w h (w - 1 - i) (h - 1 - j)
      = ⟨-(rayDirection cam w h i j).x, -(rayDirection cam w h i j).y, -cam.focalLength⟩ := by
  have hw0 : (w : F) ≠ 0 := by
    have : 0 < w := by omega
    exact_mod_cast (Nat.pos_iff_ne_zero.mp this)
  have hh0 : (h : F) ≠ 0 := by
    have : 0 < h := by omega
    exact_mod_cast (Nat.pos_iff_ne_zero.mp this)
  have hwi : ((w - 1 - i : Nat) : F) = (w : F) - 1 - (i : F) := by
    have h1 : 1 ≤ w := by omega
    have h2 : i ≤ w - 1 := by omega
    rw [Nat.cast_sub h2, Nat.cast_sub h1, Nat.cast_one]
  have hhj : ((h - 1 - j : Nat) : F) = (h : F) - 1 - (j : F) := by
    have h1 : 1 ≤ h := by omega
    have h2 : j ≤ h - 1 := by omega
    rw [Nat.cast_sub h2, Nat.cast_sub h1, Nat.cast_one]
  simp only [rayDirection, pixelCenter, pixel00Loc, viewportUpperLeft, pixelDeltaU, pixelDeltaV,
    viewportU, viewportV, Vec3.add, Vec3.sub, Vec3.scale, hc, hwi, hhj]
  refine ⟨by ring, ?_⟩
  congr 1
  · field_simp
    ring
  · field_simp
    ring
  · ring

/-- Witness for C10: the corner pixels `(0, 0)` and `(1279, 719)` of the
1280 x 720 image of `main`. -/
theorem rayDirection_mirror_witness :
    (mainCamera 1280 720 : Camera ℚ).cameraCenter = ⟨0, 0, 0⟩ ∧ 0 < 1280 ∧ 0 < 720 ∧
    rayDirection (mainCamera 1280 720 : Camera ℚ) 1280 720 (1280 - 1 - 0) (720 - 1 - 0)
      = ⟨-(rayDirection (mainCamera 1280 720 : Camera ℚ) 1280 720 0 0).x,
         -(rayDirection (mainCamera 1280 720 : Camera ℚ) 1280 720 0 0).y,
         -(mainCamera 1280 720 : Camera ℚ).focalLength⟩ :=
  ⟨rfl, by decide, by decide,
    (rayDirection_mirror (mainCamera 1280 720 : Camera ℚ) rfl 1280 720 0 0
      (by decide) (by decide)).2⟩

end CameraLemmas

/-! ## Tie-breaking and the end-to-end scenario -/

section TieLemmas

variable {F : Type} [LinearOrderedField F]

/-- C19: when spheres are accepted, the sphereID that `traceRay` returns is the
lowest index among the accepted spheres that attain the smallest near root: a
later sphere replaces the current best only when its `t` is strictly smaller. -/
theorem traceRay_tie_lowest_index (sqrt : F → F) (scene : Scene F) (ray : Ray F)
    (h : ∃ s ∈ scene.spheres, accepted sqrt ray s) :
    ∃ (k : Nat) (s : Sphere F), scene.spheres[k]? = some s ∧ accepted sqrt ray s ∧
      (traceRay sqrt scene ray).sphereID = (k : Int) ∧
      (∀ s' ∈ scene.spheres, accepted sqrt ray s' →
        nearRoot sqrt ray s ≤ nearRoot sqrt ray s') ∧
      (∀ (j : Nat) (s' : Sphere F), scene.spheres[j]? = some s' → accepted sqrt ray s' →
        nearRoot sqrt ray s' = nearRoot sqrt ray s → k ≤ j) := by
  rcases traceRay_cases sqrt scene ray with ⟨_, hnone⟩ | ⟨k, s, hk, hacc, heq, hmin, htie⟩
  · obtain ⟨s, hs, hacc⟩ := h
    exact absurd hacc (hnone s hs)
  · refine ⟨k, s, hk, hacc, by rw [heq, closestHit_sphereID], hmin, ?_⟩
    intro j s' hj hacc' hsame
    by_contra hlt
    have := htie j s' (not_le.mp hlt) hj hacc'
    rw [hsame] at this
    exact lt_irrefl _ this

/-- Witness for C19: the first two spheres of `tiedSpheres` are both accepted
with the same near root `2`, and `traceRay` returns index `0`. -/
theorem traceRay_tie_lowest_index_witness :
    (∃ s ∈ tiedSpheres.spheres, accepted Rat.sqrt rayDownZ s) ∧
    nearRoot Rat.sqrt rayDownZ ⟨⟨0, 0, -3⟩, 1, ⟨⟨1, 0, 1⟩, 0⟩⟩ = 2 ∧
    nearRoot Rat.sqrt rayDownZ ⟨⟨0, 0, -3⟩, 1, ⟨⟨1, 0, 1⟩, 1⟩⟩ = 2 ∧
    (traceRay Rat.sqrt tiedSpheres rayDownZ).sphereID = 0 := by
  have hroot : ∀ m : Material ℚ, nearRoot Rat.sqrt rayDownZ ⟨⟨0, 0, -3⟩, 1, m⟩ = 2 := by
    intro m
    simp [discriminant, nearRoot, rayDownZ, dot, Vec3.sub]
    norm_num [Rat.sqrt]
  have hacc0 : accepted Rat.sqrt rayDownZ ⟨⟨0, 0, -3⟩, 1, ⟨⟨1, 0, 1⟩, 0⟩⟩ := by
    refine ⟨?_, ?_, ?_⟩
    · norm_num [discriminant, rayDownZ, dot, Vec3.sub]
    · rw [hroot]; norm_num
    · rw [hroot]; norm_num [FLT_MAX]
  have hacc : ∃ s ∈ tiedSpheres.spheres, accepted Rat.sqrt rayDownZ s :=
    ⟨_, by simp [tiedSpheres], hacc0⟩
  refine ⟨hacc, hroot _, hroot _, ?_⟩
  obtain ⟨k, s, hk, _, hid, hmin, hlow⟩ :=
    traceRay_tie_lowest_index Rat.sqrt tiedSpheres rayDownZ hacc
  have hle : nearRoot Rat.sqrt rayDownZ s ≤ 2 := by
    have := hmin _ (by simp [tiedSpheres]) hacc0
    rwa [hroot] at this
  have hs2 : nearRoot Rat.sqrt rayDownZ s = 2 := by
    have hmem := List.getElem?_mem hk
    simp only [tiedSpheres, List.mem_cons, List.mem_singleton, List.not_mem_nil, or_false] at hmem
    rcases hmem with rfl | rfl | rfl
    · exact hroot _
    · exact hroot _
    · exfalso
      revert hle
      simp [discriminant, nearRoot, rayDownZ, dot, Vec3.sub]
      norm_num [Rat.sqrt]
  have hk0 : k ≤ 0 := hlow 0 _ (by simp [tiedSpheres]) hacc0 (by rw [hroot, hs2])
  rw [hid]
  omega

end TieLemmas

section EndToEnd

theorem sqrt_four : Real.sqrt 4 = 2 := by
  rw [show (4 : ℝ) = 2 * 2 by norm_num]
  exact Real.sqrt_mul_self (by norm_num)

/-- The ray from the centre of `centredSphere` misses it: the near root is
`-1/2`, which the test `t > 0` rejects. -/
theorem centred_from_centre :
    traceRay Real.sqrt centredScene (rayFromCentre : Ray ℝ) = miss rayFromCentre := by
  have hdisc : discriminant (rayFromCentre : Ray ℝ) centredSphere = 1 := by
    simp [discriminant, rayFromCentre, centredSphere, dot, Vec3.sub]
    norm_num
  have hroot : nearRoot Real.sqrt (rayFromCentre : Ray ℝ) centredSphere = -(1 / 2) := by
    unfold nearRoot
    rw [hdisc, Real.sqrt_one]
    simp [rayFromCentre, centredSphere, dot, Vec3.sub]
    norm_num
  have hneg : ¬ (nearRoot Real.sqrt (rayFromCentre : Ray ℝ) centredSphere > 0 ∧
      nearRoot Real.sqrt (rayFromCentre : Ray ℝ) centredSphere < FLT_MAX) := by
    rw [hroot]
    norm_num
  simp only [traceRay, traceLoop, centredScene, hneg, if_false, ite_self]
  simp

/-- The ray from `(0, 0, 1)` hits `centredSphere` at parameter `1/2`. -/
theorem centred_from_front :
    traceRay Real.sqrt centredScene (rayFromFront : Ray ℝ)
      = closestHit Real.sqrt rayFromFront (1 / 2) centredScene 0 := by
  have hdisc : discriminant (rayFromFront : Ray ℝ) centredSphere = 1 := by
    simp [discriminant, rayFromFront, centredSphere, dot, Vec3.sub]
    norm_num
  have hroot : nearRoot Real.sqrt (rayFromFront : Ray ℝ) centredSphere = 1 / 2 := by
    unfold nearRoot
    rw [hdisc, Real.sqrt_one]
    simp [rayFromFront, centredSphere, dot, Vec3.sub]
    norm_num
  have hd0 : ¬ (discriminant (rayFromFront : Ray ℝ) centredSphere < 0) := by
    rw [hdisc]
    norm_num
  have hacc : nearRoot Real.sqrt (rayFromFront : Ray ℝ) centredSphere > 0 ∧
      nearRoot Real.sqrt (rayFromFront : Ray ℝ) centredSphere < FLT_MAX := by
    rw [hroot]
    norm_num [FLT_MAX]
  have hcap : (2 : ℝ)⁻¹ < FLT_MAX := by norm_num [FLT_MAX]
  simp [traceRay, traceLoop, centredScene, hd0, hroot, hcap]

/-- C11 (amended): for the sphere of radius `0.5` at the origin, the ray from
the origin along `-z` starts inside the sphere and `traceRay` reports the miss
record; the ray from `(0, 0, 1)` along `-z` is reported as a hit on sphere `0`
with distance `0.5`, position `(0, 0, 0.5)` and normal `(0, 0, 1)`. -/
theorem traceRay_end_to_end :
    traceRay Real.sqrt centredScene (rayFromCentre : Ray ℝ) = miss rayFromCentre ∧
    (traceRay Real.sqrt centredScene (rayFromFront : Ray ℝ)).distance = 1 / 2 ∧
    (traceRay Real.sqrt centredScene (rayFromFront : Ray ℝ)).normal = ⟨0, 0, 1⟩ ∧
    (traceRay Real.sqrt centredScene (rayFromFront : Ray ℝ)).position = ⟨0, 0, 1 / 2⟩ ∧
    (traceRay Real.sqrt centredScene (rayFromFront : Ray ℝ)).sphereID = 0 := by
  refine ⟨centred_from_centre, ?_, ?_, ?_, ?_⟩
  · rw [centred_from_front]
    rfl
  · rw [centred_from_front]
    simp [closestHit, normalize, inversesqrt, Scene.sphereAt, centredScene, centredSphere,
      rayFromFront, dot, Vec3.sub, Vec3.add, Vec3.scale]
    norm_num [sqrt_four]
  · rw [centred_from_front]
    simp [closestHit, Scene.sphereAt, centredScene, centredSphere,
      rayFromFront, Vec3.sub, Vec3.add, Vec3.scale]
    norm_num
  · rw [centred_from_front]
    rfl

/-- Counterexample to C11 as stated: on the ray from the origin `traceRay`
returns distance `-1` and sphereID `-1`, not a hit at distance `0.5`. -/
theorem traceRay_end_to_end_counterexample :
    (traceRay Real.sqrt centredScene (rayFromCentre : Ray ℝ)).distance = -1 ∧
    (traceRay Real.sqrt centredScene (rayFromCentre : Ray ℝ)).sphereID = -1 ∧
    ¬ ((traceRay Real.sqrt centredScene (rayFromCentre : Ray ℝ)).distance = 1 / 2 ∧
       (traceRay Real.sqrt centredScene (rayFromCentre : Ray ℝ)).normal = ⟨0, 0, 1⟩) := by
  rw [centred_from_centre]
  refine ⟨rfl, rfl, ?_⟩
  intro h
  have h1 := h.1
  rw [miss_distance] at h1
  norm_num at h1

end EndToEnd

/-! ## Mirror reflection and the packing round trip -/

section MirrorLemmas

variable {F : Type} [LinearOrderedField F]

theorem Vec3.scale_zero (v : Vec3 F) : v.scale 0 = ⟨0, 0, 0⟩ := by
  simp [Vec3.scale]

theorem Vec3.add_zero_vec (v : Vec3 F) : v.add ⟨0, 0, 0⟩ = v := by
  simp [Vec3.add]

/-- With roughness `0` the next ray does not depend on the random stream: its
target is the reflection of the incoming target about the hit normal. -/
theorem nextRay_rough_zero (sqrt : F → F) (RAND_MAX : Nat) (scene : Scene F)
    (rand : Nat → Nat) (ray : Ray F) (rayHit : Hit F) (n : Nat)
    (hrough : (scene.sphereAt rayHit.sphereID).material.roughness = 0) :
    nextRay sqrt RAND_MAX scene rand ray rayHit n
      = ⟨rayHit.position.add (rayHit.normal.scale (1 / 10000)),
         reflect ray.target rayHit.normal⟩ := by
  simp only [nextRay, hrough, Vec3.scale_zero, Vec3.add_zero_vec]

/-- C13: when the hit branch of `perPixel` runs on a sphere of roughness `0`,
the direction of the next ray is the mirror reflection `d - 2 * dot(n, d) * n`
of the incoming direction `d` about the hit normal `n`; the reflection is the
same for every value `v` of the random vector, and the next ray is the same for
every random stream. -/
theorem hitStep_mirror (sqrt : F → F) (RAND_MAX : Nat) (scene : Scene F) (rand : Nat → Nat)
    (st : PixelState F) (rayHit : Hit F)
    (hrough : (scene.sphereAt rayHit.sphereID).material.roughness = 0) :
    (hitStep sqrt RAND_MAX scene rand st rayHit).ray.target
      = ⟨st.ray.target.x - 2 * dot rayHit.normal st.ray.target * rayHit.normal.x,
         st.ray.target.y - 2 * dot rayHit.normal st.ray.target * rayHit.normal.y,
         st.ray.target.z - 2 * dot rayHit.normal st.ray.target * rayHit.normal.z⟩ ∧
    (∀ v : Vec3 F,
      reflect st.ray.target
          (rayHit.normal.add (v.scale (scene.sphereAt rayHit.sphereID).material.roughness))
        = reflect st.ray.target rayHit.normal) ∧
    ∀ (RAND_MAX' : Nat) (rand' : Nat → Nat),
      (hitStep sqrt RAND_MAX' scene rand' st rayHit).ray
        = (hitStep sqrt RAND_MAX scene rand st rayHit).ray := by
  refine ⟨?_, ?_, ?_⟩
  · simp only [hitStep, nextRay_rough_zero sqrt RAND_MAX scene rand st.ray rayHit st.draws hrough,
      reflect, Vec3.sub, Vec3.scale]
    congr 1 <;> ring
  · intro v
    rw [hrough, Vec3.scale_zero, Vec3.add_zero_vec]
  · intro RAND_MAX' rand'
    simp only [hitStep, nextRay_rough_zero sqrt RAND_MAX scene rand st.ray rayHit st.draws hrough,
      nextRay_rough_zero sqrt RAND_MAX' scene rand' st.ray rayHit st.draws hrough]

/-- Witness for C13: the first bounce of the ray from `(0, 0, 3)` on the unit
mirror sphere. -/
theorem hitStep_mirror_witness :
    (unitScene.sphereAt (traceRay Rat.sqrt unitScene rayFromAbove).sphereID).material.roughness
      = 0 ∧
    ∀ (RAND_MAX' : Nat) (rand' : Nat → Nat),
      (hitStep Rat.sqrt RAND_MAX' unitScene rand' (PixelState.init rayFromAbove)
        (traceRay Rat.sqrt unitScene rayFromAbove)).ray
        = (hitStep Rat.sqrt 32767 unitScene zeroStream (PixelState.init rayFromAbove)
            (traceRay Rat.sqrt unitScene rayFromAbove)).ray := by
  have hrough : (unitScene.sphereAt
      (traceRay Rat.sqrt unitScene rayFromAbove).sphereID).material.roughness = 0 := by
    rw [unitScene_bounce0, closestHit_sphereID]
    simp [Scene.sphereAt, unitScene]
  exact ⟨hrough, (hitStep_mirror Rat.sqrt 32767 unitScene zeroStream
    (PixelState.init rayFromAbove) (traceRay Rat.sqrt unitScene rayFromAbove) hrough).2.2⟩

end MirrorLemmas

section RoundTrip

variable {F : Type} [LinearOrderedField F] [FloorRing F]

/-- The four bytes of a packed word are read back by shifting and masking. -/
theorem unpack_bytes (r g b a : Nat) (hr : r < 256) (hg : g < 256) (hb : b < 256)
    (ha : a < 256) :
    ((r * 2 ^ 24 + g * 2 ^ 16 + b * 2 ^ 8 + a) >>> 24) % 256 = r ∧
    ((r * 2 ^ 24 + g * 2 ^ 16 + b * 2 ^ 8 + a) >>> 16) % 256 = g ∧
    ((r * 2 ^ 24 + g * 2 ^ 16 + b * 2 ^ 8 + a) >>> 8) % 256 = b ∧
    (r * 2 ^ 24 + g * 2 ^ 16 + b * 2 ^ 8 + a) % 256 = a := by
  simp only [Nat.shiftRight_eq_div_pow]
  refine ⟨?_, ?_, ?_, ?_⟩ <;> omega

/-- The packed word as a sum of the four floors, for channels in `[0, 1]`. -/
theorem convertToRGBA_floor_sum (color : Vec4 F)
    (hr : 0 ≤ color.r ∧ color.r ≤ 1) (hg : 0 ≤ color.g ∧ color.g ≤ 1)
    (hb : 0 ≤ color.b ∧ color.b ≤ 1) (ha : 0 ≤ color.a ∧ color.a ≤ 1) :
    convertToRGBA color
      = ⌊255 * color.r⌋₊ * 2 ^ 24 + ⌊255 * color.g⌋₊ * 2 ^ 16 + ⌊255 * color.b⌋₊ * 2 ^ 8
        + ⌊255 * color.a⌋₊ := by
  have key : ∀ x : F, 0 ≤ x ∧ x ≤ 1 → toUInt8 (x * 255) = ⌊255 * x⌋₊ := by
    intro x hx
    rw [toUInt8_eq_floor (x * 255) (by nlinarith [hx.1]) (by nlinarith [hx.2]), mul_comm]
  simp only [convertToRGBA]
  rw [pack_bytes _ _ _ _ (toUInt8_lt _) (toUInt8_lt _) (toUInt8_lt _) (toUInt8_lt _),
    key _ hr, key _ hg, key _ hb, key _ ha]

/-- The byte `floor(255 x)` of a channel `x` in `[0, 1]` is below 256, and
dividing it by 255 gives a value at most `x` and less than `1/255` below it. -/
theorem floor_channel (x : F) (h0 : 0 ≤ x) (h1 : x ≤ 1) :
    ⌊255 * x⌋₊ < 256 ∧ 0 ≤ x - ((⌊255 * x⌋₊ : Nat) : F) / 255 ∧
    x - ((⌊255 * x⌋₊ : Nat) : F) / 255 < 1 / 255 := by
  have hnn : (0 : F) ≤ 255 * x := by positivity
  have hle : ((⌊255 * x⌋₊ : Nat) : F) ≤ 255 * x := Nat.floor_le hnn
  have hlt : 255 * x < ((⌊255 * x⌋₊ : Nat) : F) + 1 := Nat.lt_floor_add_one _
  refine ⟨?_, ?_, ?_⟩
  · have : ⌊255 * x⌋₊ ≤ 255 := by
      apply Nat.floor_le_of_le
      push_cast
      linarith
    omega
  · rw [sub_nonneg, div_le_iff₀ (by norm_num)]
    linarith
  · rw [sub_lt_iff_lt_add, ← sub_lt_iff_lt_add', lt_div_iff₀ (by norm_num)]
    linarith

/-- C14: for channels in `[0, 1]`, each byte of `convertToRGBA color`, read at
its own position, is `floor(255 x)` of its own channel `x`, and unpacking
(byte / 255) gives a value `y` with `0 <= x - y < 1/255`. -/
theorem unpack_convertToRGBA (color : Vec4 F)
    (hr : 0 ≤ color.r ∧ color.r ≤ 1) (hg : 0 ≤ color.g ∧ color.g ≤ 1)
    (hb : 0 ≤ color.b ∧ color.b ≤ 1) (ha : 0 ≤ color.a ∧ color.a ≤ 1) :
    ((convertToRGBA color >>> 24) % 256 = ⌊255 * color.r⌋₊ ∧
     (convertToRGBA color >>> 16) % 256 = ⌊255 * color.g⌋₊ ∧
     (convertToRGBA color >>> 8) % 256 = ⌊255 * color.b⌋₊ ∧
     convertToRGBA color % 256 = ⌊255 * color.a⌋₊) ∧
    (0 ≤ color.r - (unpackRGBA (convertToRGBA color) : Vec4 F).r ∧
      color.r - (unpackRGBA (convertToRGBA color) : Vec4 F).r < 1 / 255) ∧
    (0 ≤ color.g - (unpackRGBA (convertToRGBA color) : Vec4 F).g ∧
      color.g - (unpackRGBA (convertToRGBA color) : Vec4 F).g < 1 / 255) ∧
    (0 ≤ color.b - (unpackRGBA (convertToRGBA color) : Vec4 F).b ∧
      color.b - (unpackRGBA (convertToRGBA color) : Vec4 F).b < 1 / 255) ∧
    (0 ≤ color.a - (unpackRGBA (convertToRGBA color) : Vec4 F).a ∧
      color.a - (unpackRGBA (convertToRGBA color) : Vec4 F).a < 1 / 255) := by
  obtain ⟨hr8, hr0, hr1⟩ := floor_channel color.r hr.1 hr.2
  obtain ⟨hg8, hg0, hg1⟩ := floor_channel color.g hg.1 hg.2
  obtain ⟨hb8, hb0, hb1⟩ := floor_channel color.b hb.1 hb.2
  obtain ⟨ha8, ha0, ha1⟩ := floor_channel color.a ha.1 ha.2
  obtain ⟨h24, h16, h8, h0⟩ := unpack_bytes _ _ _ _ hr8 hg8 hb8 ha8
  rw [convertToRGBA_floor_sum color hr hg hb ha]
  refine ⟨⟨h24, h16, h8, h0⟩, ?_, ?_, ?_, ?_⟩
  · simp only [unpackRGBA, h24]
    exact ⟨hr0, hr1⟩
  · simp only [unpackRGBA, h16]
    exact ⟨hg0, hg1⟩
  · simp only [unpackRGBA, h8]
    exact ⟨hb0, hb1⟩
  · simp only [unpackRGBA, h0]
    exact ⟨ha0, ha1⟩

/-- Witness for C14: the background colour with alpha one. -/
theorem unpack_convertToRGBA_witness :
    (0 ≤ (backgroundRGBA : Vec4 ℚ).r ∧ (backgroundRGBA : Vec4 ℚ).r ≤ 1) ∧
    (0 ≤ (backgroundRGBA : Vec4 ℚ).g ∧ (backgroundRGBA : Vec4 ℚ).g ≤ 1) ∧
    (0 ≤ (backgroundRGBA : Vec4 ℚ).b ∧ (backgroundRGBA : Vec4 ℚ).b ≤ 1) ∧
    (0 ≤ (backgroundRGBA : Vec4 ℚ).a ∧ (backgroundRGBA : Vec4 ℚ).a ≤ 1) ∧
    (0 ≤ (backgroundRGBA : Vec4 ℚ).g
        - (unpackRGBA (convertToRGBA (backgroundRGBA : Vec4 ℚ)) : Vec4 ℚ).g ∧
      (backgroundRGBA : Vec4 ℚ).g
        - (unpackRGBA (convertToRGBA (backgroundRGBA : Vec4 ℚ)) : Vec4 ℚ).g < 1 / 255) := by
  have hr : 0 ≤ (backgroundRGBA : Vec4 ℚ).r ∧ (backgroundRGBA : Vec4 ℚ).r ≤ 1 := by
    norm_num [backgroundRGBA]
  have hg : 0 ≤ (backgroundRGBA : Vec4 ℚ).g ∧ (backgroundRGBA : Vec4 ℚ).g ≤ 1 := by
    norm_num [backgroundRGBA]
  have hb : 0 ≤ (backgroundRGBA : Vec4 ℚ).b ∧ (backgroundRGBA : Vec4 ℚ).b ≤ 1 := by
    norm_num [backgroundRGBA]
  have ha : 0 ≤ (backgroundRGBA : Vec4 ℚ).a ∧ (backgroundRGBA : Vec4 ℚ).a ≤ 1 := by
    norm_num [backgroundRGBA]
  exact ⟨hr, hg, hb, ha, (unpack_convertToRGBA backgroundRGBA hr hg hb ha).2.2.1⟩

end RoundTrip

/-! ## Rescaling the direction -/

section ScaleLemmas

variable {F : Type} [LinearOrderedField F]

/-- The sphere that `traceRay` selects is determined by three properties: it is
accepted, its near root is least among the accepted ones, and every accepted
sphere before it has a strictly larger near root. -/
theorem traceRay_eq_of_first_least (sqrt : F → F) (scene : Scene F) (ray : Ray F)
    (k : Nat) (s : Sphere F) (hk : scene.spheres[k]? = some s) (hacc : accepted sqrt ray s)
    (hmin : ∀ s' ∈ scene.spheres, accepted sqrt ray s' →
      nearRoot sqrt ray s ≤ nearRoot sqrt ray s')
    (htie : ∀ j s', j < k → scene.spheres[j]? = some s' → accepted sqrt ray s' →
      nearRoot sqrt ray s < nearRoot sqrt ray s') :
    traceRay sqrt scene ray = closestHit sqrt ray (nearRoot sqrt ray s) scene (k : Int) := by
  rcases traceRay_cases sqrt scene ray with
    ⟨_, hnone⟩ | ⟨k', s', hk', hacc', heq, hmin', htie'⟩
  · exact absurd hacc (hnone s (List.getElem?_mem hk))
  · have hkk : k' = k := by
      rcases Nat.lt_trichotomy k' k with hlt | heq' | hgt
      · have h1 := htie k' s' hlt hk' hacc'
        have h2 := hmin' s (List.getElem?_mem hk) hacc
        exact absurd h1 (not_lt.mpr h2)
      · exact heq'
      · have h1 := htie' k s hgt hk hacc
        have h2 := hmin s' (List.getElem?_mem hk') hacc'
        exact absurd h1 (not_lt.mpr h2)
    subst hkk
    rw [hk] at hk'
    have hss : s = s' := Option.some.inj hk'
    subst hss
    exact heq

/-- A sphere that is not accepted is never the sphere of the returned Hit. -/
theorem traceRay_sphereID_ne (sqrt : F → F) (scene : Scene F) (ray : Ray F)
    (k : Nat) (s : Sphere F) (hk : scene.spheres[k]? = some s)
    (hnot : ¬ accepted sqrt ray s) :
    (traceRay sqrt scene ray).sphereID ≠ (k : Int) := by
  intro hhit
  rcases traceRay_cases sqrt scene ray with ⟨heq, _⟩ | ⟨k', s', hk', hacc, heq, _, _⟩
  · rw [heq, miss_sphereID] at hhit
    omega
  · rw [heq, closestHit_sphereID] at hhit
    have hkk : k' = k := by exact_mod_cast hhit
    subst hkk
    rw [hk] at hk'
    have hss : s = s' := Option.some.inj hk'
    subst hss
    exact hnot hacc

theorem discriminant_rescale (ray : Ray F) (s : F) (sp : Sphere F) :
    discriminant (ray.rescale s) sp = s ^ 2 * discriminant ray sp := by
  simp only [discriminant, Ray.rescale, dot, Vec3.sub, Vec3.scale]
  ring

end ScaleLemmas

section ScaleExact

/-- Scaling the direction by `s > 0` divides the near root by `s`. -/
theorem nearRoot_rescale (ray : Ray ℝ) (s : ℝ) (hs : 0 < s) (sp : Sphere ℝ) :
    nearRoot Real.sqrt (ray.rescale s) sp = nearRoot Real.sqrt ray sp / s := by
  have hsqrt : Real.sqrt (s ^ 2 * discriminant ray sp) = s * Real.sqrt (discriminant ray sp) := by
    rw [Real.sqrt_mul (sq_nonneg s), Real.sqrt_sq (le_of_lt hs)]
  have hb : dot ((ray.rescale s).origin.sub sp.position) (ray.rescale s).target
      = s * dot (ray.origin.sub sp.position) ray.target := by
    simp only [Ray.rescale, dot, Vec3.sub, Vec3.scale]
    ring
  have ha : dot (ray.rescale s).target (ray.rescale s).target
      = s * (s * dot ray.target ray.target) := by
    simp only [Ray.rescale, dot, Vec3.scale]
    ring
  simp only [nearRoot, discriminant_rescale, hsqrt, hb, ha]
  have hnum : -(2 * (s * dot (ray.origin.sub sp.position) ray.target))
        - s * Real.sqrt (discriminant ray sp)
      = s * (-(2 * dot (ray.origin.sub sp.position) ray.target)
        - Real.sqrt (discriminant ray sp)) := by ring
  have hden : 2 * (s * (s * dot ray.target ray.target))
      = s * (2 * dot ray.target ray.target * s) := by ring
  rw [hnum, hden, mul_div_mul_left _ _ (ne_of_gt hs), div_mul_eq_div_div]

/-- Away from the `FLT_MAX` cap, a sphere is accepted on the rescaled ray
exactly when it is accepted on the original ray. -/
theorem accepted_rescale (ray : Ray ℝ) (s : ℝ) (hs : 0 < s) (sp : Sphere ℝ)
    (hcap : nearRoot Real.sqrt ray sp < FLT_MAX ∧ nearRoot Real.sqrt ray sp / s < FLT_MAX) :
    accepted Real.sqrt (ray.rescale s) sp ↔ accepted Real.sqrt ray sp := by
  unfold accepted
  rw [nearRoot_rescale ray s hs, discriminant_rescale]
  have hs2 : 0 < s ^ 2 := by positivity
  constructor
  · rintro ⟨h1, h2, _⟩
    exact ⟨nonneg_of_mul_nonneg_right h1 hs2, by
      have := mul_pos h2 hs
      rwa [div_mul_cancel₀ _ (ne_of_gt hs)] at this, hcap.1⟩
  · rintro ⟨h1, h2, _⟩
    exact ⟨mul_nonneg (le_of_lt hs2) h1, div_pos h2 hs, hcap.2⟩

/-- C16: scaling the direction of a ray by `s > 0` leaves the sphereID, the hit
position and the normal that `traceRay` returns unchanged, the rescaled ray hits
exactly when the original one does, and the distance of a hit is divided by
`s`.  The `FLT_MAX` cap is set aside by asking that the near roots of both rays
stay below it. -/
theorem traceRay_rescale (scene : Scene ℝ) (ray : Ray ℝ) (s : ℝ) (hs : 0 < s)
    (hcap : ∀ sp ∈ scene.spheres,
      nearRoot Real.sqrt ray sp < FLT_MAX ∧ nearRoot Real.sqrt ray sp / s < FLT_MAX) :
    ((traceRay Real.sqrt scene (ray.rescale s)).distance ≥ 0
      ↔ (traceRay Real.sqrt scene ray).distance ≥ 0) ∧
    (traceRay Real.sqrt scene (ray.rescale s)).sphereID
      = (traceRay Real.sqrt scene ray).sphereID ∧
    (traceRay Real.sqrt scene (ray.rescale s)).position
      = (traceRay Real.sqrt scene ray).position ∧
    (traceRay Real.sqrt scene (ray.rescale s)).normal
      = (traceRay Real.sqrt scene ray).normal ∧
    ((traceRay Real.sqrt scene ray).distance ≥ 0 →
      (traceRay Real.sqrt scene (ray.rescale s)).distance
        = (traceRay Real.sqrt scene ray).distance / s) := by
  rcases traceRay_cases Real.sqrt scene ray with
    ⟨heq, hnone⟩ | ⟨k, sp, hk, hacc, heq, hmin, htie⟩
  · have hnone' : ∀ sp ∈ scene.spheres, ¬ accepted Real.sqrt (ray.rescale s) sp := by
      intro sp hsp hacc'
      exact hnone sp hsp ((accepted_rescale ray s hs sp (hcap sp hsp)).mp hacc')
    have heq' : traceRay Real.sqrt scene (ray.rescale s) = miss (ray.rescale s) := by
      rcases traceRay_cases Real.sqrt scene (ray.rescale s) with
        ⟨h, _⟩ | ⟨k', sp', hk', hacc', _, _, _⟩
      · exact h
      · exact absurd hacc' (hnone' sp' (List.getElem?_mem hk'))
    rw [heq, heq']
    refine ⟨Iff.rfl, rfl, rfl, rfl, ?_⟩
    intro h
    rw [miss_distance] at h
    norm_num at h
  · have hmem := List.getElem?_mem hk
    have heq' : traceRay Real.sqrt scene (ray.rescale s)
        = closestHit Real.sqrt (ray.rescale s) (nearRoot Real.sqrt (ray.rescale s) sp)
            scene (k : Int) := by
      apply traceRay_eq_of_first_least Real.sqrt scene (ray.rescale s) k sp hk
      · exact (accepted_rescale ray s hs sp (hcap sp hmem)).mpr hacc
      · intro sp' hsp' hacc'
        rw [nearRoot_rescale ray s hs, nearRoot_rescale ray s hs]
        exact div_le_div_of_nonneg_right
          (hmin sp' hsp' ((accepted_rescale ray s hs sp' (hcap sp' hsp')).mp hacc')) (le_of_lt hs)
      · intro j sp' hj hjs hacc'
        rw [nearRoot_rescale ray s hs, nearRoot_rescale ray s hs]
        have hsp' := List.getElem?_mem hjs
        exact div_lt_div_of_pos_right
          (htie j sp' hj hjs ((accepted_rescale ray s hs sp' (hcap sp' hsp')).mp hacc')) hs
    have hpoint : (ray.rescale s).target.scale (nearRoot Real.sqrt ray sp / s)
        = ray.target.scale (nearRoot Real.sqrt ray sp) := by
      simp only [Ray.rescale, Vec3.scale]
      have hs0 : s ≠ 0 := ne_of_gt hs
      congr 1 <;> field_simp <;> ring
    rw [heq, heq', nearRoot_rescale ray s hs]
    have hpos : 0 < nearRoot Real.sqrt ray sp := hacc.2.1
    refine ⟨?_, rfl, ?_, ?_, ?_⟩
    · simp only [closestHit_distance]
      constructor
      · intro _
        exact le_of_lt hpos
      · intro _
        exact le_of_lt (div_pos hpos hs)
    · simp only [closestHit, hpoint]
      rfl
    · simp only [closestHit, hpoint]
      rfl
    · intro _
      rfl

/-- Witness for C16: the centred sphere seen from `(0, 0, 3)`, with the
direction doubled. -/
theorem traceRay_rescale_witness :
    (0 : ℝ) < 2 ∧
    (∀ sp ∈ (centredScene : Scene ℝ).spheres,
      nearRoot Real.sqrt rayFromAbove sp < FLT_MAX ∧
        nearRoot Real.sqrt rayFromAbove sp / 2 < FLT_MAX) ∧
    (traceRay Real.sqrt centredScene ((rayFromAbove : Ray ℝ).rescale 2)).sphereID
      = (traceRay Real.sqrt centredScene (rayFromAbove : Ray ℝ)).sphereID ∧
    (traceRay Real.sqrt centredScene ((rayFromAbove : Ray ℝ).rescale 2)).position
      = (traceRay Real.sqrt centredScene (rayFromAbove : Ray ℝ)).position := by
  have hcap : ∀ sp ∈ (centredScene : Scene ℝ).spheres,
      nearRoot Real.sqrt rayFromAbove sp < FLT_MAX ∧
        nearRoot Real.sqrt rayFromAbove sp / 2 < FLT_MAX := by
    intro sp hsp
    simp only [centredScene, List.mem_singleton] at hsp
    have hroot : nearRoot Real.sqrt (rayFromAbove : Ray ℝ) sp = 3 - 1 / 2 := by
      rw [hsp]
      exact headOn_nearRoot (1 / 2) 3 ⟨0, 0, 1⟩ ⟨⟨1, 0, 1⟩, 0⟩ (by norm_num) (by norm_num [dot])
    rw [hroot]
    constructor <;> norm_num [FLT_MAX]
  have h := traceRay_rescale centredScene rayFromAbove 2 (by norm_num) hcap
  exact ⟨by norm_num, hcap, h.2.1, h.2.2.1⟩

end ScaleExact

/-! ## The bias of the secondary ray -/

section BiasLemmas

theorem dot_self_ne_zero (v : Vec3 ℝ) (hv : v ≠ ⟨0, 0, 0⟩) : dot v v ≠ 0 := by
  intro h0
  apply hv
  have hx := mul_self_nonneg v.x
  have hy := mul_self_nonneg v.y
  have hz := mul_self_nonneg v.z
  simp only [dot] at h0
  have hx0 : v.x = 0 := mul_self_eq_zero.mp (by linarith)
  have hy0 : v.y = 0 := mul_self_eq_zero.mp (by linarith)
  have hz0 : v.z = 0 := mul_self_eq_zero.mp (by linarith)
  cases v with
  | mk x y z =>
    simp only at hx0 hy0 hz0
    rw [hx0, hy0, hz0]

/-- At the near root the centre-relative hit point makes a non-positive dot
product with the direction: the ray enters the sphere there. -/
theorem nearRoot_entering (ray : Ray ℝ) (s : Sphere ℝ) (hdir : ray.target ≠ ⟨0, 0, 0⟩) :
    dot ((ray.origin.sub s.position).add (ray.target.scale (nearRoot Real.sqrt ray s)))
      ray.target ≤ 0 := by
  have hane := dot_self_ne_zero ray.target hdir
  have hlin : 2 * dot ray.target ray.target * nearRoot Real.sqrt ray s
      = -(2 * dot (ray.origin.sub s.position) ray.target) - Real.sqrt (discriminant ray s) := by
    simp only [nearRoot]
    field_simp
  have hsplit : dot ((ray.origin.sub s.position).add
        (ray.target.scale (nearRoot Real.sqrt ray s))) ray.target
      = dot (ray.origin.sub s.position) ray.target
        + dot ray.target ray.target * nearRoot Real.sqrt ray s := by
    simp only [dot, Vec3.add, Vec3.scale, Vec3.sub]
    ring
  have hsq := Real.sqrt_nonneg (discriminant ray s)
  rw [hsplit]
  linarith

/-- C17: on a scene of positive radii and a ray of non-zero direction that hits
sphere `k` of roughness `0`, the secondary ray of `perPixel` has origin
`position + 0.0001 * normal` and the mirror direction, starts strictly outside
sphere `k`, and `traceRay` on it does not return sphereID `k`. -/
theorem nextRay_leaves_sphere (scene : Scene ℝ) (ray : Ray ℝ) (RAND_MAX : Nat)
    (rand : Nat → Nat) (n : Nat)
    (hrad : ∀ s ∈ scene.spheres, 0 < s.radius) (hdir : ray.target ≠ ⟨0, 0, 0⟩)
    (k : Nat) (s : Sphere ℝ) (hk : scene.spheres[k]? = some s)
    (hhit : (traceRay Real.sqrt scene ray).sphereID = (k : Int))
    (hrough : s.material.roughness = 0) :
    nextRay Real.sqrt RAND_MAX scene rand ray (traceRay Real.sqrt scene ray) n
      = ⟨(traceRay Real.sqrt scene ray).position.add
          ((traceRay Real.sqrt scene ray).normal.scale (1 / 10000)),
         reflect ray.target (traceRay Real.sqrt scene ray).normal⟩ ∧
    s.radius < length Real.sqrt
      ((nextRay Real.sqrt RAND_MAX scene rand ray
        (traceRay Real.sqrt scene ray) n).origin.sub s.position) ∧
    (traceRay Real.sqrt scene
      (nextRay Real.sqrt RAND_MAX scene rand ray (traceRay Real.sqrt scene ray) n)).sphereID
        ≠ (k : Int) := by
  have hr : 0 < s.radius := hrad s (List.getElem?_mem hk)
  have hat : scene.sphereAt (k : Int) = s := by
    simp [Scene.sphereAt, List.getD, hk]
  have hrough' : (scene.sphereAt (traceRay Real.sqrt scene ray).sphereID).material.roughness
      = 0 := by
    rw [hhit, hat]
    exact hrough
  have hnext := nextRay_rough_zero Real.sqrt RAND_MAX scene rand ray
    (traceRay Real.sqrt scene ray) n hrough'
  have hacc : accepted Real.sqrt ray s := by
    by_contra hnot
    exact traceRay_sphereID_ne Real.sqrt scene ray k s hk hnot hhit
  have heq : traceRay Real.sqrt scene ray
      = closestHit Real.sqrt ray (nearRoot Real.sqrt ray s) scene (k : Int) := by
    rcases traceRay_cases Real.sqrt scene ray with ⟨heq, _⟩ | ⟨k', s', hk', _, heq, _, _⟩
    · rw [heq, miss_sphereID] at hhit
      omega
    · rw [heq, closestHit_sphereID] at hhit
      have hkk : k' = k := by exact_mod_cast hhit
      subst hkk
      rw [hk] at hk'
      have hss : s = s' := Option.some.inj hk'
      subst hss
      exact heq
  have hon := nearRoot_on_sphere ray s hdir hacc.1
  have hent := nearRoot_entering ray s hdir
  have hsqrt : Real.sqrt (s.radius * s.radius) = s.radius := Real.sqrt_mul_self (le_of_lt hr)
  refine ⟨hnext, ?_, ?_⟩
  · rw [hnext, heq]
    simp only [closestHit, hat]
    set p := (ray.origin.sub s.position).add (ray.target.scale (nearRoot Real.sqrt ray s))
      with hp
    have hnorm : normalize Real.sqrt p = p.scale (1 / s.radius) := by
      simp only [normalize, inversesqrt, hon, hsqrt]
    rw [hnorm]
    have hdot : dot (((p.add s.position).add ((p.scale (1 / s.radius)).scale (1 / 10000))).sub
          s.position)
        (((p.add s.position).add ((p.scale (1 / s.radius)).scale (1 / 10000))).sub s.position)
        = (s.radius + 1 / 10000) * (s.radius + 1 / 10000) := by
      have hexp : dot (((p.add s.position).add
            ((p.scale (1 / s.radius)).scale (1 / 10000))).sub s.position)
          (((p.add s.position).add ((p.scale (1 / s.radius)).scale (1 / 10000))).sub s.position)
          = dot p p * ((1 + 1 / s.radius * (1 / 10000)) * (1 + 1 / s.radius * (1 / 10000))) := by
        simp only [dot, Vec3.add, Vec3.scale, Vec3.sub]
        ring
      rw [hexp, hon]
      field_simp
      ring
    simp only [length, hdot]
    rw [Real.sqrt_mul_self (by linarith)]
    linarith
  · apply traceRay_sphereID_ne Real.sqrt scene _ k s hk
    intro hacc'
    have haway : dot (s.position.sub
          (nextRay Real.sqrt RAND_MAX scene rand ray (traceRay Real.sqrt scene ray) n).origin)
        (nextRay Real.sqrt RAND_MAX scene rand ray (traceRay Real.sqrt scene ray) n).target
          ≤ 0 := by
      rw [hnext, heq]
      simp only [closestHit, hat]
      set p := (ray.origin.sub s.position).add (ray.target.scale (nearRoot Real.sqrt ray s))
        with hp
      have hnorm : normalize Real.sqrt p = p.scale (1 / s.radius) := by
        simp only [normalize, inversesqrt, hon, hsqrt]
      rw [hnorm]
      obtain ⟨u, hu⟩ : ∃ u : ℝ, u = 1 / s.radius := ⟨_, rfl⟩
      have hru : s.radius * u = 1 := by
        rw [hu]
        field_simp
      have hu0 : 0 < u := by
        rw [hu]
        positivity
      rw [← hu]
      have hval : dot (s.position.sub ((p.add s.position).add ((p.scale u).scale (1 / 10000))))
          (reflect ray.target (p.scale u))
          = (1 + u * (1 / 10000)) * dot p ray.target := by
        simp only [dot, reflect, Vec3.add, Vec3.scale, Vec3.sub] at hon ⊢
        linear_combination
          (2 * (1 + u * (1 / 10000)) * (p.x * ray.target.x + p.y * ray.target.y
            + p.z * ray.target.z) * u ^ 2) * hon
          + (2 * (1 + u * (1 / 10000)) * (p.x * ray.target.x + p.y * ray.target.y
            + p.z * ray.target.z) * (u * s.radius + 1)) * hru
      rw [hval]
      exact mul_nonpos_of_nonneg_of_nonpos (by positivity) hent
    have hle := nearRoot_nonpos_of_away Real.sqrt Real.sqrt_nonneg _ s haway
    exact absurd hacc'.2.1 (not_lt.mpr hle)

/-- Witness for C17: the centred mirror sphere seen from `(0, 0, 3)`. -/
theorem nextRay_leaves_sphere_witness :
    (∀ s ∈ (centredScene : Scene ℝ).spheres, 0 < s.radius) ∧
    (rayFromAbove : Ray ℝ).target ≠ ⟨0, 0, 0⟩ ∧
    (centredScene : Scene ℝ).spheres[0]? = some centredSphere ∧
    (traceRay Real.sqrt centredScene (rayFromAbove : Ray ℝ)).sphereID = ((0 : Nat) : Int) ∧
    (centredSphere : Sphere ℝ).material.roughness = 0 ∧
    (traceRay Real.sqrt centredScene
      (nextRay Real.sqrt 32767 centredScene zeroStream (rayFromAbove : Ray ℝ)
        (traceRay Real.sqrt centredScene rayFromAbove) 0)).sphereID ≠ ((0 : Nat) : Int) := by
  have hrad : ∀ s ∈ (centredScene : Scene ℝ).spheres, 0 < s.radius := by
    intro s hs
    simp only [centredScene, List.mem_singleton] at hs
    rw [hs]
    norm_num [centredSphere]
  have hdir : (rayFromAbove : Ray ℝ).target ≠ ⟨0, 0, 0⟩ := by
    simp [rayFromAbove, Vec3.neg]
  have hk : (centredScene : Scene ℝ).spheres[0]? = some centredSphere := rfl
  have hhit : (traceRay Real.sqrt centredScene (rayFromAbove : Ray ℝ)).sphereID
      = ((0 : Nat) : Int) := by
    have h := (headOn_traceRay (1 / 2) 3 ⟨0, 0, 1⟩ ⟨⟨1, 0, 1⟩, 0⟩ (by norm_num) (by norm_num)
      (by norm_num [dot])).1 (by norm_num [FLT_MAX])
    show (traceRay Real.sqrt ⟨[⟨⟨0, 0, 0⟩, 1 / 2, ⟨⟨1, 0, 1⟩, 0⟩⟩]⟩
      ⟨(⟨0, 0, 1⟩ : Vec3 ℝ).scale 3, (⟨0, 0, 1⟩ : Vec3 ℝ).neg⟩).sphereID = ((0 : Nat) : Int)
    rw [h]
    rfl
  have hrough : (centredSphere : Sphere ℝ).material.roughness = 0 := rfl
  exact ⟨hrad, hdir, hk, hhit, hrough,
    (nextRay_leaves_sphere centredScene rayFromAbove 32767 zeroStream 0 hrad hdir 0
      centredSphere hk hhit hrough).2.2⟩

end BiasLemmas

/-! ## The exhaustion path of the shading loop -/

section MirrorPairLemmas

variable {F : Type} [LinearOrderedField F]

/-- On `mirrorPair` the primary ray hits the first sphere at parameter `1`. -/
theorem mirrorPair_trace_between (sqrt : F → F) (h4 : sqrt 4 = 2) :
    traceRay sqrt mirrorPair (rayBetween : Ray F)
      = closestHit sqrt rayBetween 1 mirrorPair 0 := by
  simp [traceRay, traceLoop, mirrorPair, rayBetween, discriminant, nearRoot, dot, Vec3.sub,
    FLT_MAX]
  norm_num [h4]

/-- On `mirrorPair` the upward ray hits the second sphere. -/
theorem mirrorPair_trace_up (sqrt : F → F) (h4 : sqrt 4 = 2) :
    traceRay sqrt mirrorPair (rayUp : Ray F)
      = closestHit sqrt rayUp (19999 / 10000) mirrorPair 1 := by
  simp [traceRay, traceLoop, mirrorPair, rayUp, discriminant, nearRoot, dot, Vec3.sub,
    FLT_MAX]
  norm_num [h4]

/-- On `mirrorPair` the downward ray hits the first sphere. -/
theorem mirrorPair_trace_down (sqrt : F → F) (h4 : sqrt 4 = 2) :
    traceRay sqrt mirrorPair (rayDown : Ray F)
      = closestHit sqrt rayDown (19999 / 10000) mirrorPair 0 := by
  simp [traceRay, traceLoop, mirrorPair, rayDown, discriminant, nearRoot, dot, Vec3.sub,
    FLT_MAX]
  norm_num [h4]

end MirrorPairLemmas

section ExhaustionLemmas

variable {F : Type} [LinearOrderedField F]

theorem afterHits_succ_ray (sqrt : F → F) (RAND_MAX : Nat) (scene : Scene F)
    (rand : Nat → Nat) (pRay : Ray F) (k : Nat) :
    (afterHits sqrt RAND_MAX scene rand pRay (k + 1)).ray
      = nextRay sqrt RAND_MAX scene rand (afterHits sqrt RAND_MAX scene rand pRay k).ray
          (traceRay sqrt scene (afterHits sqrt RAND_MAX scene rand pRay k).ray)
          (afterHits sqrt RAND_MAX scene rand pRay k).draws := rfl

/-- When all ten bounces hit, `perPixel` leaves its loop in the state reached
after ten hit branches. -/
theorem perPixelRun_all_hits (sqrt : F → F) (RAND_MAX : Nat) (scene : Scene F)
    (rand : Nat → Nat) (pRay : Ray F)
    (hhit : ∀ i < bounces, (bounceHit sqrt RAND_MAX scene rand pRay i).distance ≥ 0) :
    perPixelRun sqrt RAND_MAX scene rand pRay
      = afterHits sqrt RAND_MAX scene rand pRay bounces := by
  have h := perPixelLoop_afterHits sqrt RAND_MAX scene rand pRay bounces hhit 0
  simpa [perPixelRun, perPixelLoop] using h

/-- C12 (amended): in exact arithmetic (the scalars of any ordered field,
every operation exact), when all 10 bounces hit geometry, the colour that
`perPixel` packs is exactly `sum_{i=0}^{9} 0.7^i * c_i` per channel: no
background term is added and no clamp is applied, and the loop ends at counter
10 after 30 draws.  Each `c_i`
is the clamped shaded colour of bounce `i`,
`clamp(albedo_i * max(dot(normal_i, -lightDir), 0) + 0.1, 0, 1)`. -/
theorem perPixel_exhausted [FloorRing F] (sqrt : F → F) (RAND_MAX : Nat) (scene : Scene F)
    (rand : Nat → Nat) (pRay : Ray F)
    (hhit : ∀ i < 10, (bounceHit sqrt RAND_MAX scene rand pRay i).distance ≥ 0) :
    (perPixelRun sqrt RAND_MAX scene rand pRay).color
      = ⟨∑ i in Finset.range 10, (7 / 10) ^ i * (bounceColor sqrt RAND_MAX scene rand pRay i).x,
         ∑ i in Finset.range 10, (7 / 10) ^ i * (bounceColor sqrt RAND_MAX scene rand pRay i).y,
         ∑ i in Finset.range 10, (7 / 10) ^ i * (bounceColor sqrt RAND_MAX scene rand pRay i).z⟩ ∧
    (perPixel sqrt RAND_MAX scene rand pRay).color
      = convertToRGBA
          ⟨∑ i in Finset.range 10, (7 / 10) ^ i * (bounceColor sqrt RAND_MAX scene rand pRay i).x,
           ∑ i in Finset.range 10, (7 / 10) ^ i * (bounceColor sqrt RAND_MAX scene rand pRay i).y,
           ∑ i in Finset.range 10, (7 / 10) ^ i * (bounceColor sqrt RAND_MAX scene rand pRay i).z,
           1⟩ ∧
    (∀ i, bounceColor sqrt RAND_MAX scene rand pRay i
      = shadeFormula sqrt
          (scene.sphereAt (bounceHit sqrt RAND_MAX scene rand pRay i).sphereID).material.albedo
          (bounceHit sqrt RAND_MAX scene rand pRay i).normal) ∧
    (perPixelRun sqrt RAND_MAX scene rand pRay).i = 10 ∧
    (perPixelRun sqrt RAND_MAX scene rand pRay).draws = 30 := by
  have hrun : perPixelRun sqrt RAND_MAX scene rand pRay
      = afterHits sqrt RAND_MAX scene rand pRay 10 :=
    perPixelRun_all_hits sqrt RAND_MAX scene rand pRay hhit
  have hcol := afterHits_color sqrt RAND_MAX scene rand pRay 10
  refine ⟨by rw [hrun, hcol], ?_, ?_, ?_, ?_⟩
  · simp only [perPixel, hrun, hcol]
  · intro i
    simp only [bounceColor, sphereColor, shadeFormula, lightDirection, Vec3.splat, Vec3.scale,
      one_mul]
  · rw [hrun]
    exact afterHits_i sqrt RAND_MAX scene rand pRay 10
  · rw [hrun]
    exact afterHits_draws sqrt RAND_MAX scene rand pRay 10

/-- On `mirrorPair` the ray after the first hit is `rayUp`. -/
theorem mirrorPair_next_between (sqrt : F → F) (h1 : sqrt 1 = 1) (h4 : sqrt 4 = 2)
    (RAND_MAX : Nat) (rand : Nat → Nat) (n : Nat) :
    nextRay sqrt RAND_MAX mirrorPair rand (rayBetween : Ray F)
      (traceRay sqrt mirrorPair rayBetween) n = rayUp := by
  rw [mirrorPair_trace_between sqrt h4, nextRay_rough_zero _ _ _ _ _ _ _
    (by simp [closestHit, Scene.sphereAt, mirrorPair])]
  simp [closestHit, Scene.sphereAt, mirrorPair, rayBetween, rayUp, reflect, normalize,
    inversesqrt, dot, Vec3.sub, Vec3.add, Vec3.scale]
  norm_num [h1]

/-- On `mirrorPair` the ray after a hit of `rayUp` is `rayDown`. -/
theorem mirrorPair_next_up (sqrt : F → F) (h1 : sqrt 1 = 1) (h4 : sqrt 4 = 2)
    (RAND_MAX : Nat) (rand : Nat → Nat) (n : Nat) :
    nextRay sqrt RAND_MAX mirrorPair rand (rayUp : Ray F)
      (traceRay sqrt mirrorPair rayUp) n = rayDown := by
  rw [mirrorPair_trace_up sqrt h4, nextRay_rough_zero _ _ _ _ _ _ _
    (by simp [closestHit, Scene.sphereAt, mirrorPair])]
  simp [closestHit, Scene.sphereAt, mirrorPair, rayDown, rayUp, reflect, normalize,
    inversesqrt, dot, Vec3.sub, Vec3.add, Vec3.scale]
  norm_num [h1]

/-- On `mirrorPair` the ray after a hit of `rayDown` is `rayUp`. -/
theorem mirrorPair_next_down (sqrt : F → F) (h1 : sqrt 1 = 1) (h4 : sqrt 4 = 2)
    (RAND_MAX : Nat) (rand : Nat → Nat) (n : Nat) :
    nextRay sqrt RAND_MAX mirrorPair rand (rayDown : Ray F)
      (traceRay sqrt mirrorPair rayDown) n = rayUp := by
  rw [mirrorPair_trace_down sqrt h4, nextRay_rough_zero _ _ _ _ _ _ _
    (by simp [closestHit, Scene.sphereAt, mirrorPair])]
  simp [closestHit, Scene.sphereAt, mirrorPair, rayDown, rayUp, reflect, normalize,
    inversesqrt, dot, Vec3.sub, Vec3.add, Vec3.scale]
  norm_num [h1]

/-- The rays of the bounces on `mirrorPair` alternate between `rayUp` and
`rayDown`. -/
theorem mirrorPair_rays (sqrt : F → F) (h1 : sqrt 1 = 1) (h4 : sqrt 4 = 2)
    (RAND_MAX : Nat) (rand : Nat → Nat) (m : Nat) :
    (afterHits sqrt RAND_MAX mirrorPair rand (rayBetween : Ray F) (2 * m + 1)).ray = rayUp ∧
    (afterHits sqrt RAND_MAX mirrorPair rand (rayBetween : Ray F) (2 * m + 2)).ray = rayDown := by
  induction m with
  | zero =>
    have hup : (afterHits sqrt RAND_MAX mirrorPair rand (rayBetween : Ray F) 1).ray = rayUp := by
      rw [afterHits_succ_ray]
      exact mirrorPair_next_between sqrt h1 h4 RAND_MAX rand _
    refine ⟨hup, ?_⟩
    show (afterHits sqrt RAND_MAX mirrorPair rand (rayBetween : Ray F) (1 + 1)).ray = rayDown
    rw [afterHits_succ_ray, hup]
    exact mirrorPair_next_up sqrt h1 h4 RAND_MAX rand _
  | succ m ih =>
    have hup : (afterHits sqrt RAND_MAX mirrorPair rand (rayBetween : Ray F)
        (2 * (m + 1) + 1)).ray = rayUp := by
      show (afterHits sqrt RAND_MAX mirrorPair rand (rayBetween : Ray F)
        ((2 * m + 2) + 1)).ray = rayUp
      rw [afterHits_succ_ray, ih.2]
      exact mirrorPair_next_down sqrt h1 h4 RAND_MAX rand _
    refine ⟨hup, ?_⟩
    show (afterHits sqrt RAND_MAX mirrorPair rand (rayBetween : Ray F)
      ((2 * (m + 1) + 1) + 1)).ray = rayDown
    rw [afterHits_succ_ray, hup]
    exact mirrorPair_next_up sqrt h1 h4 RAND_MAX rand _

/-- Every bounce on `mirrorPair` hits; the even ones hit the first sphere with
normal `(0, 0, 1)`. -/
theorem mirrorPair_bounces (sqrt : F → F) (h1 : sqrt 1 = 1) (h4 : sqrt 4 = 2)
    (RAND_MAX : Nat) (rand : Nat → Nat) :
    (∀ k, (bounceHit sqrt RAND_MAX mirrorPair rand (rayBetween : Ray F) k).distance ≥ 0) ∧
    (∀ m, (bounceHit sqrt RAND_MAX mirrorPair rand (rayBetween : Ray F) (2 * m)).sphereID = 0 ∧
      (bounceHit sqrt RAND_MAX mirrorPair rand (rayBetween : Ray F) (2 * m)).normal
        = ⟨0, 0, 1⟩) := by
  have h0 : bounceHit sqrt RAND_MAX mirrorPair rand (rayBetween : Ray F) 0
      = closestHit sqrt rayBetween 1 mirrorPair 0 := by
    simp only [bounceHit, afterHits, PixelState.init]
    exact mirrorPair_trace_between sqrt h4
  have hodd : ∀ m, bounceHit sqrt RAND_MAX mirrorPair rand (rayBetween : Ray F) (2 * m + 1)
      = closestHit sqrt rayUp (19999 / 10000) mirrorPair 1 := by
    intro m
    simp only [bounceHit, (mirrorPair_rays sqrt h1 h4 RAND_MAX rand m).1]
    exact mirrorPair_trace_up sqrt h4
  have heven : ∀ m, bounceHit sqrt RAND_MAX mirrorPair rand (rayBetween : Ray F) (2 * m + 2)
      = closestHit sqrt rayDown (19999 / 10000) mirrorPair 0 := by
    intro m
    simp only [bounceHit, (mirrorPair_rays sqrt h1 h4 RAND_MAX rand m).2]
    exact mirrorPair_trace_down sqrt h4
  constructor
  · intro k
    rcases Nat.even_or_odd' k with ⟨m, rfl | rfl⟩
    · cases m with
      | zero =>
        rw [h0, closestHit_distance]
        norm_num
      | succ m =>
        show (bounceHit sqrt RAND_MAX mirrorPair rand (rayBetween : Ray F)
          (2 * m + 2)).distance ≥ 0
        rw [heven, closestHit_distance]
        norm_num
    · rw [hodd, closestHit_distance]
      norm_num
  · intro m
    cases m with
    | zero =>
      rw [h0]
      refine ⟨rfl, ?_⟩
      simp [closestHit, Scene.sphereAt, mirrorPair, rayBetween, normalize, inversesqrt, dot,
        Vec3.sub, Vec3.add, Vec3.scale]
      norm_num [h1]
    | succ m =>
      show (bounceHit sqrt RAND_MAX mirrorPair rand (rayBetween : Ray F) (2 * m + 2)).sphereID = 0
        ∧ (bounceHit sqrt RAND_MAX mirrorPair rand (rayBetween : Ray F) (2 * m + 2)).normal
          = ⟨0, 0, 1⟩
      rw [heven]
      refine ⟨rfl, ?_⟩
      simp [closestHit, Scene.sphereAt, mirrorPair, rayDown, normalize, inversesqrt, dot,
        Vec3.sub, Vec3.add, Vec3.scale]
      norm_num [h1]

end ExhaustionLemmas

section ExhaustionWitness

/-- The red channel of every even bounce on `mirrorPair` is at least `0.6` in
exact arithmetic: the normal is `(0, 0, 1)` and the diffuse term is
`1 / sqrt 3 >= 0.5`. -/
theorem mirrorPair_even_red (RAND_MAX : Nat) (rand : Nat → Nat) (m : Nat) :
    3 / 5 ≤ (bounceColor Real.sqrt RAND_MAX mirrorPair rand (rayBetween : Ray ℝ) (2 * m)).x := by
  obtain ⟨hid, hnormal⟩ :=
    (mirrorPair_bounces Real.sqrt Real.sqrt_one sqrt_four RAND_MAX rand).2 m
  have hs3 : Real.sqrt 3 ≤ 2 := by
    rw [← sqrt_four]
    exact Real.sqrt_le_sqrt (by norm_num)
  have hs3pos : 0 < Real.sqrt 3 := Real.sqrt_pos.mpr (by norm_num)
  have hd : dot (⟨0, 0, 1⟩ : Vec3 ℝ) (lightDirection Real.sqrt).neg = 1 / Real.sqrt 3 := by
    simp [lightDirection, normalize, inversesqrt, dot, Vec3.neg, Vec3.scale]
    norm_num
  have hhalf : (1 : ℝ) / 2 ≤ 1 / Real.sqrt 3 := one_div_le_one_div_of_le hs3pos hs3
  have hcolor : (bounceColor Real.sqrt RAND_MAX mirrorPair rand (rayBetween : Ray ℝ) (2 * m)).x
      = clampS (((mirrorPair : Scene ℝ).sphereAt 0).material.albedo.x
          * fmax (1 / Real.sqrt 3) 0 + 1 * (1 / 10)) 0 1 := by
    unfold bounceColor sphereColor
    simp only [hid, hnormal, hd, clamp, Vec3.add, Vec3.scale, Vec3.splat]
  rw [hcolor]
  have halb : ((mirrorPair : Scene ℝ).sphereAt 0).material.albedo.x = 1 := by
    simp [Scene.sphereAt, mirrorPair]
  rw [halb]
  unfold clampS fmin fmax
  split_ifs <;> linarith

/-- Witness for C12: on `mirrorPair`, in exact arithmetic, the ray between the
two mirror spheres hits at every one of the ten bounces; the red channel is the
weighted sum of the ten shaded colours, and it exceeds `1`: nothing clamps it. -/
theorem perPixel_exhausted_witness :
    (∀ i < 10,
      (bounceHit Real.sqrt glibcRandMax mirrorPair zeroStream (rayBetween : Ray ℝ) i).distance
        ≥ 0) ∧
    (perPixelRun Real.sqrt glibcRandMax mirrorPair zeroStream (rayBetween : Ray ℝ)).color.x
      = ∑ i in Finset.range 10, (7 / 10) ^ i
          * (bounceColor Real.sqrt glibcRandMax mirrorPair zeroStream (rayBetween : Ray ℝ) i).x ∧
    1 < (perPixelRun Real.sqrt glibcRandMax mirrorPair zeroStream (rayBetween : Ray ℝ)).color.x ∧
    (perPixelRun Real.sqrt glibcRandMax mirrorPair zeroStream (rayBetween : Ray ℝ)).i = 10 ∧
    (perPixelRun Real.sqrt glibcRandMax mirrorPair zeroStream (rayBetween : Ray ℝ)).draws
      = 30 := by
  have hhit : ∀ i < 10,
      (bounceHit Real.sqrt glibcRandMax mirrorPair zeroStream (rayBetween : Ray ℝ) i).distance
        ≥ 0 :=
    fun i _ => (mirrorPair_bounces Real.sqrt Real.sqrt_one sqrt_four glibcRandMax zeroStream).1 i
  have h := perPixel_exhausted Real.sqrt glibcRandMax mirrorPair zeroStream
    (rayBetween : Ray ℝ) hhit
  have hx : (perPixelRun Real.sqrt glibcRandMax mirrorPair zeroStream
        (rayBetween : Ray ℝ)).color.x
      = ∑ i in Finset.range 10, (7 / 10) ^ i
          * (bounceColor Real.sqrt glibcRandMax mirrorPair zeroStream
              (rayBetween : Ray ℝ) i).x := by
    rw [h.1]
  refine ⟨hhit, hx, ?_, h.2.2.2.1, h.2.2.2.2⟩
  rw [hx]
  have hnn : ∀ k, 0 ≤ (bounceColor Real.sqrt glibcRandMax mirrorPair zeroStream
      (rayBetween : Ray ℝ) k).x := by
    intro k
    rw [h.2.2.1 k]
    simp only [shadeFormula, clamp]
    unfold clampS fmin fmax
    split_ifs <;> linarith
  have h0 := mirrorPair_even_red glibcRandMax zeroStream 0
  have h2 := mirrorPair_even_red glibcRandMax zeroStream 1
  have h4 : 3 / 5 ≤ (bounceColor Real.sqrt glibcRandMax mirrorPair zeroStream
      (rayBetween : Ray ℝ) 4).x := mirrorPair_even_red glibcRandMax zeroStream 2
  simp only [Nat.mul_zero, Nat.mul_one] at h0 h2
  simp only [Finset.sum_range_succ, Finset.sum_range_zero]
  have n1 := hnn 1
  have n3 := hnn 3
  have n5 := hnn 5
  have n6 := hnn 6
  have n7 := hnn 7
  have n8 := hnn 8
  have n9 := hnn 9
  norm_num
  linarith

end ExhaustionWitness

section ChannelRange

variable {F : Type} [LinearOrderedField F]

theorem clampS_nonneg (x : F) : 0 ≤ clampS x 0 1 := by
  unfold clampS fmin fmax
  split_ifs <;> linarith

theorem clampS_le_one (x : F) : clampS x 0 1 ≤ 1 := by
  unfold clampS fmin fmax
  split_ifs <;> linarith

theorem le_clampS (m x : F) (hm1 : m ≤ 1) (hx : m ≤ x) : m ≤ clampS x 0 1 := by
  unfold clampS fmin fmax
  split_ifs <;> linarith

theorem le_fmax_left (a b : F) : a ≤ fmax a b := by
  unfold fmax
  split_ifs <;> linarith

theorem sphereColor_x (sqrt : F → F) (scene : Scene F) (rayHit : Hit F) :
    (sphereColor sqrt scene rayHit).x
      = clampS ((scene.sphereAt rayHit.sphereID).material.albedo.x
          * fmax (dot rayHit.normal (lightDirection sqrt).neg) 0 + 1 * (1 / 10)) 0 1 := rfl

theorem bounceColor_x_nonneg (sqrt : F → F) (RAND_MAX : Nat) (scene : Scene F)
    (rand : Nat → Nat) (pRay : Ray F) (k : Nat) :
    0 ≤ (bounceColor sqrt RAND_MAX scene rand pRay k).x := by
  unfold bounceColor
  rw [sphereColor_x]
  exact clampS_nonneg _

end ChannelRange

section ChannelOverflow

/-- The shaded red channel of an even bounce on `mirrorPair` is at least `0.6`:
the normal is `(0, 0, 1)` and the diffuse term is `1 / sqrt 3 >= 0.5`. -/
theorem mirrorPair_even_color (RAND_MAX : Nat) (rand : Nat → Nat) (m : Nat) :
    3 / 5 ≤ (bounceColor Real.sqrt RAND_MAX mirrorPair rand (rayBetween : Ray ℝ) (2 * m)).x := by
  obtain ⟨hid, hnormal⟩ :=
    (mirrorPair_bounces Real.sqrt Real.sqrt_one sqrt_four RAND_MAX rand).2 m
  have hs3 : Real.sqrt 3 ≤ 2 := by
    rw [← sqrt_four]
    exact Real.sqrt_le_sqrt (by norm_num)
  have hs3pos : 0 < Real.sqrt 3 := Real.sqrt_pos.mpr (by norm_num)
  have hd : dot (⟨0, 0, 1⟩ : Vec3 ℝ) (lightDirection Real.sqrt).neg = 1 / Real.sqrt 3 := by
    simp [lightDirection, normalize, inversesqrt, dot, Vec3.neg, Vec3.scale]
    norm_num
  have hhalf : (1 : ℝ) / 2 ≤ 1 / Real.sqrt 3 := one_div_le_one_div_of_le hs3pos hs3
  unfold bounceColor
  rw [sphereColor_x, hid, hnormal, hd]
  apply le_clampS _ _ (by norm_num)
  have hmax := le_fmax_left (1 / Real.sqrt 3) 0
  have halb : ((mirrorPair : Scene ℝ).sphereAt 0).material.albedo.x = 1 := by
    simp [Scene.sphereAt, mirrorPair]
  rw [halb]
  linarith

/-- C18, evaluated at a failing input: on `mirrorPair` with the primary ray
`rayBetween` all ten bounces hit, the accumulator is left un-clamped, and the
red channel that `perPixel` passes to `convertToRGBA` exceeds `1`, so `255`
times the channel does not fit in a byte. -/
theorem mirrorPair_channel_overflow (RAND_MAX : Nat) (rand : Nat → Nat) :
    (∀ i < 10,
      (bounceHit Real.sqrt RAND_MAX mirrorPair rand (rayBetween : Ray ℝ) i).distance ≥ 0) ∧
    1 < (perPixelRun Real.sqrt RAND_MAX mirrorPair rand (rayBetween : Ray ℝ)).color.x ∧
    255 < (perPixelRun Real.sqrt RAND_MAX mirrorPair rand (rayBetween : Ray ℝ)).color.x * 255 := by
  have hhit : ∀ i < 10,
      (bounceHit Real.sqrt RAND_MAX mirrorPair rand (rayBetween : Ray ℝ) i).distance ≥ 0 :=
    fun i _ => (mirrorPair_bounces Real.sqrt Real.sqrt_one sqrt_four RAND_MAX rand).1 i
  have hrun := perPixelRun_all_hits Real.sqrt RAND_MAX mirrorPair rand (rayBetween : Ray ℝ) hhit
  have hcol := afterHits_color Real.sqrt RAND_MAX mirrorPair rand (rayBetween : Ray ℝ) 10
  have hx : (perPixelRun Real.sqrt RAND_MAX mirrorPair rand (rayBetween : Ray ℝ)).color.x
      = ∑ i in Finset.range 10, (7 / 10) ^ i
          * (bounceColor Real.sqrt RAND_MAX mirrorPair rand (rayBetween : Ray ℝ) i).x := by
    rw [hrun]
    show (afterHits Real.sqrt RAND_MAX mirrorPair rand (rayBetween : Ray ℝ) 10).color.x = _
    rw [hcol]
  have hnn := bounceColor_x_nonneg Real.sqrt RAND_MAX mirrorPair rand (rayBetween : Ray ℝ)
  have h0 := mirrorPair_even_color RAND_MAX rand 0
  have h2 := mirrorPair_even_color RAND_MAX rand 1
  have h4 := mirrorPair_even_color RAND_MAX rand 2
  simp only [Nat.mul_zero, Nat.mul_one] at h0 h2
  have h4' : 3 / 5 ≤
      (bounceColor Real.sqrt RAND_MAX mirrorPair rand (rayBetween : Ray ℝ) 4).x := h4
  have hgt : 1 < (perPixelRun Real.sqrt RAND_MAX mirrorPair rand (rayBetween : Ray ℝ)).color.x := by
    rw [hx]
    simp only [Finset.sum_range_succ, Finset.sum_range_zero]
    have n1 := hnn 1
    have n3 := hnn 3
    have n5 := hnn 5
    have n6 := hnn 6
    have n7 := hnn 7
    have n8 := hnn 8
    have n9 := hnn 9
    norm_num
    linarith
  exact ⟨hhit, hgt, by linarith⟩

end ChannelOverflow

/-! ## Dependence on the random stream -/

section StreamLemmas

variable {F : Type} [LinearOrderedField F]

/-- The hit branch reads the stream at the three positions `draws`,
`draws + 1` and `draws + 2` only. -/
theorem hitStep_congr (sqrt : F → F) (RAND_MAX : Nat) (scene : Scene F)
    (rand rand' : Nat → Nat) (st : PixelState F) (rayHit : Hit F)
    (h0 : rand st.draws = rand' st.draws) (h1 : rand (st.draws + 1) = rand' (st.draws + 1))
    (h2 : rand (st.draws + 2) = rand' (st.draws + 2)) :
    hitStep sqrt RAND_MAX scene rand st rayHit = hitStep sqrt RAND_MAX scene rand' st rayHit := by
  simp only [hitStep, nextRay, randomVec, h0, h1, h2]

/-- The state after `k` hit bounces depends on the first `3 * k` draws only. -/
theorem afterHits_congr (sqrt : F → F) (RAND_MAX : Nat) (scene : Scene F)
    (rand rand' : Nat → Nat) (pRay : Ray F) (k : Nat)
    (h : ∀ m < 3 * k, rand m = rand' m) :
    afterHits sqrt RAND_MAX scene rand pRay k = afterHits sqrt RAND_MAX scene rand' pRay k := by
  induction k with
  | zero => rfl
  | succ k ih =>
    have ihk := ih (fun m hm => h m (by omega))
    have hd := afterHits_draws sqrt RAND_MAX scene rand' pRay k
    simp only [afterHits, ihk]
    apply hitStep_congr
    · rw [hd]
      exact h _ (by omega)
    · rw [hd]
      exact h _ (by omega)
    · rw [hd]
      exact h _ (by omega)

/-- Among the first `n` bounces either all hit, or there is a first miss. -/
theorem first_miss_or_all_hit (sqrt : F → F) (RAND_MAX : Nat) (scene : Scene F)
    (rand : Nat → Nat) (pRay : Ray F) (n : Nat) :
    (∀ j < n, (bounceHit sqrt RAND_MAX scene rand pRay j).distance ≥ 0) ∨
    ∃ k < n, (∀ j < k, (bounceHit sqrt RAND_MAX scene rand pRay j).distance ≥ 0) ∧
      (bounceHit sqrt RAND_MAX scene rand pRay k).distance < 0 := by
  induction n with
  | zero =>
    left
    intro j hj
    exact absurd hj (Nat.not_lt_zero j)
  | succ n ih =>
    rcases ih with hall | ⟨k, hk, hpre, hmiss⟩
    · rcases lt_or_le (bounceHit sqrt RAND_MAX scene rand pRay n).distance 0 with hlt | hge
      · right
        exact ⟨n, Nat.lt_succ_self n, hall, hlt⟩
      · left
        intro j hj
        rcases Nat.lt_succ_iff_lt_or_eq.mp hj with hjn | rfl
        · exact hall j hjn
        · exact hge
    · right
      exact ⟨k, Nat.lt_succ_of_lt hk, hpre, hmiss⟩

/-- The state in which `perPixel` leaves its loop: after `k <= 10` hit bounces,
either by the miss branch at bounce `k < 10` or by exhaustion with `k = 10`. -/
theorem perPixelRun_cases (sqrt : F → F) (RAND_MAX : Nat) (scene : Scene F)
    (rand : Nat → Nat) (pRay : Ray F) :
    ∃ k, k ≤ bounces ∧
      (∀ j < k, (bounceHit sqrt RAND_MAX scene rand pRay j).distance ≥ 0) ∧
      (perPixelRun sqrt RAND_MAX scene rand pRay).i = k ∧
      (perPixelRun sqrt RAND_MAX scene rand pRay).draws = 3 * k ∧
      ((k < bounces ∧ (bounceHit sqrt RAND_MAX scene rand pRay k).distance < 0 ∧
          perPixelRun sqrt RAND_MAX scene rand pRay
            = missStep (afterHits sqrt RAND_MAX scene rand pRay k)
                (bounceHit sqrt RAND_MAX scene rand pRay k)) ∨
       (k = bounces ∧
          perPixelRun sqrt RAND_MAX scene rand pRay
            = afterHits sqrt RAND_MAX scene rand pRay bounces)) := by
  rcases first_miss_or_all_hit sqrt RAND_MAX scene rand pRay bounces with
    hall | ⟨k, hk, hpre, hmiss⟩
  · have hrun := perPixelRun_all_hits sqrt RAND_MAX scene rand pRay hall
    refine ⟨bounces, le_refl _, hall, ?_, ?_, Or.inr ⟨rfl, hrun⟩⟩
    · rw [hrun]
      exact afterHits_i sqrt RAND_MAX scene rand pRay bounces
    · rw [hrun]
      exact afterHits_draws sqrt RAND_MAX scene rand pRay bounces
  · have hrun := perPixelRun_first_miss sqrt RAND_MAX scene rand pRay k hk hpre hmiss
    refine ⟨k, le_of_lt hk, hpre, ?_, ?_, Or.inl ⟨hk, hmiss, hrun⟩⟩
    · rw [hrun]
      exact afterHits_i sqrt RAND_MAX scene rand pRay k
    · rw [hrun]
      exact afterHits_draws sqrt RAND_MAX scene rand pRay k

/-- Two streams that agree on the first `3 * k` draws, `k` being the number of
hit bounces of the first run, lead `perPixel` to the same final loop state. -/
theorem perPixelRun_congr (sqrt : F → F) (RAND_MAX : Nat) (scene : Scene F)
    (rand rand' : Nat → Nat) (pRay : Ray F)
    (hagree : ∀ m < 3 * (perPixelRun sqrt RAND_MAX scene rand pRay).i, rand m = rand' m) :
    perPixelRun sqrt RAND_MAX scene rand' pRay = perPixelRun sqrt RAND_MAX scene rand pRay := by
  obtain ⟨k, hk, hpre, hi, _, hcase⟩ := perPixelRun_cases sqrt RAND_MAX scene rand pRay
  rw [hi] at hagree
  have hstate : ∀ j ≤ k, afterHits sqrt RAND_MAX scene rand' pRay j
      = afterHits sqrt RAND_MAX scene rand pRay j := by
    intro j hj
    exact (afterHits_congr sqrt RAND_MAX scene rand rand' pRay j
      (fun m hm => hagree m (by omega))).symm
  have hhitEq : ∀ j ≤ k, bounceHit sqrt RAND_MAX scene rand' pRay j
      = bounceHit sqrt RAND_MAX scene rand pRay j := by
    intro j hj
    simp only [bounceHit, hstate j hj]
  have hpre' : ∀ j < k, (bounceHit sqrt RAND_MAX scene rand' pRay j).distance ≥ 0 := by
    intro j hj
    rw [hhitEq j (le_of_lt hj)]
    exact hpre j hj
  rcases hcase with ⟨hlt, hmiss, hrun⟩ | ⟨hkb, hrun⟩
  · have hmiss' : (bounceHit sqrt RAND_MAX scene rand' pRay k).distance < 0 := by
      rw [hhitEq k (le_refl k)]
      exact hmiss
    rw [hrun, perPixelRun_first_miss sqrt RAND_MAX scene rand' pRay k hlt hpre' hmiss',
      hstate k (le_refl k), hhitEq k (le_refl k)]
  · subst hkb
    rw [hrun, perPixelRun_all_hits sqrt RAND_MAX scene rand' pRay hpre',
      hstate bounces (le_refl _)]

/-- C15: with the random source as an explicit stream, two runs of `perPixel`
on the same scene and ray whose streams agree on the first `3 * k` draws return
the same packed colour, where `k <= 10` is the number of hit bounces of the
first run: the run makes exactly `3 * k` draws, bounces `0 .. k-1` hit and
bounce `k`, if there is one, misses. -/
theorem perPixel_stream_agreement [FloorRing F] (sqrt : F → F) (RAND_MAX : Nat)
    (scene : Scene F) (rand rand' : Nat → Nat) (pRay : Ray F)
    (hagree : ∀ m < 3 * (perPixelRun sqrt RAND_MAX scene rand pRay).i, rand m = rand' m) :
    (perPixel sqrt RAND_MAX scene rand' pRay).color
      = (perPixel sqrt RAND_MAX scene rand pRay).color ∧
    (perPixelRun sqrt RAND_MAX scene rand pRay).i ≤ 10 ∧
    (perPixelRun sqrt RAND_MAX scene rand pRay).draws
      = 3 * (perPixelRun sqrt RAND_MAX scene rand pRay).i ∧
    (∀ j < (perPixelRun sqrt RAND_MAX scene rand pRay).i,
      (bounceHit sqrt RAND_MAX scene rand pRay j).distance ≥ 0) ∧
    ((perPixelRun sqrt RAND_MAX scene rand pRay).i < 10 →
      (bounceHit sqrt RAND_MAX scene rand pRay
        (perPixelRun sqrt RAND_MAX scene rand pRay).i).distance < 0) := by
  have hrun := perPixelRun_congr sqrt RAND_MAX scene rand rand' pRay hagree
  obtain ⟨k, hk, hpre, hi, hd, hcase⟩ := perPixelRun_cases sqrt RAND_MAX scene rand pRay
  refine ⟨by simp only [perPixel, hrun], ?_, ?_, ?_, ?_⟩
  · rw [hi]
    exact hk
  · rw [hd, hi]
  · rw [hi]
    exact hpre
  · rw [hi]
    intro hlt
    rcases hcase with ⟨_, hmiss, _⟩ | ⟨hkb, _⟩
    · exact hmiss
    · rw [hkb] at hlt
      exact absurd hlt (lt_irrefl _)

end StreamLemmas

section StreamWitness

/-- The example run on `unitScene` makes one hit bounce. -/
theorem unitScene_run_i :
    (perPixelRun Rat.sqrt 32767 unitScene zeroStream rayFromAbove).i = 1 := by
  have hhit : ∀ i < 1,
      (bounceHit Rat.sqrt 32767 unitScene zeroStream rayFromAbove i).distance ≥ 0 := by
    intro i hi
    have hi0 : i = 0 := by omega
    subst hi0
    simp only [bounceHit, afterHits, PixelState.init, unitScene_bounce0, closestHit_distance]
    norm_num
  have hmiss : (bounceHit Rat.sqrt 32767 unitScene zeroStream rayFromAbove 1).distance < 0 := by
    simp only [bounceHit, unitScene_ray1]
    simp [traceRay, traceLoop, unitScene, discriminant, nearRoot, dot, Vec3.sub, FLT_MAX, miss]
    norm_num [Rat.sqrt]
  rw [perPixelRun_first_miss Rat.sqrt 32767 unitScene zeroStream rayFromAbove 1 (by decide)
    hhit hmiss]
  exact afterHits_i Rat.sqrt 32767 unitScene zeroStream rayFromAbove 1

/-- Witness for C15: the run on `unitScene` has one hit bounce, and
`lateStream` agrees with `zeroStream` on the first three draws only. -/
theorem perPixel_stream_agreement_witness :
    (∀ m < 3 * (perPixelRun Rat.sqrt 32767 unitScene zeroStream rayFromAbove).i,
      zeroStream m = lateStream m) ∧
    lateStream 3 ≠ zeroStream 3 ∧
    (perPixel Rat.sqrt 32767 unitScene lateStream rayFromAbove).color
      = (perPixel Rat.sqrt 32767 unitScene zeroStream rayFromAbove).color := by
  have hagree : ∀ m < 3 * (perPixelRun Rat.sqrt 32767 unitScene zeroStream rayFromAbove).i,
      zeroStream m = lateStream m := by
    intro m hm
    rw [unitScene_run_i] at hm
    have hm3 : m < 3 := by omega
    simp [zeroStream, lateStream, hm3]
  exact ⟨hagree, by decide,
    (perPixel_stream_agreement Rat.sqrt 32767 unitScene zeroStream lateStream rayFromAbove
      hagree).1⟩

end StreamWitness

/-! ## The kernel in binary32: where rounding departs from exact arithmetic -/

section Binary32Intersector

set_option maxRecDepth 100000 in
/-- Counterexample to C2 as stated, in binary32: the sphere of `tinyScene` has
`dot(center - origin, direction) < 0` for the ray `tinyRay`, yet the products
of `b` round to `u, -u, -u` (`u = 2^-149`), so `b = -2u`; `c` and the
discriminant underflow to `0`, the near root is `u > 0`, and `traceRay` returns
a hit on sphere `0` at distance `u`, not the miss record. -/
theorem traceRay_miss_counterexample :
    (∀ s ∈ tinyScene.spheres, dot (s.position.sub tinyRay.origin) tinyRay.target < 0) ∧
    (∀ s ∈ tinyScene.spheres,
      fmul 2 (dot32 (sub32 tinyRay.origin s.position) tinyRay.target) = -2 * pow2 (-149) ∧
      discriminant32 tinyRay s = 0 ∧ nearRoot32 tinyRay s = pow2 (-149)) ∧
    (traceRay32 tinyScene tinyRay).sphereID = 0 ∧
    (traceRay32 tinyScene tinyRay).distance = pow2 (-149) ∧
    ¬ ((traceRay32 tinyScene tinyRay).distance = -1 ∧
       (traceRay32 tinyScene tinyRay).sphereID = -1) := by
  decide!

end Binary32Intersector

section Binary32Shading

/-- Rational bounds for `1 / sqrt 3`, eleven digits apart. -/
theorem inv_sqrt_three_bounds :
    (57735026918 / 100000000000 : ℝ) < 1 / Real.sqrt 3 ∧
    1 / Real.sqrt 3 < 57735026919 / 100000000000 := by
  have hpos : 0 < Real.sqrt 3 := Real.sqrt_pos.mpr (by norm_num)
  have hlo : (100000000000 / 57735026919 : ℝ) < Real.sqrt 3 :=
    Real.lt_sqrt_of_sq_lt (by norm_num)
  have hhi : Real.sqrt 3 < 100000000000 / 57735026918 :=
    (Real.sqrt_lt' (by norm_num)).mpr (by norm_num)
  constructor
  · rw [lt_div_iff₀ hpos]
    have := mul_lt_mul_of_pos_left hhi (by norm_num : (0 : ℝ) < 57735026918 / 100000000000)
    norm_num at this
    linarith
  · rw [div_lt_iff₀ hpos]
    have := mul_lt_mul_of_pos_left hlo (by norm_num : (0 : ℝ) < 57735026919 / 100000000000)
    norm_num at this
    linarith

theorem dot_up_light :
    dot (⟨0, 0, 1⟩ : Vec3 ℝ) (normalize Real.sqrt ⟨-1, -1, -1⟩).neg = 1 / Real.sqrt 3 := by
  simp [normalize, inversesqrt, dot, Vec3.neg, Vec3.scale]
  norm_num

theorem dot_down_light :
    dot (⟨0, 0, -1⟩ : Vec3 ℝ) (normalize Real.sqrt ⟨-1, -1, -1⟩).neg = -(1 / Real.sqrt 3) := by
  simp [normalize, inversesqrt, dot, Vec3.neg, Vec3.scale]
  norm_num

/-- The shading formula for the normal `(0, 0, 1)` and an albedo in `[0, 1]`:
the diffuse term is `1 / sqrt 3` and no clamp acts. -/
theorem shadeFormula_up (alb : Vec3 ℝ) (hx : 0 ≤ alb.x ∧ alb.x ≤ 1)
    (hy : 0 ≤ alb.y ∧ alb.y ≤ 1) (hz : 0 ≤ alb.z ∧ alb.z ≤ 1) :
    shadeFormula Real.sqrt alb ⟨0, 0, 1⟩
      = ⟨alb.x * (1 / Real.sqrt 3) + 1 / 10, alb.y * (1 / Real.sqrt 3) + 1 / 10,
         alb.z * (1 / Real.sqrt 3) + 1 / 10⟩ := by
  obtain ⟨hlo, hhi⟩ := inv_sqrt_three_bounds
  have hmax : fmax (1 / Real.sqrt 3) 0 = 1 / Real.sqrt 3 := by
    unfold fmax
    rw [if_neg (by linarith)]
  have key : ∀ a : ℝ, 0 ≤ a ∧ a ≤ 1 →
      clampS (a * (1 / Real.sqrt 3) + 1 / 10) 0 1 = a * (1 / Real.sqrt 3) + 1 / 10 := by
    intro a ha
    apply clampS_of_mem
    · nlinarith [ha.1]
    · nlinarith [ha.1, ha.2]
  simp only [shadeFormula, dot_up_light, hmax, clamp, Vec3.add, Vec3.scale, key _ hx, key _ hy,
    key _ hz]

/-- The shading formula for the normal `(0, 0, -1)`: the diffuse term is `0`
and the colour is the ambient `0.1`. -/
theorem shadeFormula_down (alb : Vec3 ℝ) :
    shadeFormula Real.sqrt alb ⟨0, 0, -1⟩ = ⟨1 / 10, 1 / 10, 1 / 10⟩ := by
  obtain ⟨hlo, hhi⟩ := inv_sqrt_three_bounds
  have hmax : fmax (-(1 / Real.sqrt 3)) 0 = 0 := by
    unfold fmax
    rw [if_pos (by linarith)]
  have key : clampS ((1 : ℝ) / 10) 0 1 = 1 / 10 := clampS_of_mem _ (by norm_num) (by norm_num)
  simp only [shadeFormula, dot_down_light, hmax, clamp, Vec3.add, Vec3.scale, mul_zero, zero_add,
    key]

/-- The byte of a clamped channel whose value times 255 lies in `[n, n + 1)`. -/
theorem clamped_byte (v : ℝ) (n : ℕ) (hn : n < 255) (h0 : (n : ℝ) ≤ v * 255)
    (h1 : v * 255 < (n : ℝ) + 1) : toUInt8 (clampS v 0 1 * 255) = n := by
  have hn0 : (0 : ℝ) ≤ (n : ℝ) := Nat.cast_nonneg n
  have hn1 : (n : ℝ) + 1 ≤ 255 := by exact_mod_cast hn
  rw [clampS_of_mem v (by linarith) (by linarith)]
  exact toUInt8_eq_of_between _ n (by omega) h0 h1

/-- The packed word of a colour whose four bytes are known. -/
theorem convertToRGBA_of_bytes (c : Vec4 ℝ) (r g b a : ℕ)
    (hr : toUInt8 (c.r * 255) = r) (hg : toUInt8 (c.g * 255) = g)
    (hb : toUInt8 (c.b * 255) = b) (ha : toUInt8 (c.a * 255) = a) :
    convertToRGBA c = r * 2 ^ 24 + g * 2 ^ 16 + b * 2 ^ 8 + a := by
  have hr8 := toUInt8_lt (c.r * 255)
  have hg8 := toUInt8_lt (c.g * 255)
  have hb8 := toUInt8_lt (c.b * 255)
  have ha8 := toUInt8_lt (c.a * 255)
  rw [hr] at hr8
  rw [hg] at hg8
  rw [hb] at hb8
  rw [ha] at ha8
  simp only [convertToRGBA, hr, hg, hb, ha]
  exact pack_bytes r g b a hr8 hg8 hb8 ha8

theorem alpha_byte : toUInt8 ((1 : ℝ) * 255) = 255 :=
  toUInt8_eq_of_between _ 255 (by norm_num) (by norm_num) (by norm_num)

set_option maxRecDepth 100000 in
/-- The binary32 run on `dimSphere`: bounce `0` hits the sphere of albedo
`dimAlbedo` with normal `(0, 0, 1)`, bounce `1` misses, and the packed colour
has the bytes 144, 253, 233, 255. -/
theorem dimSphere_run32 :
    (bounceHit32 glibcRandMax dimSphere zeroStream rayFromAbove 0).distance ≥ 0 ∧
    (dimSphere.sphereAt
      (bounceHit32 glibcRandMax dimSphere zeroStream rayFromAbove 0).sphereID).material.albedo
        = dimAlbedo ∧
    (bounceHit32 glibcRandMax dimSphere zeroStream rayFromAbove 0).normal = ⟨0, 0, 1⟩ ∧
    (bounceHit32 glibcRandMax dimSphere zeroStream rayFromAbove 1).distance < 0 ∧
    (perPixelRun32 glibcRandMax dimSphere zeroStream rayFromAbove).i = 1 ∧
    (perPixel32 glibcRandMax dimSphere zeroStream rayFromAbove).color
      = 144 * 2 ^ 24 + 253 * 2 ^ 16 + 233 * 2 ^ 8 + 255 := by
  decide!

/-- The colour of the claim for one hit with normal `(0, 0, 1)` on albedo
`dimAlbedo` followed by a miss, evaluated in exact arithmetic, has the bytes
144, 252, 233, 255. -/
theorem dimSphere_formula :
    convertToRGBA
        ⟨(firstMissColor (fun _ => shadeFormula Real.sqrt dimAlbedo ⟨0, 0, 1⟩) 1).x,
         (firstMissColor (fun _ => shadeFormula Real.sqrt dimAlbedo ⟨0, 0, 1⟩) 1).y,
         (firstMissColor (fun _ => shadeFormula Real.sqrt dimAlbedo ⟨0, 0, 1⟩) 1).z, 1⟩
      = 144 * 2 ^ 24 + 252 * 2 ^ 16 + 233 * 2 ^ 8 + 255 := by
  obtain ⟨hlo, hhi⟩ := inv_sqrt_three_bounds
  have hshade := shadeFormula_up (dimAlbedo : Vec3 ℝ) (by norm_num [dimAlbedo])
    (by norm_num [dimAlbedo]) (by norm_num [dimAlbedo])
  rw [one_div] at hlo hhi
  apply convertToRGBA_of_bytes
  · simp only [firstMissColor, hshade, clamp, Finset.sum_range_one, pow_zero, pow_one, one_mul]
    apply clamped_byte _ 144 (by norm_num) <;> norm_num [dimAlbedo] <;> linarith
  · simp only [firstMissColor, hshade, clamp, Finset.sum_range_one, pow_zero, pow_one, one_mul]
    apply clamped_byte _ 252 (by norm_num) <;> norm_num [dimAlbedo] <;> linarith
  · simp only [firstMissColor, hshade, clamp, Finset.sum_range_one, pow_zero, pow_one, one_mul]
    apply clamped_byte _ 233 (by norm_num) <;> norm_num [dimAlbedo] <;> linarith
  · exact alpha_byte

end Binary32Shading

section Binary32Exhausted

set_option maxRecDepth 100000 in
/-- The binary32 run on `faintPair`: all ten bounces hit a sphere of albedo
`faintAlbedo`, with normals alternating between `(0, 0, 1)` and `(0, 0, -1)`,
and the packed colour has the bytes 138, 89, 138, 255. -/
theorem faintPair_run32 :
    (∀ i < 10,
      (bounceHit32 glibcRandMax faintPair zeroStream rayBetween i).distance ≥ 0 ∧
      (faintPair.sphereAt
        (bounceHit32 glibcRandMax faintPair zeroStream rayBetween i).sphereID).material.albedo
          = faintAlbedo ∧
      (bounceHit32 glibcRandMax faintPair zeroStream rayBetween i).normal = alternatingNormal i) ∧
    (perPixelRun32 glibcRandMax faintPair zeroStream rayBetween).i = 10 ∧
    (perPixel32 glibcRandMax faintPair zeroStream rayBetween).color
      = 138 * 2 ^ 24 + 89 * 2 ^ 16 + 138 * 2 ^ 8 + 255 := by
  decide!

/-- The shading formula along the alternating normals, in exact arithmetic. -/
theorem shadeFormula_alternating (i : Nat) :
    shadeFormula Real.sqrt (faintAlbedo : Vec3 ℝ) (alternatingNormal i)
      = if i % 2 = 0 then
          ⟨13421773 / 67108864 * (1 / Real.sqrt 3) + 1 / 10,
           14164381 / 536870912 * (1 / Real.sqrt 3) + 1 / 10,
           13421773 / 67108864 * (1 / Real.sqrt 3) + 1 / 10⟩
        else ⟨1 / 10, 1 / 10, 1 / 10⟩ := by
  unfold alternatingNormal
  split_ifs
  · exact shadeFormula_up (faintAlbedo : Vec3 ℝ) (by norm_num [faintAlbedo])
      (by norm_num [faintAlbedo]) (by norm_num [faintAlbedo])
  · exact shadeFormula_down _

/-- The sum of the claim for ten hits on albedo `faintAlbedo` with the
alternating normals, evaluated in exact arithmetic, has the bytes 138, 90, 138,
255. -/
theorem faintPair_formula :
    convertToRGBA
        ⟨∑ i in Finset.range 10,
            (7 / 10) ^ i * (shadeFormula Real.sqrt (faintAlbedo : Vec3 ℝ) (alternatingNormal i)).x,
         ∑ i in Finset.range 10,
            (7 / 10) ^ i * (shadeFormula Real.sqrt (faintAlbedo : Vec3 ℝ) (alternatingNormal i)).y,
         ∑ i in Finset.range 10,
            (7 / 10) ^ i * (shadeFormula Real.sqrt (faintAlbedo : Vec3 ℝ) (alternatingNormal i)).z,
         1⟩
      = 138 * 2 ^ 24 + 90 * 2 ^ 16 + 138 * 2 ^ 8 + 255 := by
  obtain ⟨hlo, hhi⟩ := inv_sqrt_three_bounds
  rw [one_div] at hlo hhi
  apply convertToRGBA_of_bytes
  · simp only [shadeFormula_alternating, Finset.sum_range_succ, Finset.sum_range_zero]
    apply toUInt8_eq_of_between _ 138 (by norm_num) <;> norm_num <;> linarith
  · simp only [shadeFormula_alternating, Finset.sum_range_succ, Finset.sum_range_zero]
    apply toUInt8_eq_of_between _ 90 (by norm_num) <;> norm_num <;> linarith
  · simp only [shadeFormula_alternating, Finset.sum_range_succ, Finset.sum_range_zero]
    apply toUInt8_eq_of_between _ 138 (by norm_num) <;> norm_num <;> linarith
  · exact alpha_byte

/-- Counterexample to C8 as stated, in binary32 (every operation rounded to
nearest even): for the unit sphere of albedo `dimAlbedo` seen head-on from
`(0, 0, 3)`, bounce `0` hits sphere `0` with normal `(0, 0, 1)` and bounce `1`
is the first miss, so `k = 1`, `albedo_0 = dimAlbedo` and `normal_0 = (0, 0, 1)`.
`perPixel` packs `0x90FDE9FF` (green byte 253), while the colour
`clamp(c_0 + 0.7 * (0.5, 0.7, 1.0), 0, 1)` of the claim packs `0x90FCE9FF`
(green byte 252): `255` times its green channel is just below `253`. -/
theorem perPixel_first_miss_counterexample :
    (bounceHit32 glibcRandMax dimSphere zeroStream rayFromAbove 0).distance ≥ 0 ∧
    (dimSphere.sphereAt
      (bounceHit32 glibcRandMax dimSphere zeroStream rayFromAbove 0).sphereID).material.albedo
        = dimAlbedo ∧
    (bounceHit32 glibcRandMax dimSphere zeroStream rayFromAbove 0).normal = ⟨0, 0, 1⟩ ∧
    (bounceHit32 glibcRandMax dimSphere zeroStream rayFromAbove 1).distance < 0 ∧
    (perPixelRun32 glibcRandMax dimSphere zeroStream rayFromAbove).i = 1 ∧
    (perPixel32 glibcRandMax dimSphere zeroStream rayFromAbove).color = 2432559615 ∧
    convertToRGBA
        ⟨(firstMissColor (fun _ => shadeFormula Real.sqrt (dimAlbedo : Vec3 ℝ) ⟨0, 0, 1⟩) 1).x,
         (firstMissColor (fun _ => shadeFormula Real.sqrt (dimAlbedo : Vec3 ℝ) ⟨0, 0, 1⟩) 1).y,
         (firstMissColor (fun _ => shadeFormula Real.sqrt (dimAlbedo : Vec3 ℝ) ⟨0, 0, 1⟩) 1).z, 1⟩
      = 2432494079 ∧
    (perPixel32 glibcRandMax dimSphere zeroStream rayFromAbove).color
      ≠ convertToRGBA
        ⟨(firstMissColor (fun _ => shadeFormula Real.sqrt (dimAlbedo : Vec3 ℝ) ⟨0, 0, 1⟩) 1).x,
         (firstMissColor (fun _ => shadeFormula Real.sqrt (dimAlbedo : Vec3 ℝ) ⟨0, 0, 1⟩) 1).y,
         (firstMissColor (fun _ => shadeFormula Real.sqrt (dimAlbedo : Vec3 ℝ) ⟨0, 0, 1⟩) 1).z,
         1⟩ := by
  obtain ⟨h0, ha, hn, h1, hi, hc⟩ := dimSphere_run32
  have hf := dimSphere_formula
  refine ⟨h0, ha, hn, h1, hi, by rw [hc]; norm_num, by rw [hf]; norm_num, ?_⟩
  rw [hc, hf]
  norm_num

/-- Counterexample to C12 as stated, in binary32 (every operation rounded to
nearest even): between two facing unit spheres of albedo `faintAlbedo`, all ten
bounces hit, with normals alternating between `(0, 0, 1)` and `(0, 0, -1)`.
`perPixel` packs `0x8A598AFF` (green byte 89), while the sum
`sum_{i<10} 0.7^i * c_i` of the claim packs `0x8A5A8AFF` (green byte 90): `255`
times its green channel is just above `90`. -/
theorem perPixel_exhausted_counterexample :
    (∀ i < 10,
      (bounceHit32 glibcRandMax faintPair zeroStream rayBetween i).distance ≥ 0 ∧
      (faintPair.sphereAt
        (bounceHit32 glibcRandMax faintPair zeroStream rayBetween i).sphereID).material.albedo
          = faintAlbedo ∧
      (bounceHit32 glibcRandMax faintPair zeroStream rayBetween i).normal = alternatingNormal i) ∧
    (perPixelRun32 glibcRandMax faintPair zeroStream rayBetween).i = 10 ∧
    (perPixel32 glibcRandMax faintPair zeroStream rayBetween).color = 2321124095 ∧
    convertToRGBA
        ⟨∑ i in Finset.range 10,
            (7 / 10) ^ i * (shadeFormula Real.sqrt (faintAlbedo : Vec3 ℝ) (alternatingNormal i)).x,
         ∑ i in Finset.range 10,
            (7 / 10) ^ i * (shadeFormula Real.sqrt (faintAlbedo : Vec3 ℝ) (alternatingNormal i)).y,
         ∑ i in Finset.range 10,
            (7 / 10) ^ i * (shadeFormula Real.sqrt (faintAlbedo : Vec3 ℝ) (alternatingNormal i)).z,
         1⟩
      = 2321189631 ∧
    (perPixel32 glibcRandMax faintPair zeroStream rayBetween).color
      ≠ convertToRGBA
        ⟨∑ i in Finset.range 10,
            (7 / 10) ^ i * (shadeFormula Real.sqrt (faintAlbedo : Vec3 ℝ) (alternatingNormal i)).x,
         ∑ i in Finset.range 10,
            (7 / 10) ^ i * (shadeFormula Real.sqrt (faintAlbedo : Vec3 ℝ) (alternatingNormal i)).y,
         ∑ i in Finset.range 10,
            (7 / 10) ^ i * (shadeFormula Real.sqrt (faintAlbedo : Vec3 ℝ) (alternatingNormal i)).z,
         1⟩ := by
  obtain ⟨hh, hi, hc⟩ := faintPair_run32
  have hf := faintPair_formula
  refine ⟨hh, hi, by rw [hc]; norm_num, by rw [hf]; norm_num, ?_⟩
  rw [hc, hf]
  norm_num

end Binary32Exhausted

end RayTracer
